import Mathlib

/-!
# Addresser: the address parser of `parser.go`

A shallow embedding of `ParseAddress` and of the helpers it calls.

Conventions of the embedding.

* A Go string is the list of its characters (`Str`).  Lengths, slices, case
  mapping and the case folding of `(?i)` are taken character by character with
  the ASCII letters, which is what Go does on ASCII text (`isAscii`): there a
  byte is a character, `strings.ToUpper` and `strings.ToLower` change the
  ASCII letters only, and `(?i)` folds a letter with its other case only.
  Outside ASCII Go counts bytes, maps the case of every letter and folds
  U+017F with `s` and U+212A with `k`; that is not embedded, and the theorems
  about an arbitrary input are stated for ASCII inputs.  The
  regular-expression classes `\d`, `\w`, `\s`, `\b` are ASCII-only in Go as
  they are here.
* A Go call ends in one of three ways: it returns a record, it returns an
  error, or it stops with a run-time panic (an index out of range).  `Outcome`
  keeps the three apart.
* The embedded JSON tables (`data/states.json`, `data/cities.json`,
  `data/us-street-types.json`) are parameters (`Tables`).  A Go map is a list of
  key/value pairs; the order of the list is the order in which a `range` loop
  visits the entries.  Table entries are spliced into regular expressions by
  the source (lines 249, 276 and 332); they are read here as literal text,
  which is what the regular expression means when the entry is ASCII text
  without metacharacter (`isLiteral`); the theorems that depend on a table
  take such tables (`literalTables`).
* Every regular expression of the source is written out as the matcher it
  denotes, with the expression quoted in the doc comment.  Several expressions
  of the source double their backslashes, so that they ask for a literal
  backslash; they are embedded as written.
-/

namespace Addresser

/-- A Go string. -/
abbrev Str := List Char

/-! ## Characters and elementary string functions -/

/-- The class `\d`, which is `[0-9]`. -/
def isDigit (c : Char) : Bool := 48 ≤ c.toNat && c.toNat ≤ 57

/-- The class `[A-Z]`. -/
def isUpperLetter (c : Char) : Bool := 65 ≤ c.toNat && c.toNat ≤ 90

/-- The class `[a-z]`. -/
def isLowerLetter (c : Char) : Bool := 97 ≤ c.toNat && c.toNat ≤ 122

/-- The class `[a-zA-Z]`. -/
def isLetter (c : Char) : Bool := isUpperLetter c || isLowerLetter c

/-- The class `[a-zA-Z0-9]`. -/
def isAlnum (c : Char) : Bool := isLetter c || isDigit c

/-- The class `\w`, which is `[0-9A-Za-z_]`. -/
def isWordChar (c : Char) : Bool := isAlnum c || c == '_'

/-- The class `\s`, which is `[\t\n\f\r ]`. -/
def isReSpace (c : Char) : Bool :=
  c.toNat == 9 || c.toNat == 10 || c.toNat == 12 || c.toNat == 13 || c.toNat == 32

/-- White space in the sense of `unicode.IsSpace`, used by `strings.TrimSpace`: the
characters `\t`, `\n`, `\v`, `\f`, `\r`, the space, U+0085, U+00A0, U+1680, U+2000 to
U+200A, U+2028, U+2029, U+202F, U+205F and U+3000. -/
def isSpace (c : Char) : Bool :=
  (9 ≤ c.toNat && c.toNat ≤ 13) || c.toNat == 32 || c.toNat == 0x85 || c.toNat == 0xA0 ||
  c.toNat == 0x1680 || (0x2000 ≤ c.toNat && c.toNat ≤ 0x200a) ||
  c.toNat == 0x2028 || c.toNat == 0x2029 || c.toNat == 0x202f || c.toNat == 0x205f ||
  c.toNat == 0x3000

/-- Go `strings.TrimSpace`. -/
def trimSpace (s : Str) : Str := (s.dropWhile isSpace).rdropWhile isSpace

/-- Go `strings.ToUpper` on ASCII text: the ASCII letters are mapped, every other
character is left alone. -/
def toUpper (s : Str) : Str := s.map Char.toUpper

/-- Go `strings.ToLower` on ASCII text: the ASCII letters are mapped, every other
character is left alone. -/
def toLower (s : Str) : Str := s.map Char.toLower

/-- The last `n` characters of `s` (all of `s` when it is shorter). -/
def lastN (n : Nat) (s : Str) : Str := s.drop (s.length - n)

/-- The slice `s[0 : len(s)-n]`. -/
def dropLastN (n : Nat) (s : Str) : Str := s.take (s.length - n)

/-- The scan of `toTitleCase`: every match of `\w\S*` has its first character upper-cased
and the rest lower-cased.  The flag says that the scan is inside a match. -/
def titleCaseAux : Bool → Str → Str
  | _, [] => []
  | true, c :: rest =>
    if isReSpace c then c :: titleCaseAux false rest
    else c.toLower :: titleCaseAux true rest
  | false, c :: rest =>
    if isWordChar c then c.toUpper :: titleCaseAux true rest
    else c :: titleCaseAux false rest

/-- Go `toTitleCase`, with the case mappings of ASCII text. -/
def toTitleCase (str : Str) : Str := titleCaseAux false str

/-- Go `getKeyByValue`: the first key, in iteration order, whose value is `value`;
the empty string when there is none. -/
def getKeyByValue (object : List (Str × Str)) (value : Str) : Str :=
  match object.find? (fun kv => kv.2 == value) with
  | some kv => kv.1
  | none => []

/-- A Go map lookup `object[key]`, with the zero value when the key is absent. -/
def lookup {α : Type} (object : List (Str × α)) (key : Str) (zero : α) : α :=
  match object.find? (fun kv => kv.1 == key) with
  | some kv => kv.2
  | none => zero

/-- The pattern ` +` replaced by one space: `seenSpace` says that the previous
character was a space. -/
def collapseAux : Bool → Str → Str
  | _, [] => []
  | seenSpace, c :: rest =>
    if c == ' ' then
      if seenSpace then collapseAux true rest else ' ' :: collapseAux true rest
    else c :: collapseAux false rest

/-- The statement `address = pattern.ReplaceAllString(address, " ")` for the pattern ` +`. -/
def collapseSpaces (s : Str) : Str := collapseAux false s

/-- The statement `pattern.Split(address, -1)` of line 193, which is `splitAddress` with
the raw pattern `,|\\t|\\n` of line 192: a comma, or a backslash followed by `t`, or a
backslash followed by `n`. -/
def splitAddress : Str → List Str
  | [] => [[]]
  | ',' :: rest => [] :: splitAddress rest
  | '\\' :: 't' :: rest => [] :: splitAddress rest
  | '\\' :: 'n' :: rest => [] :: splitAddress rest
  | c :: rest =>
    match splitAddress rest with
    | seg :: segs => (c :: seg) :: segs
    | [] => [[c]]

/-- Go `strings.Split(s, " ")`. -/
def splitSpace : Str → List Str
  | [] => [[]]
  | c :: rest =>
    if c == ' ' then [] :: splitSpace rest
    else
      match splitSpace rest with
      | seg :: segs => (c :: seg) :: segs
      | [] => [[c]]

/-- Go `strings.Join(parts, " ")`. -/
def joinSpace : List Str → Str
  | [] => []
  | [p] => p
  | p :: q :: rest => p ++ ' ' :: joinSpace (q :: rest)

/-- Case-insensitive comparison of a literal of a `(?i)` pattern with a text, both ASCII:
a letter is folded with its other case only. -/
def eqFold (pat s : Str) : Bool := toLower pat == toLower s

/-- A literal of a `(?i)` pattern at the start of the text: the text after it.  Literal
and text are ASCII: a letter is folded with its other case only. -/
def stripPrefixFold : Str → Str → Option Str
  | [], s => some s
  | _ :: _, [] => none
  | p :: ps, c :: cs => if p.toLower == c.toLower then stripPrefixFold ps cs else none

/-- A literal of a `(?i)` pattern followed by `$`: the text ends with the literal.  Literal
and text are ASCII (`isLiteral`, `isAscii`): a letter is folded with its other case only,
and the literal has no metacharacter. -/
def hasSuffixFold (pat s : Str) : Bool :=
  decide (pat.length ≤ s.length) && eqFold pat (lastN pat.length s)

/-! ## Data -/

/-- The record `Address`. -/
structure Address where
  ID : Str := []
  ZipCode : Str := []
  ZipCodePlusFour : Str := []
  StateAbbreviation : Str := []
  StateName : Str := []
  PlaceName : Str := []
  AddressLine1 : Str := []
  AddressLine2 : Str := []
  StreetNumber : Str := []
  FormattedAddress : Str := []
  StreetDirection : Str := []
  StreetName : Str := []
  StreetSuffix : Str := []
  deriving DecidableEq, Repr

/-- The errors `ParseAddress` builds with `errors.New` and `fmt.Errorf`. -/
inductive ParseError where
  /-- The text "argument must be a non-empty string". -/
  | emptyArgument
  /-- The text "can not parse address. State not found". -/
  | stateNotFound
  /-- The text "can not parse address. More than two address lines". -/
  | moreThanTwoLines
  /-- The text "can not parse address. Too many address lines. Input string: " and the input. -/
  | tooManyLines (input : Str)
  /-- The text "can not parse address. Invalid street address data. Input string: " and the input. -/
  | invalidStreet (input : Str)
  deriving DecidableEq, Repr

/-- How a call ends: with a value, with an error, or with a run-time panic. -/
inductive Outcome (α : Type) where
  | ok (value : α)
  | error (e : ParseError)
  | panic
  deriving DecidableEq, Repr

/-- The embedded tables: `allStates` is `data/states.json` (state name to abbreviation),
`allCities` is `data/cities.json` (abbreviation to city names), `usStreetTypes` is
`data/us-street-types.json` (street type to canonical suffix). -/
structure Tables where
  allStates : List (Str × Str)
  allCities : List (Str × List Str)
  usStreetTypes : List (Str × Str)

/-- The map `usStreetDirectional`. -/
def usStreetDirectional : List (Str × Str) :=
  [("north".toList, "N".toList), ("northeast".toList, "NE".toList), ("east".toList, "E".toList),
   ("southeast".toList, "SE".toList), ("south".toList, "S".toList),
   ("southwest".toList, "SW".toList), ("west".toList, "W".toList),
   ("northwest".toList, "NW".toList)]

/-- The map `usLine2Prefixes`. -/
def usLine2Prefixes : List (Str × Str) :=
  [("APARTMENT".toList, "APT".toList), ("APT".toList, "APT".toList),
   ("BASEMENT".toList, "BSMT".toList), ("BSMT".toList, "BSMT".toList),
   ("BLDG".toList, "BLDG".toList), ("BUILDING".toList, "BLDG".toList),
   ("DEPARTMENT".toList, "DEPT".toList), ("DEPT".toList, "DEPT".toList),
   ("FL".toList, "FL".toList), ("FLOOR".toList, "FL".toList),
   ("FRNT".toList, "FRNT".toList), ("FRONT".toList, "FRNT".toList),
   ("HANGAR".toList, "HNGR".toList), ("HNGR".toList, "HNGR".toList),
   ("LBBY".toList, "LBBY".toList), ("LOBBY".toList, "LBBY".toList),
   ("LOT".toList, "LOT".toList), ("LOWER".toList, "LOWR".toList),
   ("LOWR".toList, "LOWER".toList), ("OFC".toList, "OFC".toList),
   ("OFFICE".toList, "OFC".toList), ("PENTHOUSE".toList, "PH".toList),
   ("PH".toList, "PH".toList), ("PIER".toList, "PIER".toList), ("REAR".toList, "REAR".toList),
   ("RM".toList, "RM".toList), ("ROOM".toList, "RM".toList), ("SIDE".toList, "SIDE".toList),
   ("SLIP".toList, "SLIP".toList), ("SPACE".toList, "SPC".toList), ("SPC".toList, "SPC".toList),
   ("STE".toList, "STE".toList), ("STOP".toList, "STOP".toList), ("SUITE".toList, "STE".toList),
   ("TRAILER".toList, "TRLR".toList), ("TRLR".toList, "TRLR".toList),
   ("UNIT".toList, "UNIT".toList), ("UPPER".toList, "UPPR".toList),
   ("UPPR".toList, "UPPR".toList), ("#".toList, "#".toList)]

/-- The alternatives of `strings.Join(keys, "|")` inside a group: joining no key at all
gives the empty pattern, which matches the empty text. -/
def alternatives (keys : List Str) : List Str := if keys.isEmpty then [[]] else keys

/-- The alternatives of `usLine2String`, the keys of `usLine2Prefixes`. -/
def usLine2Keys : List Str := alternatives (usLine2Prefixes.map Prod.fst)

/-- The alternatives of `usStreetDirectionalString`, the values of `usStreetDirectional`. -/
def usDirectionalValues : List Str := alternatives (usStreetDirectional.map Prod.snd)

/-! ## The ZIP extractor (lines 206-228) -/

/-- The pattern `\d{5}$`. -/
def matchZip5 (s : Str) : Bool := decide (5 ≤ s.length) && (lastN 5 s).all isDigit

/-- The pattern `\d{5}-\d{4}$`. -/
def matchZip9 (s : Str) : Bool :=
  decide (10 ≤ s.length) && ((lastN 10 s).take 5).all isDigit &&
    ((lastN 10 s).drop 5).head? == some '-' && (lastN 4 s).all isDigit

/-- The pattern `[A-Z]\d[A-Z] ?\d[A-Z]\d` at the start of the text: the matched text. -/
def canadianAt : Str → Option Str
  | a :: b :: c :: rest =>
    if isUpperLetter a && isDigit b && isUpperLetter c then
      match rest with
      | ' ' :: d :: e :: f :: _ =>
        if isDigit d && isUpperLetter e && isDigit f then some [a, b, c, ' ', d, e, f] else none
      | d :: e :: f :: _ =>
        if isDigit d && isUpperLetter e && isDigit f then some [a, b, c, d, e, f] else none
      | _ => none
    else none
  | _ => none

/-- The leftmost match of the unanchored pattern `[A-Z]\d[A-Z] ?\d[A-Z]\d`. -/
def findCanadian : Str → Option Str
  | [] => none
  | c :: rest =>
    match canadianAt (c :: rest) with
    | some m => some m
    | none => findCanadian rest

/-- The ZIP extractor: the values of `r.ZipCode`, `r.ZipCodePlusFour` and `stateString`
after line 228.  The slices of lines 213, 222 and 227 count bytes, which are the characters
of an ASCII text. -/
def zipStage (stateString : Str) : Str × Str × Str :=
  if matchZip5 stateString then
    (lastN 5 stateString, [], trimSpace (dropLastN 5 stateString))
  else if matchZip9 stateString then
    let zipString := lastN 10 stateString
    (zipString.take 5, zipString, trimSpace (dropLastN 10 stateString))
  else
    match findCanadian stateString with
    | some zipCode => (zipCode, [], trimSpace (dropLastN zipCode.length stateString))
    | none => ([], [], stateString)

/-! ## The state resolver (lines 238-261) -/

/-- The pattern `(?i) AB$|name$` built from a table entry that is taken literally
(`isLiteral`): the length of the leftmost match in the ASCII text `s`, when there is one. -/
def stateMatchLen (key abbr s : Str) : Option Nat :=
  let viaAbbr := hasSuffixFold (' ' :: abbr) s
  let viaName := hasSuffixFold key s
  if viaAbbr && viaName then some (max (abbr.length + 1) key.length)
  else if viaAbbr then some (abbr.length + 1)
  else if viaName then some key.length
  else none

/-- The fallback scan `for key := range allStates`: abbreviation, state name and the
new `stateString`; nothing is set when no entry matches. -/
def scanStates : List (Str × Str) → Str → Str × Str × Str
  | [], s => ([], [], s)
  | (key, abbr) :: rest, s =>
    match stateMatchLen key abbr s with
    | some n => (abbr, toTitleCase key, dropLastN n s)
    | none => scanStates rest s

/-- The state resolver: `r.StateAbbreviation`, `r.StateName` and `stateString` after
line 257.  The test `len(stateString) == 2` of line 243 counts bytes, which are the
characters of an ASCII text. -/
def resolveState (allStates : List (Str × Str)) (stateString : Str) : Str × Str × Str :=
  let key := getKeyByValue allStates (toUpper stateString)
  if stateString.length == 2 && key != [] then
    (toUpper stateString, toTitleCase key, dropLastN 2 stateString)
  else scanStates allStates stateString

/-! ## The city resolver (lines 273-288) -/

/-- The loop over `allCities[r.StateAbbreviation]` with the pattern `(?i)city$`: the
first city that matches and `placeString` with the match carved off.  The entries are
taken literally (`isLiteral`) and the text is ASCII. -/
def scanCities : List Str → Str → Option (Str × Str)
  | [], _ => none
  | element :: rest, placeString =>
    if hasSuffixFold element placeString then
      some (element, dropLastN element.length placeString)
    else scanCities rest placeString

/-- The city resolver: `r.PlaceName` and `placeString` after line 288. -/
def resolveCity (T : Tables) (abbr placeString : Str) : Str × Str :=
  match scanCities (lookup T.allCities abbr []) placeString with
  | none => ([], placeString)
  | some (element, carved) =>
    if element.length != 0 then (toTitleCase element, []) else ([], carved)

/-! ## The patterns of the line splitter and of the street parser -/

/-- The pattern `(?i)^(keys)\\b` of line 305, whose doubled backslash asks for a literal
backslash followed by the letter b. -/
def matchLine2First (s : Str) : Bool :=
  usLine2Keys.any fun key => (stripPrefixFold (key ++ ['\\', 'b']) s).isSome

/-- The letter s of a `(?i)` pattern, in an ASCII text. -/
def isLetterS (c : Char) : Bool := c.toLower == 's'

/-- The letter w of a `(?i)` pattern, in an ASCII text. -/
def isLetterW (c : Char) : Bool := c.toLower == 'w'

/-- The pattern `(?i)^(keys)\\s\\S+` of line 321 for one key: the key, a backslash, the
letter s, a backslash and one or more letters s.  The result is the matched text. -/
def line2FrontWith (s key : Str) : Option Str :=
  match stripPrefixFold (key ++ ['\\', 's', '\\']) s with
  | none => none
  | some rest =>
    if (rest.takeWhile isLetterS).isEmpty then none
    else some (s.take (key.length + 3 + (rest.takeWhile isLetterS).length))

/-- The pattern `(?i)^(keys)\\s\\S+` of line 321: the matched text. -/
def line2Front (s : Str) : Option Str := usLine2Keys.findSome? (line2FrontWith s)

/-- The tail `\.\*\\b[a-zA-Z]\\b` of `reAveLetter`: the text after it. -/
def aveTail (s : Str) : Option Str :=
  match stripPrefixFold ['.', '*', '\\', 'b'] s with
  | some (l :: rest) => if isLetter l then stripPrefixFold ['\\', 'b'] rest else none
  | _ => none

/-- The group `(ave.?|avenue)` of `reAveLetter` followed by its tail, in the order of a
backtracking match: `ave` and one character (not a newline), `ave` alone, `avenue`. -/
def aveGroup (s : Str) : Option Str :=
  match stripPrefixFold ['a', 'v', 'e'] s with
  | none => none
  | some rest =>
    let withChar := match rest with
      | c :: rest1 => if c != '\n' then aveTail rest1 else none
      | [] => none
    (withChar.orElse fun _ => aveTail rest).orElse fun _ =>
      (stripPrefixFold ['n', 'u', 'e'] rest).bind aveTail

/-- The pattern `reAveLetter`, `(?i)\.\*\\b(ave.?|avenue)\.\*\\b[a-zA-Z]\\b`, at the
start of the text: the length of the match. -/
def aveAt (s : Str) : Option Nat :=
  ((stripPrefixFold ['.', '*', '\\', 'b'] s).bind aveGroup).map fun rest =>
    s.length - rest.length

/-- The leftmost match of a pattern given by its matcher at the start of a text. -/
def findMatch (matchAt : Str → Option Nat) : Str → Option Str
  | [] => (matchAt []).map fun n => ([] : Str).take n
  | c :: rest =>
    match matchAt (c :: rest) with
    | some n => some ((c :: rest).take n)
    | none => findMatch matchAt rest

/-- The statement `re.ReplaceAllString(s, "")` for a pattern given by its matcher at
the start of a text, whose matches are not empty; `skip` counts the characters of the
current match that are still to be dropped. -/
def removeMatches (matchAt : Str → Option Nat) : Nat → Str → Str
  | _, [] => []
  | skip + 1, _ :: rest => removeMatches matchAt skip rest
  | 0, c :: rest =>
    match matchAt (c :: rest) with
    | some (n + 1) => removeMatches matchAt n rest
    | _ => c :: removeMatches matchAt 0 rest

/-- The pattern `reStreet`,
`(?i)\.\*\\b(?:types)\\b\\.?( +(?:directions)\\b)?`, at the start of the text.  Its
optional parts do not change whether it matches: a dot, a star, a backslash, the letter
b, a street type, a backslash, the letter b and a backslash. -/
def streetAt (streetTypes : List Str) (s : Str) : Bool :=
  (alternatives streetTypes).any fun key =>
    (stripPrefixFold (['.', '*', '\\', 'b'] ++ key ++ ['\\', 'b', '\\']) s).isSome

/-- The call `reStreet.MatchString(s)`. -/
def matchStreet (streetTypes : List Str) : Str → Bool
  | [] => streetAt streetTypes []
  | c :: rest => streetAt streetTypes (c :: rest) || matchStreet streetTypes rest

/-- The tail `\\s+(BOX|DRAWER)\\s\\w+` of `rePO`: a backslash, letters s, the word, a
backslash, the letter s, a backslash and letters w.  The result is the text after it. -/
def poTail (s : Str) : Option Str :=
  match stripPrefixFold ['\\', 's'] s with
  | none => none
  | some rest =>
    let rest1 := rest.dropWhile isLetterS
    let word := (stripPrefixFold ['B', 'O', 'X'] rest1).orElse fun _ =>
      stripPrefixFold ['D', 'R', 'A', 'W', 'E', 'R'] rest1
    match word.bind (stripPrefixFold ['\\', 's', '\\', 'w']) with
    | none => none
    | some rest2 => some (rest2.dropWhile isLetterW)

/-- An optional character `.?` (not a newline) in front of `next`, taken when possible. -/
def optionalChar (next : Str → Option Str) (s : Str) : Option Str :=
  let withChar := match s with
    | c :: rest => if c != '\n' then next rest else none
    | [] => none
  withChar.orElse fun _ => next s

/-- The pattern `rePO`,
`(?i)(P\\.?O\\.?|POST\\s+OFFICE)\\s+(BOX|DRAWER)\\s\\w+`, at the start of the text: the
length of the match. -/
def poAt (s : Str) : Option Nat :=
  let first := (stripPrefixFold ['P', '\\'] s).bind
    (optionalChar fun s1 => (stripPrefixFold ['O', '\\'] s1).bind (optionalChar poTail))
  let second := (stripPrefixFold ['P', 'O', 'S', 'T', '\\', 's'] s).bind fun s1 =>
    (stripPrefixFold ['O', 'F', 'F', 'I', 'C', 'E'] (s1.dropWhile isLetterS)).bind poTail
  (first.orElse fun _ => second).map fun rest => s.length - rest.length

/-- The class `[a-zA-Z0-9_ ]` of `reNoSuffix`, in an ASCII text. -/
def isNameChar (c : Char) : Bool := isAlnum c || c == '_' || c == ' '

/-- Whether the text starts with a word character (the right side of `\b`). -/
def startsWithWord : Str → Bool
  | [] => false
  | c :: _ => isWordChar c

/-- The part `[a-zA-Z0-9_ ]+\b` of `reNoSuffix`: the longest run of the class that ends
at a word boundary. -/
def nameRun : Str → Option Nat
  | [] => none
  | c :: rest =>
    if isNameChar c then
      match nameRun rest with
      | some n => some (n + 1)
      | none => if isWordChar c != startsWithWord rest then some 1 else none
    else none

/-- The part `\d+\s[a-zA-Z0-9_ ]+\b` of `reNoSuffix` at the start of the text: the
length of the match. -/
def noSuffixAt (s : Str) : Option Nat :=
  if (s.takeWhile isDigit).isEmpty then none
  else
    match s.dropWhile isDigit with
    | w :: rest =>
      if isReSpace w then (nameRun rest).map fun n => (s.takeWhile isDigit).length + 1 + n
      else none
    | [] => none

/-- The leftmost match of `reNoSuffix`, `(?i)\b\d+\s[a-zA-Z0-9_ ]+\b`; `prevWord` says
that the character before the text is a word character. -/
def findNoSuffix : Bool → Str → Option Str
  | _, [] => none
  | prevWord, c :: rest =>
    match (if prevWord then none else noSuffixAt (c :: rest)) with
    | some n => some ((c :: rest).take n)
    | none => findNoSuffix (isWordChar c) rest

/-- The class `[a-zA-Z0-9_\-]` of `reLine2`, in an ASCII text. -/
def isUnitChar (c : Char) : Bool := isAlnum c || c == '_' || c == '-'

/-- The end `\\s[a-zA-Z0-9_\-]+$` of `reLine2`: a backslash, the letter s and a run of
the class up to the end of the text. -/
def line2End (s : Str) : Bool :=
  match stripPrefixFold ['\\', 's'] s with
  | some rest => !rest.isEmpty && rest.all isUnitChar
  | none => false

/-- The pattern `reLine2`, `(?i)\\s(keys)\\.?\\s[a-zA-Z0-9_\-]+$`, matching the whole
text. -/
def line2TailAt (s : Str) : Bool :=
  usLine2Keys.any fun key =>
    match stripPrefixFold (['\\', 's'] ++ key ++ ['\\']) s with
    | none => false
    | some rest =>
      (match rest with
        | c :: rest1 => c != '\n' && line2End rest1
        | [] => false) || line2End rest

/-- The leftmost match of `reLine2`: the number of characters in front of it. -/
def findLine2Tail : Str → Option Nat
  | [] => if line2TailAt [] then some 0 else none
  | c :: rest =>
    if line2TailAt (c :: rest) then some 0 else (findLine2Tail rest).map (· + 1)

/-- The pattern `(?i)\.\*\\b(?:directions)$` of line 379. -/
def matchDirectionEnd (s : Str) : Bool :=
  usDirectionalValues.any fun d => hasSuffixFold (['.', '*', '\\', 'b'] ++ d) s

/-- The pattern `(?i)^(ave.?|avenue)$` of line 356 replaced by `Ave`. -/
def normalizeAve (part : Str) : Str :=
  if eqFold ['a', 'v', 'e'] part || eqFold ['a', 'v', 'e', 'n', 'u', 'e'] part ||
      (part.length == 4 && eqFold ['a', 'v', 'e'] (part.take 3) &&
        part.getLast? != some '\n') then
    ['A', 'v', 'e']
  else part

/-- The pattern `\.$` of line 393 replaced by the empty string. -/
def stripFinalDot (part : Str) : Str :=
  if part.getLast? == some '.' then part.dropLast else part

/-! ## Slices -/

/-- Sequencing of calls: an error or a panic ends the computation. -/
def Outcome.bind {α β : Type} : Outcome α → (α → Outcome β) → Outcome β
  | .ok value, f => f value
  | .error e, _ => .error e
  | .panic, _ => .panic

/-- An index or slice expression that panics when it is out of range. -/
def Outcome.ofOption {α : Type} : Option α → Outcome α
  | some value => .ok value
  | none => .panic

/-- The expression `parts[len(parts)-1]`. -/
def lastPart (parts : List Str) : Outcome Str := Outcome.ofOption parts.getLast?

/-- The expression `parts[0 : len(parts)-1]`. -/
def sliceInit (parts : List Str) : Outcome (List Str) :=
  if parts.isEmpty then .panic else .ok parts.dropLast

/-- The statement `parts[len(parts)-1] = value`. -/
def setLast (parts : List Str) (value : Str) : Outcome (List Str) :=
  if parts.isEmpty then .panic else .ok (parts.dropLast ++ [value])

/-! ## The composer (lines 440-453) -/

/-- Go `strings.ReplaceAll(s, old, "-")` for a one-character `old`. -/
def replaceChar (old : Char) (s : Str) : Str := s.map fun c => if c == old then '-' else c

/-- Go `strings.ReplaceAll(s, "//", "-")`. -/
def replaceSlashes : Str → Str
  | [] => []
  | '/' :: '/' :: rest => '-' :: replaceSlashes rest
  | c :: rest => c :: replaceSlashes rest

/-- The UTF-8 bytes of a character. -/
def utf8Bytes (c : Char) : List Nat :=
  if c.toNat < 0x80 then [c.toNat]
  else if c.toNat < 0x800 then [0xC0 + c.toNat / 64, 0x80 + c.toNat % 64]
  else if c.toNat < 0x10000 then
    [0xE0 + c.toNat / 4096, 0x80 + c.toNat / 64 % 64, 0x80 + c.toNat % 64]
  else
    [0xF0 + c.toNat / 262144, 0x80 + c.toNat / 4096 % 64, 0x80 + c.toNat / 64 % 64,
      0x80 + c.toNat % 64]

/-- The digit `upperhex[n]` of `net/url`. -/
def hexDigit (n : Nat) : Char := "0123456789ABCDEF".toList.getD n '0'

/-- The escape `%XX` of a byte. -/
def escapeByte (b : Nat) : Str := ['%', hexDigit (b / 16), hexDigit (b % 16)]

/-- The characters `url.QueryEscape` leaves alone: letters, digits, `-`, `_`, `.`, `~`. -/
def isUnreserved (c : Char) : Bool :=
  isAlnum c || c == '-' || c == '_' || c == '.' || c == '~'

/-- Go `url.QueryEscape` on one character. -/
def escapeChar (c : Char) : Str :=
  if isUnreserved c then [c]
  else if c == ' ' then ['+']
  else (utf8Bytes c).flatMap escapeByte

/-- Go `url.QueryEscape`. -/
def queryEscape (s : Str) : Str := s.flatMap escapeChar

/-- The identifier of lines 448-452. -/
def makeID (idString : Str) : Str :=
  queryEscape (replaceChar '.' (replaceSlashes (replaceChar '#' (replaceChar ' ' idString))))

/-- The value of `addressString`, lines 440-443. -/
def addressString (r : Address) : Str :=
  if r.AddressLine2.length > 0 then r.AddressLine1 ++ ", ".toList ++ r.AddressLine2
  else r.AddressLine1

/-- The value of `idString`, line 446. -/
def idString (r : Address) : Str :=
  addressString r ++ ", ".toList ++ r.PlaceName ++ ", ".toList ++ r.StateAbbreviation ++
    " ".toList ++ r.ZipCode

/-- The composer, lines 440-453. -/
def compose (r : Address) : Address :=
  if (addressString r).length > 0 && r.PlaceName.length > 0 &&
      r.StateAbbreviation.length > 0 && r.ZipCode.length > 0 then
    { r with FormattedAddress := idString r, ID := makeID (idString r) }
  else r

/-! ## The street parser (lines 317-438) -/

/-- The branch of `reAveLetter`, lines 340-365. -/
def aveLetterStreet (address : Str) (r : Address) (streetString line1 : Str) :
    Outcome Address :=
  let streetString := trimSpace (removeMatches aveAt 0 streetString)
  if streetString.length > 0 && r.AddressLine2.length > 0 then
    .error (.tooManyLines address)
  else
    let r := if streetString.length > 0 then { r with AddressLine2 := streetString } else r
    let streetParts := splitSpace line1
    match streetParts.head? with
    | none => .panic
    | some number =>
      if streetParts.length < 2 then .panic
      else
        let streetParts :=
          streetParts.modify normalizeAve (streetParts.length - 2)
        let name := toTitleCase (joinSpace (streetParts.drop 1))
        .ok { r with
          StreetNumber := number
          StreetName := name
          AddressLine1 := joinSpace [number, name] }

/-- The value of `r.AddressLine1` after lines 403-411. -/
def streetLine (number name suffix direction : Str) : Str :=
  (if suffix.length > 0 then joinSpace [number, name] ++ ' ' :: suffix
    else joinSpace [number, name]) ++
  (if direction.length > 0 then ' ' :: direction else [])

/-- The branch of `reStreet`, lines 367-411.  In lines 367 and 368 the variable `pattern`
still holds the ZIP pattern `\d{5}$` of line 207: the first address line is the last five
characters of the street line when they are digits, and the index panics otherwise. -/
def standardStreet (T : Tables) (address : Str) (r : Address) (streetString : Str) :
    Outcome Address :=
  if matchZip5 streetString then
    if (dropLastN 5 streetString).length > 0 && r.AddressLine2.length > 0 then
      .error (.tooManyLines address)
    else
      let r :=
        if (dropLastN 5 streetString).length > 0 then
          { r with AddressLine2 := dropLastN 5 streetString }
        else r
      let line1 := lastN 5 streetString
      let streetParts := splitSpace line1
      let hasDirection := matchDirectionEnd line1
      let direction := if hasDirection then toUpper (streetParts.getLastD []) else []
      let streetParts := if hasDirection then streetParts.dropLast else streetParts
      match streetParts.head? with
      | none => .panic
      | some number =>
        let streetParts :=
          if streetParts.length > 2 then
            streetParts.modify stripFinalDot (streetParts.length - 1)
          else streetParts
        let suffix :=
          if streetParts.length > 2 then
            toTitleCase (toLower (lookup T.usStreetTypes (streetParts.getLastD []) []))
          else []
        match streetParts.get? 1 with
        | none => .panic
        | some name1 =>
          let name := toTitleCase (joinSpace (name1 :: (streetParts.drop 2).dropLast))
          .ok { r with
            StreetDirection := direction
            StreetNumber := number
            StreetSuffix := suffix
            StreetName := name
            AddressLine1 := streetLine number name suffix direction }
  else .panic

/-- The branch of `reNoSuffix`, lines 416-432. -/
def noSuffixStreet (r : Address) (streetString : Str) : Outcome Address :=
  let r := match findLine2Tail streetString with
    | some n => { r with AddressLine2 := trimSpace (streetString.drop n) }
    | none => r
  let streetString := match findLine2Tail streetString with
    | some n => trimSpace (streetString.take n)
    | none => streetString
  match findNoSuffix false streetString with
  | none => .panic
  | some line1 =>
    match splitSpace line1 with
    | [] => .panic
    | number :: rest =>
      .ok { r with
        AddressLine1 := line1
        StreetNumber := number
        StreetName := joinSpace rest }

/-- The four grammars in their order, lines 339-435. -/
def streetGrammars (T : Tables) (address : Str) (r : Address) (streetString : Str) :
    Outcome Address :=
  match findMatch aveAt streetString with
  | some line1 => aveLetterStreet address r streetString line1
  | none =>
    if matchStreet (T.usStreetTypes.map Prod.fst) streetString then
      standardStreet T address r streetString
    else
      match findMatch poAt streetString with
      | some line1 => .ok { r with AddressLine1 := line1 }
      | none =>
        if (findNoSuffix false streetString).isSome then noSuffixStreet r streetString
        else .error (.invalidStreet address)

/-- The street parser, lines 317-438: `stateString` is what the state resolver left,
which line 323 reads in place of `streetString`. -/
def parseStreet (T : Tables) (address stateString : Str) (r : Address) :
    List Str → Outcome Address
  | [part] =>
    let streetString := trimSpace part
    match (if r.AddressLine2.length == 0 then line2Front streetString else none) with
    | some front =>
      match line2Front stateString with
      | none => .panic
      | some line2 =>
        streetGrammars T address { r with AddressLine2 := line2 }
          (trimSpace (streetString.drop front.length))
    | none => streetGrammars T address r streetString
  | _ => .error (.invalidStreet address)

/-! ## The pipeline -/

/-- The country tokens of line 199. -/
def isCountry (s : Str) : Bool :=
  s == "US".toList || s == "USA".toList || s == "United States".toList ||
    s == "Canada".toList

/-- The segments, lines 193-201: the split of the normalised input, without a trailing
country segment. -/
def countryStage (address : Str) : Outcome (List Str) :=
  (lastPart (splitAddress address)).bind fun countryPart =>
    if isCountry (trimSpace countryPart) then sliceInit (splitAddress address)
    else .ok (splitAddress address)

/-- Line 204: the segments and the trimmed trailing segment, the first value of
`stateString`. -/
def trailingStage (address : Str) : Outcome (List Str × Str) :=
  (countryStage address).bind fun addressParts =>
    (lastPart addressParts).bind fun statePart => .ok (addressParts, trimSpace statePart)

/-- Lines 231-236: the segments and the text handed to the state resolver. -/
def stateSegment (addressParts : List Str) (stateString : Str) :
    Outcome (List Str × Str) :=
  if stateString.length > 0 then
    (setLast addressParts stateString).bind fun parts => .ok (parts, stateString)
  else
    (sliceInit addressParts).bind fun parts =>
      (lastPart parts).bind fun part => .ok (parts, trimSpace part)

/-- Lines 187-236: the record, the segments and `stateString` in front of the state
resolver. -/
def zipped (address : Str) : Outcome (Address × List Str × Str) :=
  (trailingStage address).bind fun ts =>
    (stateSegment ts.1 (zipStage ts.2).2.2).bind fun ps =>
      .ok ({ ZipCode := (zipStage ts.2).1, ZipCodePlusFour := (zipStage ts.2).2.1 }, ps.1, ps.2)

/-- Lines 264-299: the city resolver with the bookkeeping of the segments around it. -/
def cityStage (T : Tables) (r : Address) (addressParts : List Str) (stateString : Str) :
    Outcome (Address × List Str) :=
  (if stateString.length > 0 then
      (setLast addressParts stateString).bind fun parts => .ok (parts, stateString)
    else
      (sliceInit addressParts).bind fun parts =>
        (lastPart parts).bind fun part => .ok (parts, trimSpace part)).bind fun ps =>
    (if (resolveCity T r.StateAbbreviation ps.2).2.length > 0 then
        setLast ps.1 (resolveCity T r.StateAbbreviation ps.2).2
      else sliceInit ps.1).bind fun parts =>
      .ok ({ r with PlaceName := (resolveCity T r.StateAbbreviation ps.2).1 }, parts)

/-- Lines 238-299: the state resolver and the city resolver; the result is the record,
the segments and `stateString` in front of the line splitter. -/
def placed (T : Tables) (x : Address × List Str × Str) : Outcome (Address × List Str × Str) :=
  if (resolveState T.allStates x.2.2).1.length == 0 ||
      (resolveState T.allStates x.2.2).1.length != 2 then
    .error .stateNotFound
  else
    (cityStage T
        { x.1 with
          StateAbbreviation := (resolveState T.allStates x.2.2).1
          StateName := (resolveState T.allStates x.2.2).2.1 }
        x.2.1 (resolveState T.allStates x.2.2).2.2).bind fun rp =>
      .ok (rp.1, rp.2, (resolveState T.allStates x.2.2).2.2)

/-- The line splitter, lines 301-315. -/
def splitLines (r : Address) (addressParts : List Str) : Outcome (Address × List Str) :=
  if addressParts.length > 2 then .error .moreThanTwoLines
  else
    match addressParts with
    | [first, second] =>
      if matchLine2First first then .ok ({ r with AddressLine2 := trimSpace first }, [second])
      else .ok ({ r with AddressLine2 := trimSpace second }, [first])
    | parts => .ok (r, parts)

/-- Lines 301-457: the line splitter, the street parser and the composer. -/
def finish (T : Tables) (address : Str) (x : Address × List Str × Str) : Outcome Address :=
  (splitLines x.1 x.2.1).bind fun rl =>
    (parseStreet T address x.2.2 rl.1 rl.2).bind fun r => .ok (compose r)

/-- Lines 187-299, on the normalised input: the record, the segments and `stateString`
in front of the line splitter. -/
def afterCity (T : Tables) (address : Str) : Outcome (Address × List Str × Str) :=
  (zipped address).bind (placed T)

/-- Lines 187-457, on the normalised input. -/
def parseNormalised (T : Tables) (address : Str) : Outcome Address :=
  (afterCity T address).bind (finish T address)

/-- Go `ParseAddress`. -/
def ParseAddress (T : Tables) (address : Str) : Outcome Address :=
  if address.length == 0 then .error .emptyArgument
  else parseNormalised T (collapseSpaces address)

/-! ## Well-formed texts -/

/-- A non-empty run of digits. -/
def isNumber (s : Str) : Bool := !s.isEmpty && s.all isDigit

/-- A non-empty word of ASCII letters and digits. -/
def isWord (s : Str) : Bool := !s.isEmpty && s.all isAlnum

/-- A non-empty word without white space and without comma. -/
def isToken (s : Str) : Bool := !s.isEmpty && s.all fun c => !isSpace c && c != ','

/-- The metacharacters of the regular expressions of Go. -/
def isMetaChar (c : Char) : Bool := "\\.+*?()|[]{}^$".toList.contains c

/-- A text without metacharacter: as a regular expression it matches itself. -/
def isPlain (s : Str) : Bool := s.all fun c => !isMetaChar c

/-- A text of ASCII characters: its bytes are its characters, and the case mappings and
the case folding of Go change its ASCII letters only. -/
def isAscii (s : Str) : Bool := s.all fun c => decide (c.toNat < 128)

/-- A table entry that a pattern of the source takes literally: ASCII text without
metacharacter. -/
def isLiteral (s : Str) : Bool := isAscii s && isPlain s

/-- Tables whose entries the patterns of lines 249, 276 and 332 take literally: the state
names and abbreviations, the city names and the street types. -/
def literalTables (T : Tables) : Bool :=
  (T.allStates.all fun kv => isLiteral kv.1 && isLiteral kv.2) &&
  (T.allCities.all fun kv => kv.2.all isLiteral) &&
  (T.usStreetTypes.all fun kv => isLiteral kv.1)

/-- The scan of `replaceAll`: `skip` counts the characters of the current occurrence of
`old` that are still to be dropped. -/
def replaceAllAux (old new : Str) : Nat → Str → Str
  | _, [] => []
  | skip + 1, _ :: rest => replaceAllAux old new skip rest
  | 0, c :: rest =>
    if !old.isEmpty && old.isPrefixOf (c :: rest) then
      new ++ replaceAllAux old new (old.length - 1) rest
    else c :: replaceAllAux old new 0 rest

/-- The replacement the specification speaks of, for any non-empty text `old`: reading
from the left, every occurrence of `old` that does not overlap an earlier one is replaced
by `new`. -/
def replaceAll (old new s : Str) : Str := replaceAllAux old new 0 s

/-! ## What the stages see -/

/-- The trailing segment of an input, after country stripping and trimming: the first
value of `stateString` (line 204).  There is none when the segment list is empty. -/
def trailingSegment (input : Str) : Option Str :=
  match trailingStage (collapseSpaces input) with
  | .ok ts => some ts.2
  | _ => none

/-- The text the state resolver examines, the value of `stateString` after line 236: the
ZIP-stripped trailing segment or, when that is empty, the trimmed segment in front of
it.  There is none when the call panics before the state resolver. -/
def stateText (input : Str) : Option Str :=
  match zipped (collapseSpaces input) with
  | .ok x => some x.2.2
  | _ => none

/-- The segments in front of the line splitter (line 300), once the country segment, the
ZIP, the state and the city have been removed.  There are none when the call has ended
before the line splitter. -/
def remainingSegments (T : Tables) (input : Str) : Option (List Str) :=
  match afterCity T (collapseSpaces input) with
  | .ok x => some x.2.1
  | _ => none

/-- The text is a known abbreviation of exactly two characters, whatever its case. -/
def knownAbbreviation (T : Tables) (s : Str) : Bool :=
  s.length == 2 && (T.allStates.map Prod.snd).contains (toUpper s)

/-- The text ends, whatever the case, with a state name or with an abbreviation of the
state table. -/
def endsWithState (T : Tables) (s : Str) : Bool :=
  T.allStates.any fun kv => hasSuffixFold kv.1 s || hasSuffixFold kv.2 s

/-- The entries of the state table that the state resolver can choose for a text: the
abbreviation is the text in upper case (line 241), or the pattern that line 248 builds from
the entry matches the text. -/
def stateCandidate (s : Str) (kv : Str × Str) : Bool :=
  kv.2 == toUpper s || (stateMatchLen kv.1 kv.2 s).isSome

/-- The digits of an escape `%XX`. -/
def isHexDigit (c : Char) : Bool := isDigit c || (65 ≤ c.toNat && c.toNat ≤ 70)

/-- The characters `url.QueryEscape` leaves alone, the dot apart. -/
def isSafeChar (c : Char) : Bool := isAlnum c || c == '-' || c == '_' || c == '~'

/-- The scan of `urlSafe`: `pending` counts the digits that the current escape still
needs. -/
def urlSafeAux : Nat → Str → Bool
  | 0, [] => true
  | _ + 1, [] => false
  | 0, c :: rest => if c == '%' then urlSafeAux 2 rest else isSafeChar c && urlSafeAux 0 rest
  | pending + 1, c :: rest => isHexDigit c && urlSafeAux pending rest

/-- A text that consists only of ASCII letters, digits, `-`, `_`, `~` and escapes `%XX`. -/
def urlSafe (s : Str) : Bool := urlSafeAux 0 s

/-- The fields of the record that are set in front of the street parser and that the
street parser leaves alone. -/
def SameHeader (r r' : Address) : Prop :=
  r'.ZipCode = r.ZipCode ∧ r'.ZipCodePlusFour = r.ZipCodePlusFour ∧
  r'.StateAbbreviation = r.StateAbbreviation ∧ r'.StateName = r.StateName ∧
  r'.PlaceName = r.PlaceName ∧ r'.FormattedAddress = r.FormattedAddress ∧ r'.ID = r.ID

/-! ## Tables for the examples -/

/-- Tables for the examples: the states and cities of the addresses in `parser_test.go`
and in the scenarios of the specification, with a few neighbours. -/
def sampleTables : Tables where
  allStates :=
    [("California".toList, "CA".toList), ("Illinois".toList, "IL".toList),
     ("Texas".toList, "TX".toList), ("Virginia".toList, "VA".toList),
     ("West Virginia".toList, "WV".toList)]
  allCities :=
    [("CA".toList, ["Los Angeles".toList, "Monterey".toList, "Monterey Park".toList]),
     ("IL".toList, ["Chicago".toList, "Springfield".toList]),
     ("TX".toList, ["Austin".toList, "Houston".toList])]
  usStreetTypes :=
    [("ave".toList, "Avenue".toList), ("rd".toList, "Road".toList),
     ("st".toList, "Street".toList)]

/-- The tables of the examples with the state table enumerated in another order, `West
Virginia` in front of `Virginia`. -/
def reorderedTables : Tables :=
  { sampleTables with
    allStates :=
      [("West Virginia".toList, "WV".toList), ("California".toList, "CA".toList),
       ("Illinois".toList, "IL".toList), ("Texas".toList, "TX".toList),
       ("Virginia".toList, "VA".toList)] }

/-- The address of `TestParseAddress`. -/
def testAddress : Str := "705 Monterey Pass Rd, Monterey Park, CA 91754".toList

/-- The record `TestParseAddress` expects. -/
def testRecord : Address where
  ID := "705-Monterey-Pass-Rd%2C-Monterey-Park%2C-CA-91754".toList
  ZipCode := "91754".toList
  ZipCodePlusFour := []
  StateAbbreviation := "CA".toList
  StateName := "California".toList
  PlaceName := "Monterey Park".toList
  AddressLine1 := "705 Monterey Pass Rd".toList
  AddressLine2 := []
  StreetNumber := "705".toList
  FormattedAddress := "705 Monterey Pass Rd, Monterey Park, CA 91754".toList
  StreetDirection := []
  StreetName := "Monterey Pass Rd".toList
  StreetSuffix := []

/-! ## Sequencing -/

theorem Outcome.bind_eq_ok {α β : Type} {o : Outcome α} {f : α → Outcome β} {b : β} :
    o.bind f = .ok b ↔ ∃ a, o = .ok a ∧ f a = .ok b := by
  cases o <;> simp [Outcome.bind]

theorem Outcome.bind_eq_error {α β : Type} {o : Outcome α} {f : α → Outcome β}
    {e : ParseError} :
    o.bind f = .error e ↔ o = .error e ∨ ∃ a, o = .ok a ∧ f a = .error e := by
  cases o <;> simp [Outcome.bind]

/-! ## The composer -/

/-- The fields the composer reads are the fields it leaves alone. -/
theorem compose_fields (r : Address) :
    (compose r).AddressLine1 = r.AddressLine1 ∧ (compose r).AddressLine2 = r.AddressLine2 ∧
    (compose r).PlaceName = r.PlaceName ∧
    (compose r).StateAbbreviation = r.StateAbbreviation ∧
    (compose r).StateName = r.StateName ∧
    (compose r).ZipCode = r.ZipCode ∧ (compose r).ZipCodePlusFour = r.ZipCodePlusFour ∧
    (compose r).StreetNumber = r.StreetNumber ∧ (compose r).StreetName = r.StreetName ∧
    (compose r).StreetSuffix = r.StreetSuffix ∧
    (compose r).StreetDirection = r.StreetDirection := by
  unfold compose
  split <;> simp

theorem SameHeader.refl (r : Address) : SameHeader r r := by simp [SameHeader]

theorem SameHeader.trans {a b c : Address} (h₁ : SameHeader a b) (h₂ : SameHeader b c) :
    SameHeader a c := by
  simp only [SameHeader] at *
  obtain ⟨h1, h2, h3, h4, h5, h6, h7⟩ := h₁
  obtain ⟨g1, g2, g3, g4, g5, g6, g7⟩ := h₂
  exact ⟨g1.trans h1, g2.trans h2, g3.trans h3, g4.trans h4, g5.trans h5, g6.trans h6,
    g7.trans h7⟩

theorem joinSpace_pair_ne_nil (a b : Str) : joinSpace [a, b] ≠ [] := by
  simp [joinSpace]

theorem aveLetterStreet_ok {address : Str} {r r' : Address} {s l : Str}
    (h : aveLetterStreet address r s l = .ok r') :
    SameHeader r r' ∧ r'.AddressLine1 ≠ [] := by
  unfold aveLetterStreet at h
  simp only at h
  split at h
  · cases h
  · split at h
    · cases h
    · split at h
      · cases h
      · injection h with h
        subst h
        refine ⟨?_, joinSpace_pair_ne_nil _ _⟩
        simp only [SameHeader]
        split <;> simp

theorem aveLetterStreet_error {address : Str} {r : Address} {s l : Str} {e : ParseError}
    (h : aveLetterStreet address r s l = .error e) : e = .tooManyLines address := by
  unfold aveLetterStreet at h
  simp only at h
  split at h
  · injection h with h; exact h.symm
  · split at h
    · cases h
    · split at h <;> cases h

theorem streetLine_ne_nil (number name suffix direction : Str) :
    streetLine number name suffix direction ≠ [] := by
  unfold streetLine
  simp only [joinSpace]
  split <;> simp

theorem standardStreet_ok {T : Tables} {address : Str} {r r' : Address} {s : Str}
    (h : standardStreet T address r s = .ok r') :
    SameHeader r r' ∧ r'.AddressLine1 ≠ [] := by
  unfold standardStreet at h
  split at h
  · split at h
    · cases h
    · simp only at h
      split at h
      · cases h
      · split at h
        · cases h
        · injection h with h
          subst h
          refine ⟨?_, streetLine_ne_nil _ _ _ _⟩
          simp only [SameHeader]
          split <;> simp
  · cases h

theorem standardStreet_error {T : Tables} {address : Str} {r : Address} {s : Str}
    {e : ParseError} (h : standardStreet T address r s = .error e) :
    e = .tooManyLines address := by
  unfold standardStreet at h
  split at h
  · split at h
    · injection h with h; exact h.symm
    · simp only at h
      split at h
      · cases h
      · split at h <;> cases h
  · cases h

theorem findNoSuffix_ne_nil {prevWord : Bool} {s l : Str}
    (h : findNoSuffix prevWord s = some l) : l ≠ [] := by
  induction s generalizing prevWord with
  | nil => simp [findNoSuffix] at h
  | cons c rest ih =>
    unfold findNoSuffix at h
    split at h
    · rename_i n hn
      injection h with h
      subst h
      split at hn
      · cases hn
      · unfold noSuffixAt at hn
        split at hn
        · cases hn
        · split at hn
          · split at hn
            · simp only [Option.map_eq_some'] at hn
              obtain ⟨k, -, hk⟩ := hn
              subst hk
              simp [List.take_succ_cons, Nat.add_comm]
            · cases hn
          · cases hn
    · exact ih h

theorem noSuffixStreet_ok {r r' : Address} {s : Str} (h : noSuffixStreet r s = .ok r') :
    SameHeader r r' ∧ r'.AddressLine1 ≠ [] := by
  unfold noSuffixStreet at h
  simp only at h
  split at h
  · cases h
  · rename_i line1 hl
    split at h
    · cases h
    · injection h with h
      subst h
      refine ⟨?_, findNoSuffix_ne_nil hl⟩
      simp only [SameHeader]
      split <;> simp

theorem noSuffixStreet_error {r : Address} {s : Str} {e : ParseError} :
    noSuffixStreet r s ≠ .error e := by
  unfold noSuffixStreet
  simp only
  split
  · simp
  · split <;> simp

theorem stripPrefixFold_length {p s r : Str} (h : stripPrefixFold p s = some r) :
    r.length + p.length = s.length := by
  induction p generalizing s with
  | nil => simp [stripPrefixFold] at h; subst h; simp
  | cons a p ih =>
    cases s with
    | nil => simp [stripPrefixFold] at h
    | cons c cs =>
      simp only [stripPrefixFold] at h
      split at h
      · have := ih h
        simp only [List.length_cons]
        omega
      · cases h

theorem findMatch_ne_nil {matchAt : Str → Option Nat}
    (hpos : ∀ s n, matchAt s = some n → 0 < n ∧ n ≤ s.length) {s l : Str}
    (h : findMatch matchAt s = some l) : l ≠ [] := by
  induction s with
  | nil =>
    simp only [findMatch, Option.map_eq_some'] at h
    obtain ⟨n, hn, -⟩ := h
    have := hpos _ _ hn
    simp at this
    omega
  | cons c rest ih =>
    unfold findMatch at h
    split at h
    · rename_i n hn
      injection h with h
      subst h
      have := hpos _ _ hn
      obtain ⟨k, rfl⟩ : ∃ k, n = k + 1 := ⟨n - 1, by omega⟩
      simp
    · exact ih h

theorem poTail_length {s r : Str} (h : poTail s = some r) : r.length < s.length := by
  unfold poTail at h
  split at h
  · cases h
  · rename_i rest hrest
    simp only at h
    split at h
    · cases h
    · rename_i rest2 h2
      injection h with h
      subst h
      have h0 := stripPrefixFold_length hrest
      have hd : (rest.dropWhile isLetterS).length ≤ rest.length :=
        (List.dropWhile_sublist _).length_le
      have hd2 : (rest2.dropWhile isLetterW).length ≤ rest2.length :=
        (List.dropWhile_sublist _).length_le
      simp only [Option.bind_eq_some] at h2
      obtain ⟨w, hw, hw2⟩ := h2
      have h3 := stripPrefixFold_length hw2
      have h4 : w.length ≤ (rest.dropWhile isLetterS).length := by
        simp only [Option.orElse_eq_some'] at hw
        rcases hw with hw | ⟨-, hw⟩
        · have := stripPrefixFold_length hw; omega
        · have := stripPrefixFold_length hw; omega
      simp only [List.length_cons, List.length_nil] at h0 h3
      omega

theorem optionalChar_length {next : Str → Option Str}
    (hnext : ∀ t r, next t = some r → r.length < t.length) {s r : Str}
    (h : optionalChar next s = some r) : r.length < s.length := by
  unfold optionalChar at h
  simp only [Option.orElse_eq_some'] at h
  rcases h with h | ⟨-, h⟩
  · split at h
    · split at h
      · have := hnext _ _ h
        simp only [List.length_cons]
        omega
      · cases h
    · cases h
  · exact hnext _ _ h

theorem poAt_pos (s : Str) (n : Nat) (h : poAt s = some n) : 0 < n ∧ n ≤ s.length := by
  unfold poAt at h
  simp only [Option.map_eq_some'] at h
  obtain ⟨rest, hrest, rfl⟩ := h
  refine ⟨?_, Nat.sub_le _ _⟩
  suffices rest.length < s.length by omega
  simp only [Option.orElse_eq_some'] at hrest
  rcases hrest with h | ⟨-, h⟩
  · simp only [Option.bind_eq_some] at h
    obtain ⟨s1, h1, h2⟩ := h
    have := stripPrefixFold_length h1
    have h3 : rest.length < s1.length := by
      refine optionalChar_length ?_ h2
      intro t r ht
      simp only [Option.bind_eq_some] at ht
      obtain ⟨t1, ht1, ht2⟩ := ht
      have := stripPrefixFold_length ht1
      have := optionalChar_length (fun _ _ => poTail_length) ht2
      omega
    omega
  · simp only [Option.bind_eq_some] at h
    obtain ⟨s1, h1, s2, h2, h3⟩ := h
    have := stripPrefixFold_length h1
    have := stripPrefixFold_length h2
    have := poTail_length h3
    have hd : (s1.dropWhile isLetterS).length ≤ s1.length :=
      (List.dropWhile_sublist _).length_le
    omega

theorem streetGrammars_ok {T : Tables} {address : Str} {r r' : Address} {s : Str}
    (h : streetGrammars T address r s = .ok r') :
    SameHeader r r' ∧ r'.AddressLine1 ≠ [] := by
  unfold streetGrammars at h
  split at h
  · exact aveLetterStreet_ok h
  · split at h
    · exact standardStreet_ok h
    · split at h
      · rename_i line1 hl
        injection h with h
        subst h
        exact ⟨by simp [SameHeader], findMatch_ne_nil poAt_pos hl⟩
      · split at h
        · exact noSuffixStreet_ok h
        · cases h

theorem streetGrammars_error {T : Tables} {address : Str} {r : Address} {s : Str}
    {e : ParseError} (h : streetGrammars T address r s = .error e) :
    e = .tooManyLines address ∨ e = .invalidStreet address := by
  unfold streetGrammars at h
  split at h
  · exact Or.inl (aveLetterStreet_error h)
  · split at h
    · exact Or.inl (standardStreet_error h)
    · split at h
      · cases h
      · split at h
        · exact absurd h noSuffixStreet_error
        · injection h with h
          exact Or.inr h.symm

theorem parseStreet_ok {T : Tables} {address stateString : Str} {r r' : Address}
    {parts : List Str} (h : parseStreet T address stateString r parts = .ok r') :
    SameHeader r r' ∧ r'.AddressLine1 ≠ [] := by
  unfold parseStreet at h
  split at h
  · simp only at h
    split at h
    · split at h
      · cases h
      · have := streetGrammars_ok h
        exact ⟨by simpa [SameHeader] using this.1, this.2⟩
    · exact streetGrammars_ok h
  · cases h

theorem parseStreet_error {T : Tables} {address stateString : Str} {r : Address}
    {parts : List Str} {e : ParseError}
    (h : parseStreet T address stateString r parts = .error e) :
    e = .tooManyLines address ∨ e = .invalidStreet address := by
  unfold parseStreet at h
  split at h
  · simp only at h
    split at h
    · split at h
      · cases h
      · exact streetGrammars_error h
    · exact streetGrammars_error h
  · injection h with h
    exact Or.inr h.symm

theorem splitLines_ok {r r' : Address} {parts parts' : List Str}
    (h : splitLines r parts = .ok (r', parts')) :
    SameHeader r r' ∧ parts.length ≤ 2 := by
  unfold splitLines at h
  split at h
  · cases h
  · rename_i hlen
    refine ⟨?_, by omega⟩
    split at h
    · split at h <;>
      · injection h with h
        injection h with h1 h2
        subst h1
        simp [SameHeader]
    · injection h with h
      injection h with h1 h2
      subst h1
      exact SameHeader.refl _

theorem splitLines_error {r : Address} {parts : List Str} {e : ParseError}
    (h : splitLines r parts = .error e) : e = .moreThanTwoLines ∧ 2 < parts.length := by
  unfold splitLines at h
  split at h
  · rename_i hlen
    injection h with h
    exact ⟨h.symm, hlen⟩
  · split at h
    · split at h <;> cases h
    · cases h

/-! ## The pipeline, stage by stage -/

theorem finish_ok {T : Tables} {address : Str} {x : Address × List Str × Str} {r : Address}
    (h : finish T address x = .ok r) :
    ∃ r', SameHeader x.1 r' ∧ r'.AddressLine1 ≠ [] ∧ r = compose r' ∧ x.2.1.length ≤ 2 := by
  unfold finish at h
  obtain ⟨rl, h1, h2⟩ := Outcome.bind_eq_ok.1 h
  obtain ⟨r', h3, h4⟩ := Outcome.bind_eq_ok.1 h2
  injection h4 with h4
  have hs := @splitLines_ok x.1 rl.1 x.2.1 rl.2 h1
  have hp := parseStreet_ok h3
  exact ⟨r', hs.1.trans hp.1, hp.2, h4.symm, hs.2⟩

theorem finish_error {T : Tables} {address : Str} {x : Address × List Str × Str}
    {e : ParseError} (h : finish T address x = .error e) :
    (e = .moreThanTwoLines ∧ 2 < x.2.1.length) ∨ e = .tooManyLines address ∨
      e = .invalidStreet address := by
  unfold finish at h
  rcases Outcome.bind_eq_error.1 h with h | ⟨rl, -, h⟩
  · exact Or.inl (splitLines_error h)
  · rcases Outcome.bind_eq_error.1 h with h | ⟨r', -, h⟩
    · exact Or.inr (parseStreet_error h)
    · cases h

theorem finish_of_long {T : Tables} {address : Str} {x : Address × List Str × Str}
    (h : 2 < x.2.1.length) : finish T address x = .error .moreThanTwoLines := by
  unfold finish splitLines
  rw [if_pos h]
  rfl

theorem cityStage_ok {T : Tables} {r r' : Address} {parts parts' : List Str} {s : Str}
    (h : cityStage T r parts s = .ok (r', parts')) :
    r'.ZipCode = r.ZipCode ∧ r'.ZipCodePlusFour = r.ZipCodePlusFour ∧
    r'.StateAbbreviation = r.StateAbbreviation ∧ r'.StateName = r.StateName ∧
    r'.FormattedAddress = r.FormattedAddress ∧ r'.ID = r.ID ∧
    r'.AddressLine2 = r.AddressLine2 := by
  unfold cityStage at h
  obtain ⟨ps, -, h2⟩ := Outcome.bind_eq_ok.1 h
  obtain ⟨parts2, -, h3⟩ := Outcome.bind_eq_ok.1 h2
  injection h3 with h3
  injection h3 with h3 h4
  subst h3
  simp

theorem placed_ok {T : Tables} {x y : Address × List Str × Str} (h : placed T x = .ok y) :
    y.1.ZipCode = x.1.ZipCode ∧ y.1.ZipCodePlusFour = x.1.ZipCodePlusFour ∧
    y.1.StateAbbreviation = (resolveState T.allStates x.2.2).1 ∧
    y.1.StateName = (resolveState T.allStates x.2.2).2.1 ∧
    y.1.FormattedAddress = x.1.FormattedAddress ∧ y.1.ID = x.1.ID ∧
    y.1.AddressLine2 = x.1.AddressLine2 ∧
    (resolveState T.allStates x.2.2).1.length = 2 := by
  unfold placed at h
  split at h
  · cases h
  · rename_i hlen
    obtain ⟨rp, h1, h2⟩ := Outcome.bind_eq_ok.1 h
    injection h2 with h2
    subst h2
    have := @cityStage_ok _ _ rp.1 _ rp.2 _ h1
    simp only at this
    obtain ⟨h1, h2, h3, h4, h5, h6, h7⟩ := this
    refine ⟨h1, h2, h3, h4, h5, h6, h7, ?_⟩
    simp at hlen
    exact hlen.2

theorem zipped_ok {address : Str} {x : Address × List Str × Str}
    (h : zipped address = .ok x) :
    ∃ ts, trailingStage address = .ok ts ∧
      stateSegment ts.1 (zipStage ts.2).2.2 = .ok (x.2.1, x.2.2) ∧
      x.1 = { ZipCode := (zipStage ts.2).1, ZipCodePlusFour := (zipStage ts.2).2.1 } := by
  unfold zipped at h
  obtain ⟨ts, h1, h2⟩ := Outcome.bind_eq_ok.1 h
  obtain ⟨ps, h3, h4⟩ := Outcome.bind_eq_ok.1 h2
  injection h4 with h4
  subst h4
  exact ⟨ts, h1, h3, rfl⟩

/-- What a returned record is made of: the record in front of the line splitter, the
street parser's additions, and the composer. -/
theorem ParseAddress_ok {T : Tables} {input : Str} {r : Address}
    (h : ParseAddress T input = .ok r) :
    ∃ x r', afterCity T (collapseSpaces input) = .ok x ∧ SameHeader x.1 r' ∧
      r'.AddressLine1 ≠ [] ∧ r = compose r' ∧ x.2.1.length ≤ 2 ∧
      x.1.FormattedAddress = [] ∧ x.1.ID = [] := by
  unfold ParseAddress at h
  split at h
  · cases h
  · unfold parseNormalised at h
    obtain ⟨x, h1, h2⟩ := Outcome.bind_eq_ok.1 h
    obtain ⟨r', h3, h4, h5, h6⟩ := finish_ok h2
    refine ⟨x, r', h1, h3, h4, h5, h6, ?_⟩
    unfold afterCity at h1
    obtain ⟨z, hz, hp⟩ := Outcome.bind_eq_ok.1 h1
    obtain ⟨ts, -, -, hz1⟩ := zipped_ok hz
    obtain ⟨-, -, -, -, g1, g2, -⟩ := placed_ok hp
    rw [g1, g2, hz1]
    exact ⟨rfl, rfl⟩

/-! ## The composer: `FormattedAddress` and `ID` -/

theorem hexDigit_isHex {n : Nat} (h : n < 16) : isHexDigit (hexDigit n) = true := by
  interval_cases n <;> decide

theorem utf8Bytes_lt (c : Char) : ∀ b ∈ utf8Bytes c, b < 256 := by
  have hv : c.toNat < 1114112 := by
    have := c.valid
    rcases this with h | ⟨-, h⟩
    · have : c.toNat < 55296 := h
      omega
    · exact h
  intro b hb
  unfold utf8Bytes at hb
  split at hb
  · simp at hb; omega
  · split at hb
    · simp at hb; omega
    · split at hb
      · simp at hb; omega
      · simp at hb; omega

theorem urlSafe_escapeByte {b : Nat} (h : b < 256) (t : Str) :
    urlSafe (escapeByte b ++ t) = urlSafe t := by
  have h1 : isHexDigit (hexDigit (b / 16)) = true := hexDigit_isHex (by omega)
  have h2 : isHexDigit (hexDigit (b % 16)) = true := hexDigit_isHex (by omega)
  simp [escapeByte, urlSafe, urlSafeAux, h1, h2]

theorem urlSafe_escapeBytes (bs : List Nat) (h : ∀ b ∈ bs, b < 256) (t : Str) :
    urlSafe (bs.flatMap escapeByte ++ t) = urlSafe t := by
  induction bs with
  | nil => simp
  | cons b bs ih =>
    simp only [List.flatMap_cons, List.append_assoc]
    rw [urlSafe_escapeByte (h b (by simp)), ih (fun b hb => h b (by simp [hb]))]

theorem isSafeChar_ne_percent {c : Char} (h : isSafeChar c = true) : (c == '%') = false := by
  by_contra hc
  simp at hc
  subst hc
  revert h
  decide

theorem urlSafe_escapeChar {c : Char} (h1 : c ≠ ' ') (h2 : c ≠ '.') (t : Str) :
    urlSafe (escapeChar c ++ t) = urlSafe t := by
  unfold escapeChar
  split
  · rename_i hu
    have hs : isSafeChar c = true := by
      simp only [isUnreserved, Bool.or_eq_true, beq_iff_eq] at hu
      simp only [isSafeChar, Bool.or_eq_true, beq_iff_eq]
      tauto
    simp [urlSafe, urlSafeAux, isSafeChar_ne_percent hs, hs]
  · rw [if_neg (by simpa using h1)]
    exact urlSafe_escapeBytes _ (utf8Bytes_lt c) t

theorem urlSafe_queryEscape (s : Str) (h1 : ' ' ∉ s) (h2 : '.' ∉ s) :
    urlSafe (queryEscape s) = true := by
  induction s with
  | nil => rfl
  | cons c s ih =>
    simp only [List.mem_cons, not_or] at h1 h2
    simp only [queryEscape, List.flatMap_cons]
    rw [urlSafe_escapeChar (Ne.symm h1.1) (Ne.symm h2.1)]
    exact ih h1.2 h2.2

theorem mem_replaceChar {old c : Char} {s : Str} (h : c ∈ replaceChar old s) :
    c = '-' ∨ (c ∈ s ∧ c ≠ old) := by
  simp only [replaceChar, List.mem_map] at h
  obtain ⟨d, hd, rfl⟩ := h
  split
  · exact Or.inl rfl
  · rename_i hne
    exact Or.inr ⟨hd, by simpa using hne⟩

theorem mem_replaceSlashes {c : Char} {s : Str} (h : c ∈ replaceSlashes s) :
    c = '-' ∨ c ∈ s := by
  induction s using replaceSlashes.induct with
  | case1 => simp [replaceSlashes] at h
  | case2 rest ih =>
    simp only [replaceSlashes, List.mem_cons] at h
    rcases h with h | h
    · exact Or.inl h
    · rcases ih h with h | h
      · exact Or.inl h
      · exact Or.inr (by simp [h])
  | case3 d rest hne ih =>
    rw [replaceSlashes] at h
    · simp only [List.mem_cons] at h
      rcases h with h | h
      · exact Or.inr (by simp [h])
      · rcases ih h with h | h
        · exact Or.inl h
        · exact Or.inr (by simp [h])
    · exact hne

theorem urlSafe_makeID (s : Str) : urlSafe (makeID s) = true := by
  unfold makeID
  apply urlSafe_queryEscape
  · intro h
    rcases mem_replaceChar h with h | ⟨h, -⟩
    · exact absurd h (by decide)
    · rcases mem_replaceSlashes h with h | h
      · exact absurd h (by decide)
      · rcases mem_replaceChar h with h | ⟨h, -⟩
        · exact absurd h (by decide)
        · rcases mem_replaceChar h with h | ⟨-, h⟩
          · exact absurd h (by decide)
          · exact h rfl
  · intro h
    rcases mem_replaceChar h with h | ⟨-, h⟩
    · exact absurd h (by decide)
    · exact h rfl

theorem isHexDigit_safe {c : Char} (h : isHexDigit c = true) : isSafeChar c = true := by
  simp only [isHexDigit, isDigit, Bool.or_eq_true, Bool.and_eq_true, decide_eq_true_eq] at h
  simp only [isSafeChar, isAlnum, isLetter, isUpperLetter, isLowerLetter, isDigit,
    Bool.or_eq_true, Bool.and_eq_true, decide_eq_true_eq, beq_iff_eq]
  omega

theorem urlSafeAux_mem (pending : Nat) (s : Str) (h : urlSafeAux pending s = true) :
    ∀ c ∈ s, isSafeChar c = true ∨ c = '%' := by
  induction s generalizing pending with
  | nil => simp
  | cons c rest ih =>
    intro d hd
    simp only [List.mem_cons] at hd
    cases pending with
    | zero =>
      simp only [urlSafeAux] at h
      split at h
      · rename_i hc
        rcases hd with hd | hd
        · exact Or.inr (by subst hd; simpa using hc)
        · exact ih _ h d hd
      · simp only [Bool.and_eq_true] at h
        rcases hd with hd | hd
        · exact Or.inl (hd ▸ h.1)
        · exact ih _ h.2 d hd
    | succ k =>
      simp only [urlSafeAux, Bool.and_eq_true] at h
      rcases hd with hd | hd
      · exact Or.inl (hd ▸ isHexDigit_safe h.1)
      · exact ih _ h.2 d hd

theorem urlSafe_mem (s : Str) (h : urlSafe s = true) :
    ∀ c ∈ s, isSafeChar c = true ∨ c = '%' := urlSafeAux_mem 0 s h

theorem escapeChar_ne_nil (c : Char) : escapeChar c ≠ [] := by
  unfold escapeChar
  split
  · simp
  · split
    · simp
    · unfold utf8Bytes
      split
      · simp [escapeByte]
      · split
        · simp [escapeByte]
        · split <;> simp [escapeByte]

theorem replaceSlashes_ne_nil {s : Str} (h : s ≠ []) : replaceSlashes s ≠ [] := by
  induction s using replaceSlashes.induct with
  | case1 => exact absurd rfl h
  | case2 rest _ => simp [replaceSlashes]
  | case3 c rest hne _ =>
    rw [replaceSlashes]
    · simp
    · exact hne

theorem makeID_ne_nil {s : Str} (h : s ≠ []) : makeID s ≠ [] := by
  unfold makeID
  have h1 : replaceChar '.' (replaceSlashes (replaceChar '#' (replaceChar ' ' s))) ≠ [] := by
    have : replaceChar '#' (replaceChar ' ' s) ≠ [] := by simpa [replaceChar] using h
    have := replaceSlashes_ne_nil this
    simpa [replaceChar] using this
  revert h1
  generalize replaceChar '.' (replaceSlashes (replaceChar '#' (replaceChar ' ' s))) = t
  intro ht
  cases t with
  | nil => exact absurd rfl ht
  | cons c t =>
    simp only [queryEscape, List.flatMap_cons]
    have := escapeChar_ne_nil c
    simp [this]

theorem addressString_eq (r : Address) :
    addressString r =
      r.AddressLine1 ++ (if r.AddressLine2 ≠ [] then ", ".toList ++ r.AddressLine2 else []) := by
  unfold addressString
  cases h : r.AddressLine2 <;> simp

theorem addressString_ne_nil {r : Address} (h : r.AddressLine1 ≠ []) :
    (addressString r).length > 0 := by
  rw [addressString_eq]
  cases h1 : r.AddressLine1 with
  | nil => exact absurd h1 h
  | cons c t => simp

/-- The composer on a record whose first address line is not empty and whose
`FormattedAddress` and `ID` are still empty. -/
theorem compose_spec {r : Address} (h1 : r.AddressLine1 ≠ []) (hf : r.FormattedAddress = [])
    (hi : r.ID = []) :
    (r.PlaceName ≠ [] ∧ r.StateAbbreviation ≠ [] ∧ r.ZipCode ≠ [] →
      (compose r).FormattedAddress = idString r ∧ (compose r).ID = makeID (idString r)) ∧
    (¬(r.PlaceName ≠ [] ∧ r.StateAbbreviation ≠ [] ∧ r.ZipCode ≠ []) →
      (compose r).FormattedAddress = [] ∧ (compose r).ID = []) := by
  have ha := addressString_ne_nil h1
  constructor
  · rintro ⟨h2, h3, h4⟩
    unfold compose
    rw [if_pos]
    · exact ⟨rfl, rfl⟩
    · simp only [Bool.and_eq_true, decide_eq_true_eq]
      exact ⟨⟨⟨ha, List.length_pos.2 h2⟩, List.length_pos.2 h3⟩, List.length_pos.2 h4⟩
  · intro hn
    unfold compose
    rw [if_neg]
    · exact ⟨hf, hi⟩
    · simp only [Bool.and_eq_true, decide_eq_true_eq]
      rintro ⟨⟨⟨-, h2⟩, h3⟩, h4⟩
      exact hn ⟨List.length_pos.1 h2, List.length_pos.1 h3, List.length_pos.1 h4⟩

theorem idString_ne_nil (r : Address) : idString r ≠ [] := by
  unfold idString
  simp

/-- C8: for every record that `ParseAddress` returns, when `AddressLine1`, `PlaceName`,
`StateAbbreviation` and `ZipCode` are all non-empty, `FormattedAddress` is `AddressLine1`
(followed by a comma, a space and `AddressLine2` when `AddressLine2` is non-empty), a
comma and a space, `PlaceName`, a comma and a space, `StateAbbreviation`, a space and
`ZipCode`, and `ID` is non-empty; otherwise `FormattedAddress` and `ID` are both empty. -/
theorem composer_populates (T : Tables) (input : Str) (r : Address)
    (h : ParseAddress T input = .ok r) :
    (r.AddressLine1 ≠ [] ∧ r.PlaceName ≠ [] ∧ r.StateAbbreviation ≠ [] ∧ r.ZipCode ≠ [] →
      r.FormattedAddress =
          r.AddressLine1 ++ (if r.AddressLine2 ≠ [] then ", ".toList ++ r.AddressLine2 else []) ++
            ", ".toList ++ r.PlaceName ++ ", ".toList ++ r.StateAbbreviation ++ " ".toList ++
            r.ZipCode ∧
        r.ID ≠ []) ∧
    (¬(r.AddressLine1 ≠ [] ∧ r.PlaceName ≠ [] ∧ r.StateAbbreviation ≠ [] ∧ r.ZipCode ≠ []) →
      r.FormattedAddress = [] ∧ r.ID = []) := by
  obtain ⟨x, r', -, hs, h1, rfl, -, hf, hi⟩ := ParseAddress_ok h
  obtain ⟨-, -, -, -, -, hs6, hs7⟩ := hs
  have hc := compose_spec h1 (hs6.trans hf) (hs7.trans hi)
  obtain ⟨c1, c2, c3, c4, -, c6, -⟩ := compose_fields r'
  rw [c1, c2, c3, c4, c6]
  constructor
  · rintro ⟨-, h2, h3, h4⟩
    obtain ⟨e1, e2⟩ := hc.1 ⟨h2, h3, h4⟩
    rw [e1, e2]
    refine ⟨?_, makeID_ne_nil (idString_ne_nil r')⟩
    rw [idString, addressString_eq]
  · intro hn
    exact hc.2 fun h => hn ⟨h1, h⟩

/-- C8, on the address of `TestParseAddress`. -/
theorem composer_populates_witness :
    ParseAddress sampleTables testAddress = .ok testRecord ∧
    testRecord.FormattedAddress =
      testRecord.AddressLine1 ++
        (if testRecord.AddressLine2 ≠ [] then ", ".toList ++ testRecord.AddressLine2 else []) ++
        ", ".toList ++ testRecord.PlaceName ++ ", ".toList ++ testRecord.StateAbbreviation ++
        " ".toList ++ testRecord.ZipCode ∧
    testRecord.ID ≠ [] :=
  ⟨by decide!,
    (composer_populates sampleTables testAddress testRecord (by decide!)).1 (by decide)⟩

theorem replaceAll_char (old : Char) (s : Str) :
    replaceAll [old] ['-'] s = replaceChar old s := by
  unfold replaceAll replaceChar
  induction s with
  | nil => rfl
  | cons c rest ih =>
    rw [replaceAllAux, List.map_cons, ← ih]
    by_cases h : c = old
    · subst h
      simp [List.isPrefixOf]
    · have h' : ¬ old = c := fun e => h e.symm
      simp [List.isPrefixOf, h, h']

theorem replaceAll_slashes (s : Str) :
    replaceAll ['/', '/'] ['-'] s = replaceSlashes s := by
  unfold replaceAll
  induction s using replaceSlashes.induct with
  | case1 => rfl
  | case2 rest ih =>
    rw [replaceSlashes, ← ih]
    simp [replaceAllAux, List.isPrefixOf]
  | case3 c rest hne ih =>
    rw [replaceSlashes.eq_3 c rest hne, ← ih, replaceAllAux]
    have hp : List.isPrefixOf ['/', '/'] (c :: rest) = false := by
      cases rest with
      | nil => simp [List.isPrefixOf]
      | cons d rest =>
        simp only [List.isPrefixOf, Bool.and_true, Bool.and_eq_false_imp, beq_iff_eq,
          beq_eq_false_iff_ne, ne_eq]
        rintro rfl rfl
        exact hne rest rfl rfl
    simp [hp]

/-- The identifier of lines 448-452 in the words of the specification. -/
theorem makeID_eq (s : Str) :
    makeID s =
      queryEscape (replaceAll ['.'] ['-'] (replaceAll ['/', '/'] ['-']
        (replaceAll ['#'] ['-'] (replaceAll [' '] ['-'] s)))) := by
  unfold makeID
  rw [replaceAll_char, replaceAll_slashes, replaceAll_char, replaceAll_char]

/-- C9: for every record with a non-empty `FormattedAddress`, `ID` is `url.QueryEscape`
of `FormattedAddress` after every space, every `#`, every `//` and every `.` has been
replaced, in this order, by `-` (`replaceAll`, the replacement of every occurrence, from
the left, that does not overlap an earlier one); so `ID` consists only of ASCII letters,
digits, `-`, `_`, `~` and escapes `%XX`, and has no space, `+`, `#`, `.`, `/` or `,`. -/
theorem ID_is_escaped (T : Tables) (input : Str) (r : Address)
    (h : ParseAddress T input = .ok r) (hne : r.FormattedAddress ≠ []) :
    r.ID = queryEscape (replaceAll ['.'] ['-'] (replaceAll ['/', '/'] ['-']
      (replaceAll ['#'] ['-'] (replaceAll [' '] ['-'] r.FormattedAddress)))) ∧
    urlSafe r.ID = true ∧
    ∀ c ∈ r.ID, c ≠ ' ' ∧ c ≠ '+' ∧ c ≠ '#' ∧ c ≠ '.' ∧ c ≠ '/' ∧ c ≠ ',' := by
  obtain ⟨x, r', -, hs, h1, rfl, -, hf, hi⟩ := ParseAddress_ok h
  obtain ⟨-, -, -, -, -, hs6, hs7⟩ := hs
  have hc := compose_spec h1 (hs6.trans hf) (hs7.trans hi)
  by_cases hall : r'.PlaceName ≠ [] ∧ r'.StateAbbreviation ≠ [] ∧ r'.ZipCode ≠ []
  · obtain ⟨e1, e2⟩ := hc.1 hall
    have hid : (compose r').ID = makeID (compose r').FormattedAddress := by rw [e1, e2]
    refine ⟨by rw [hid, makeID_eq], ?_, ?_⟩
    · rw [hid]; exact urlSafe_makeID _
    · intro c hc
      have := urlSafe_mem _ (by rw [hid]; exact urlSafe_makeID _) c hc
      rcases this with hsafe | rfl
      · refine ⟨?_, ?_, ?_, ?_, ?_, ?_⟩ <;>
        · rintro rfl
          revert hsafe
          decide
      · decide
  · exact absurd (hc.2 hall).1 hne

/-- C9, on the address of `TestParseAddress`, with the identifier the test expects, and on
an address whose second line holds `//` and `#`: each of them becomes one `-`. -/
theorem ID_is_escaped_witness :
    ParseAddress sampleTables testAddress = .ok testRecord ∧
    testRecord.ID = "705-Monterey-Pass-Rd%2C-Monterey-Park%2C-CA-91754".toList ∧
    urlSafe testRecord.ID = true ∧
    "100-Main-St%2C-Bldg-1-2--4%2C-Springfield%2C-IL-62701".toList =
      queryEscape (replaceAll ['.'] ['-'] (replaceAll ['/', '/'] ['-']
        (replaceAll ['#'] ['-'] (replaceAll [' '] ['-']
          "100 Main St, Bldg 1//2 #4, Springfield, IL 62701".toList)))) :=
  ⟨by decide!, rfl,
    (ID_is_escaped sampleTables testAddress testRecord (by decide!) (by decide)).2.1,
    (ID_is_escaped sampleTables "100 Main St, Bldg 1//2 #4, Springfield, IL 62701".toList
      { ID := "100-Main-St%2C-Bldg-1-2--4%2C-Springfield%2C-IL-62701".toList
        ZipCode := "62701".toList
        StateAbbreviation := "IL".toList
        StateName := "Illinois".toList
        PlaceName := "Springfield".toList
        AddressLine1 := "100 Main St".toList
        AddressLine2 := "Bldg 1//2 #4".toList
        StreetNumber := "100".toList
        FormattedAddress := "100 Main St, Bldg 1//2 #4, Springfield, IL 62701".toList
        StreetName := "Main St".toList }
      (by decide!) (by decide)).1⟩

/-! ## The stages of the pipeline and the record -/

theorem zipped_ne_error {address : Str} {e : ParseError} : zipped address ≠ .error e := by
  intro h
  unfold zipped at h
  rcases Outcome.bind_eq_error.1 h with h | ⟨ts, -, h⟩
  · unfold trailingStage at h
    rcases Outcome.bind_eq_error.1 h with h | ⟨parts, -, h⟩
    · unfold countryStage at h
      rcases Outcome.bind_eq_error.1 h with h | ⟨part, -, h⟩
      · unfold lastPart at h
        cases hl : (splitAddress address).getLast? <;> rw [hl] at h <;> cases h
      · split at h
        · unfold sliceInit at h
          split at h <;> cases h
        · cases h
    · rcases Outcome.bind_eq_error.1 h with h | ⟨part, -, h⟩
      · unfold lastPart at h
        cases hl : parts.getLast? <;> rw [hl] at h <;> cases h
      · cases h
  · rcases Outcome.bind_eq_error.1 h with h | ⟨ps, -, h⟩
    · unfold stateSegment at h
      split at h
      · rcases Outcome.bind_eq_error.1 h with h | ⟨parts, -, h⟩
        · unfold setLast at h
          split at h <;> cases h
        · cases h
      · rcases Outcome.bind_eq_error.1 h with h | ⟨parts, -, h⟩
        · unfold sliceInit at h
          split at h <;> cases h
        · rcases Outcome.bind_eq_error.1 h with h | ⟨part, -, h⟩
          · unfold lastPart at h
            cases hl : parts.getLast? <;> rw [hl] at h <;> cases h
          · cases h
    · cases h

theorem cityStage_ne_error {T : Tables} {r : Address} {parts : List Str} {s : Str}
    {e : ParseError} : cityStage T r parts s ≠ .error e := by
  intro h
  unfold cityStage at h
  rcases Outcome.bind_eq_error.1 h with h | ⟨ps, -, h⟩
  · split at h
    · rcases Outcome.bind_eq_error.1 h with h | ⟨parts, -, h⟩
      · unfold setLast at h
        split at h <;> cases h
      · cases h
    · rcases Outcome.bind_eq_error.1 h with h | ⟨parts, -, h⟩
      · unfold sliceInit at h
        split at h <;> cases h
      · rcases Outcome.bind_eq_error.1 h with h | ⟨part, -, h⟩
        · unfold lastPart at h
          cases hl : parts.getLast? <;> rw [hl] at h <;> cases h
        · cases h
  · rcases Outcome.bind_eq_error.1 h with h | ⟨parts, -, h⟩
    · split at h
      · unfold setLast at h
        split at h <;> cases h
      · unfold sliceInit at h
        split at h <;> cases h
    · cases h

theorem placed_error {T : Tables} {x : Address × List Str × Str} {e : ParseError}
    (h : placed T x = .error e) :
    e = .stateNotFound ∧ (resolveState T.allStates x.2.2).1.length ≠ 2 := by
  unfold placed at h
  split at h
  · rename_i hlen
    injection h with h
    refine ⟨h.symm, ?_⟩
    intro h2
    rw [h2] at hlen
    simp at hlen
  · rcases Outcome.bind_eq_error.1 h with h | ⟨rp, -, h⟩
    · exact absurd h cityStage_ne_error
    · cases h

theorem ParseAddress_of_ne_nil {T : Tables} {input : Str} (h : input ≠ []) :
    ParseAddress T input =
      ((zipped (collapseSpaces input)).bind (placed T)).bind
        (finish T (collapseSpaces input)) := by
  unfold ParseAddress
  rw [if_neg]
  · rfl
  · simpa using h

theorem zipped_nil : zipped (collapseSpaces []) = .panic := by decide

/-- Where the fields of a returned record that precede the street parser come from. -/
theorem ParseAddress_header {T : Tables} {input : Str} {r : Address}
    (h : ParseAddress T input = .ok r) :
    ∃ z, zipped (collapseSpaces input) = .ok z ∧
      r.ZipCode = z.1.ZipCode ∧ r.ZipCodePlusFour = z.1.ZipCodePlusFour ∧
      r.StateAbbreviation = (resolveState T.allStates z.2.2).1 ∧
      r.StateName = (resolveState T.allStates z.2.2).2.1 := by
  obtain ⟨x, r', hx, hs, -, rfl, -, -, -⟩ := ParseAddress_ok h
  unfold afterCity at hx
  obtain ⟨z, hz, hp⟩ := Outcome.bind_eq_ok.1 hx
  obtain ⟨p1, p2, p3, p4, -⟩ := placed_ok hp
  obtain ⟨s1, s2, s3, s4, -⟩ := hs
  obtain ⟨-, -, -, c4, c5, c6, c7, -⟩ := compose_fields r'
  exact ⟨z, hz, by rw [c6, s1, p1], by rw [c7, s2, p2], by rw [c4, s3, p3], by rw [c5, s4, p4]⟩

theorem trailingStage_parts_ne_nil {address : Str} {ts : List Str × Str}
    (h : trailingStage address = .ok ts) : ts.1 ≠ [] := by
  unfold trailingStage at h
  obtain ⟨parts, -, h2⟩ := Outcome.bind_eq_ok.1 h
  obtain ⟨part, h3, h4⟩ := Outcome.bind_eq_ok.1 h2
  injection h4 with h4
  subst h4
  intro hnil
  simp only at hnil
  subst hnil
  cases h3

theorem trailingSegment_eq {input seg : Str} (h : trailingSegment input = some seg) :
    ∃ parts, parts ≠ [] ∧ trailingStage (collapseSpaces input) = .ok (parts, seg) := by
  unfold trailingSegment at h
  split at h
  · rename_i ts hts
    injection h with h
    subst h
    exact ⟨ts.1, trailingStage_parts_ne_nil hts, hts⟩
  · cases h

theorem zipped_of_trailing {address seg : Str} {parts : List Str} (hp : parts ≠ [])
    (h : trailingStage address = .ok (parts, seg)) (hne : (zipStage seg).2.2 ≠ []) :
    zipped address =
      .ok ({ ZipCode := (zipStage seg).1, ZipCodePlusFour := (zipStage seg).2.1 },
        parts.dropLast ++ [(zipStage seg).2.2], (zipStage seg).2.2) := by
  unfold zipped
  rw [h]
  simp only [Outcome.bind, stateSegment]
  rw [if_pos (List.length_pos.2 hne)]
  unfold setLast
  rw [if_neg (by simpa using hp)]

/-! ## The ZIP extractor -/

theorem lastN_append {a b : Str} {n : Nat} (h : b.length = n) : lastN n (a ++ b) = b := by
  unfold lastN
  subst h
  simp

theorem dropLastN_append {a b : Str} {n : Nat} (h : b.length = n) :
    dropLastN n (a ++ b) = a := by
  unfold dropLastN
  subst h
  simp

theorem zipStage_plus_four (pre d5 d4 : Str) (h5 : d5.length = 5) (h4 : d4.length = 4)
    (h5d : ∀ c ∈ d5, isDigit c = true) (h4d : ∀ c ∈ d4, isDigit c = true) :
    zipStage (pre ++ (d5 ++ '-' :: d4)) = (d5, d5 ++ '-' :: d4, trimSpace pre) := by
  have hlen : (d5 ++ '-' :: d4).length = 10 := by simp [h5, h4]
  have hlen5 : ('-' :: d4).length = 5 := by simp [h4]
  have e5 : lastN 5 (pre ++ (d5 ++ '-' :: d4)) = '-' :: d4 := by
    rw [← List.append_assoc]
    exact lastN_append hlen5
  have e4 : lastN 4 (pre ++ (d5 ++ '-' :: d4)) = d4 := by
    have : pre ++ (d5 ++ '-' :: d4) = (pre ++ d5 ++ ['-']) ++ d4 := by simp
    rw [this]
    exact lastN_append h4
  have e10 : lastN 10 (pre ++ (d5 ++ '-' :: d4)) = d5 ++ '-' :: d4 := lastN_append hlen
  have z5 : matchZip5 (pre ++ (d5 ++ '-' :: d4)) = false := by
    unfold matchZip5
    rw [e5]
    simp [isDigit]
  have z9 : matchZip9 (pre ++ (d5 ++ '-' :: d4)) = true := by
    unfold matchZip9
    rw [e10, e4]
    have t5 : (d5 ++ '-' :: d4).take 5 = d5 := by
      rw [← h5]; simp
    have dr5 : (d5 ++ '-' :: d4).drop 5 = '-' :: d4 := by
      rw [← h5]; simp
    rw [t5, dr5]
    simp only [List.length_append, hlen, List.head?_cons, Bool.and_eq_true, decide_eq_true_eq,
      beq_self_eq_true, and_true, List.all_eq_true]
    exact ⟨⟨by omega, h5d⟩, h4d⟩
  unfold zipStage
  rw [z5, z9]
  simp only [Bool.false_eq_true, if_false, if_true, e10]
  have t5 : (d5 ++ '-' :: d4).take 5 = d5 := by
    rw [← h5]; simp
  rw [t5, dropLastN_append hlen]

/-- C6: when the trailing segment of an input (after country stripping and trimming)
ends with five digits, a hyphen and four digits, the ZIP extractor takes exactly that
token off the segment, together with the white space in front of it, before the state is
resolved, and every record `ParseAddress` returns has `ZipCode` equal to the five digits
and `ZipCodePlusFour` equal to the whole token. -/
theorem zip_plus_four (T : Tables) (input pre d5 d4 : Str)
    (hseg : trailingSegment input = some (pre ++ (d5 ++ '-' :: d4)))
    (h5 : d5.length = 5) (h4 : d4.length = 4)
    (h5d : ∀ c ∈ d5, isDigit c = true) (h4d : ∀ c ∈ d4, isDigit c = true) :
    zipStage (pre ++ (d5 ++ '-' :: d4)) = (d5, d5 ++ '-' :: d4, trimSpace pre) ∧
    (trimSpace pre ≠ [] → stateText input = some (trimSpace pre)) ∧
    ∀ r, ParseAddress T input = .ok r →
      r.ZipCode = d5 ∧ r.ZipCodePlusFour = d5 ++ '-' :: d4 := by
  have hz := zipStage_plus_four pre d5 d4 h5 h4 h5d h4d
  obtain ⟨parts, hp, hts⟩ := trailingSegment_eq hseg
  refine ⟨hz, ?_, ?_⟩
  · intro hne
    have := zipped_of_trailing hp hts (by rw [hz]; exact hne)
    unfold stateText
    rw [this, hz]
  · intro r hr
    obtain ⟨z, hzz, e1, e2, -⟩ := ParseAddress_header hr
    obtain ⟨ts, h1, -, h3⟩ := zipped_ok hzz
    rw [hts] at h1
    injection h1 with h1
    subst h1
    rw [e1, e2, h3, hz]
    exact ⟨rfl, rfl⟩

/-- C6, on an address with a nine-digit ZIP code. -/
theorem zip_plus_four_witness :
    zipStage "CA 91754-1234".toList = ("91754".toList, "91754-1234".toList, "CA".toList) ∧
    ∀ r, ParseAddress sampleTables "100 Main St, Monterey Park, CA 91754-1234".toList = .ok r →
      r.ZipCode = "91754".toList ∧ r.ZipCodePlusFour = "91754-1234".toList :=
  have h := zip_plus_four sampleTables "100 Main St, Monterey Park, CA 91754-1234".toList
    "CA ".toList "91754".toList "1234".toList (by decide!) (by decide) (by decide) (by decide)
    (by decide)
  ⟨h.1, h.2.2⟩

/-! ## The state resolver -/

theorem getKeyByValue_mem {object : List (Str × Str)} {value : Str}
    (h : value ∈ object.map Prod.snd) : (getKeyByValue object value, value) ∈ object := by
  unfold getKeyByValue
  cases hf : object.find? (fun kv => kv.2 == value) with
  | none =>
    rw [List.find?_eq_none] at hf
    simp only [List.mem_map] at h
    obtain ⟨kv, hkv, rfl⟩ := h
    exact absurd (by simp) (hf kv hkv)
  | some kv =>
    have h1 := List.find?_some hf
    have h2 := List.mem_of_find?_eq_some hf
    simp only [beq_iff_eq] at h1
    subst h1
    exact h2

theorem resolveState_exact {allStates : List (Str × Str)} {s : Str} (hlen : s.length = 2)
    (hmem : toUpper s ∈ allStates.map Prod.snd) (hnames : ∀ kv ∈ allStates, kv.1 ≠ []) :
    resolveState allStates s =
      (toUpper s, toTitleCase (getKeyByValue allStates (toUpper s)), dropLastN 2 s) := by
  unfold resolveState
  have := hnames _ (getKeyByValue_mem hmem)
  simp only at this
  simp [hlen, this]

theorem lastN_tail {n : Nat} {s : Str} (h : n + 1 ≤ s.length) :
    (lastN (n + 1) s).tail = lastN n s := by
  unfold lastN
  rw [List.tail_drop]
  congr 1
  omega

theorem hasSuffixFold_tail {c : Char} {p s : Str} (h : hasSuffixFold (c :: p) s = true) :
    hasSuffixFold p s = true := by
  unfold hasSuffixFold at *
  simp only [List.length_cons, Bool.and_eq_true, decide_eq_true_eq] at h ⊢
  obtain ⟨h1, h2⟩ := h
  refine ⟨by omega, ?_⟩
  unfold eqFold toLower at *
  simp only [beq_iff_eq] at h2 ⊢
  rw [← lastN_tail h1, List.map_tail, ← h2]
  simp

theorem scanStates_none {allStates : List (Str × Str)} {s : Str}
    (h : ∀ kv ∈ allStates, hasSuffixFold kv.1 s = false ∧ hasSuffixFold kv.2 s = false) :
    scanStates allStates s = ([], [], s) := by
  induction allStates with
  | nil => rfl
  | cons kv rest ih =>
    obtain ⟨key, abbr⟩ := kv
    have hk := h (key, abbr) (by simp)
    have ha : hasSuffixFold (' ' :: abbr) s = false := by
      by_contra hc
      simp only [Bool.not_eq_false] at hc
      have := hasSuffixFold_tail hc
      rw [hk.2] at this
      cases this
    simp only [scanStates, stateMatchLen, ha, hk.1]
    exact ih fun kv hkv => h kv (by simp [hkv])

theorem resolveState_none {T : Tables} {s : Str} (h1 : knownAbbreviation T s = false)
    (h2 : endsWithState T s = false) : resolveState T.allStates s = ([], [], s) := by
  unfold resolveState
  have hscan : scanStates T.allStates s = ([], [], s) := by
    apply scanStates_none
    intro kv hkv
    unfold endsWithState at h2
    rw [List.any_eq_false] at h2
    have := h2 kv hkv
    simpa using this
  rw [hscan]
  simp only [ite_eq_right_iff, Bool.and_eq_true, beq_iff_eq, bne_iff_ne]
  rintro ⟨hlen, hkey⟩
  exfalso
  apply hkey
  unfold knownAbbreviation at h1
  simp only [hlen, beq_self_eq_true, Bool.true_and] at h1
  unfold getKeyByValue
  cases hf : T.allStates.find? (fun kv => kv.2 == toUpper s) with
  | none => rfl
  | some kv =>
    have e1 := List.find?_some hf
    have e2 := List.mem_of_find?_eq_some hf
    simp only [beq_iff_eq] at e1
    have : toUpper s ∈ T.allStates.map Prod.snd := by
      rw [← e1]
      exact List.mem_map_of_mem _ e2
    have hc : (T.allStates.map Prod.snd).contains (toUpper s) = true := by
      simpa using this
    rw [h1] at hc
    cases hc

theorem stateText_eq {input s : Str} (h : stateText input = some s) :
    input ≠ [] ∧ ∃ z, zipped (collapseSpaces input) = .ok z ∧ z.2.2 = s := by
  unfold stateText at h
  split at h
  · rename_i z hz
    injection h with h
    refine ⟨?_, z, hz, h⟩
    rintro rfl
    rw [zipped_nil] at hz
    cases hz
  · cases h

/-- C4, as amended: for an ASCII input and tables of ASCII entries without
metacharacter, when the text the state resolver examines (the ZIP-stripped trailing
segment or, when that is empty, the trimmed segment in front of it) is not a known
abbreviation of two characters and does not end, whatever the case, with a state name or
an abbreviation of the state table, `ParseAddress` fails with the error "State not found"
and returns no record. -/
theorem state_not_found (T : Tables) (input s : Str) (_hascii : isAscii input = true)
    (_hliteral : literalTables T = true) (hs : stateText input = some s)
    (h1 : knownAbbreviation T s = false) (h2 : endsWithState T s = false) :
    ParseAddress T input = .error .stateNotFound := by
  obtain ⟨hne, z, hz, rfl⟩ := stateText_eq hs
  rw [ParseAddress_of_ne_nil hne, hz]
  simp only [Outcome.bind, placed, resolveState_none h1 h2]
  rfl

/-- C4, on the scenario of the specification: an input without city, state or ZIP. -/
theorem state_not_found_witness :
    ParseAddress sampleTables "1 Two Three Four".toList = .error .stateNotFound :=
  state_not_found sampleTables "1 Two Three Four".toList "1 Two Three Four".toList
    (by decide) (by decide) (by decide!) (by decide!) (by decide!)

/-- C4 as stated fails: the trailing segment of this input is a ZIP code alone, so its
ZIP-stripped text is empty, which is no abbreviation and ends with no state name or
abbreviation; the state resolver then reads the segment in front of it, finds the state
there, and `ParseAddress` returns a record. -/
theorem state_not_found_counterexample :
    trailingSegment "100 Main St, Monterey Park, CA, 91754".toList = some "91754".toList ∧
    (zipStage "91754".toList).2.2 = [] ∧
    knownAbbreviation sampleTables [] = false ∧ endsWithState sampleTables [] = false ∧
    ParseAddress sampleTables "100 Main St, Monterey Park, CA, 91754".toList =
      .ok { ID := "100-Main-St%2C-Monterey-Park%2C-CA-91754".toList
            ZipCode := "91754".toList
            StateAbbreviation := "CA".toList
            StateName := "California".toList
            PlaceName := "Monterey Park".toList
            AddressLine1 := "100 Main St".toList
            StreetNumber := "100".toList
            FormattedAddress := "100 Main St, Monterey Park, CA 91754".toList
            StreetName := "Main St".toList } := by
  refine ⟨by decide!, by decide!, by decide!, by decide!, by decide!⟩

/-- C5: for an ASCII input and tables of ASCII entries without metacharacter, when the
text in front of the ZIP code in the trailing segment (trimmed) has exactly two characters
and, upper-cased, is an abbreviation of the state table (whose state names are not
empty), the state resolver accepts it whatever its case:
`ParseAddress` does not fail with "State not found", and every record it returns has
`StateAbbreviation` equal to the text upper-cased and `StateName` equal to the
title-cased table name of that abbreviation. -/
theorem two_letter_state (T : Tables) (input seg : Str) (_hascii : isAscii input = true)
    (_hliteral : literalTables T = true) (hseg : trailingSegment input = some seg)
    (hlen : (zipStage seg).2.2.length = 2)
    (hmem : toUpper (zipStage seg).2.2 ∈ T.allStates.map Prod.snd)
    (hnames : ∀ kv ∈ T.allStates, kv.1 ≠ []) :
    ParseAddress T input ≠ .error .stateNotFound ∧
    ∀ r, ParseAddress T input = .ok r →
      r.StateAbbreviation = toUpper (zipStage seg).2.2 ∧
      ∃ name, (name, toUpper (zipStage seg).2.2) ∈ T.allStates ∧
        r.StateName = toTitleCase name := by
  obtain ⟨parts, hp, hts⟩ := trailingSegment_eq hseg
  have hne : (zipStage seg).2.2 ≠ [] := by
    intro h
    rw [h] at hlen
    cases hlen
  have hz := zipped_of_trailing hp hts hne
  have hrs := resolveState_exact hlen hmem hnames
  constructor
  · intro herr
    have hin : input ≠ [] := by
      rintro rfl
      rw [zipped_nil] at hz
      cases hz
    rw [ParseAddress_of_ne_nil hin, hz] at herr
    rcases Outcome.bind_eq_error.1 herr with h | ⟨x, -, h⟩
    · have := (placed_error h).2
      simp only [Outcome.bind] at this
      rw [hrs] at this
      simp [toUpper, hlen] at this
    · rcases finish_error h with ⟨h, -⟩ | h | h <;> cases h
  · intro r hr
    obtain ⟨z, hzz, -, -, e3, e4⟩ := ParseAddress_header hr
    rw [hz] at hzz
    injection hzz with hzz
    subst hzz
    simp only at e3 e4
    rw [hrs] at e3 e4
    exact ⟨e3, _, getKeyByValue_mem hmem, e4⟩

/-- C5, on an address whose state is written in lower case. -/
theorem two_letter_state_witness :
    ParseAddress sampleTables "100 Main St, Monterey Park, ca 91754".toList ≠
      .error .stateNotFound ∧
    ∀ r, ParseAddress sampleTables "100 Main St, Monterey Park, ca 91754".toList = .ok r →
      r.StateAbbreviation = "CA".toList ∧
      ∃ name, (name, "CA".toList) ∈ sampleTables.allStates ∧ r.StateName = toTitleCase name :=
  two_letter_state sampleTables "100 Main St, Monterey Park, ca 91754".toList
    "ca 91754".toList (by decide) (by decide) (by decide!) (by decide!) (by decide!)
    (by decide!)

/-! ## The line splitter -/

/-- C7: for an ASCII input and tables of ASCII entries without metacharacter, when the
state has been resolved and more than two segments remain once the country segment, the
ZIP, the state and the city have been removed, `ParseAddress` fails
with the error "More than two address lines" and returns no record; with two segments or
fewer that error is not raised. -/
theorem more_than_two_lines (T : Tables) (input : Str) (parts : List Str)
    (_hascii : isAscii input = true) (_hliteral : literalTables T = true)
    (h : remainingSegments T input = some parts) :
    (2 < parts.length → ParseAddress T input = .error .moreThanTwoLines) ∧
    (parts.length ≤ 2 → ParseAddress T input ≠ .error .moreThanTwoLines) := by
  unfold remainingSegments at h
  split at h
  swap
  · cases h
  rename_i x hx
  injection h with h
  subst h
  have hin : input ≠ [] := by
    rintro rfl
    unfold afterCity at hx
    rw [zipped_nil] at hx
    cases hx
  have hP : ParseAddress T input = finish T (collapseSpaces input) x := by
    rw [ParseAddress_of_ne_nil hin]
    unfold afterCity at hx
    rw [hx]
    rfl
  rw [hP]
  constructor
  · exact finish_of_long
  · intro hle herr
    rcases finish_error herr with ⟨-, h⟩ | h | h
    · omega
    · cases h
    · cases h

/-- C7, on an address with three segments in front of the city. -/
theorem more_than_two_lines_witness :
    ParseAddress sampleTables "Floor 2, Suite 5, 100 Main St, Monterey Park, CA 91754".toList =
      .error .moreThanTwoLines :=
  (more_than_two_lines sampleTables
    "Floor 2, Suite 5, 100 Main St, Monterey Park, CA 91754".toList
    ["Floor 2".toList, " Suite 5".toList, " 100 Main St".toList] (by decide) (by decide)
    (by decide!)).1 (by decide)

/-! ## Characters -/

theorem char_eq_iff (c d : Char) : c = d ↔ c.toNat = d.toNat := by
  constructor
  · rintro rfl; rfl
  · intro h
    rw [← Char.ofNat_toNat c, ← Char.ofNat_toNat d, h]

theorem toNat_ofNat_valid {n : Nat} (h : n.isValidChar) : (Char.ofNat n).toNat = n := by
  unfold Char.ofNat
  rw [dif_pos h]
  simp [Char.ofNatAux, Char.toNat, UInt32.toNat]

theorem toNat_toLower (c : Char) :
    c.toLower.toNat = if 65 ≤ c.toNat ∧ c.toNat ≤ 90 then c.toNat + 32 else c.toNat := by
  unfold Char.toLower
  simp only [ge_iff_le]
  split
  · exact toNat_ofNat_valid (Or.inl (by omega))
  · rfl

theorem toNat_toUpper (c : Char) :
    c.toUpper.toNat = if 97 ≤ c.toNat ∧ c.toNat ≤ 122 then c.toNat - 32 else c.toNat := by
  unfold Char.toUpper
  simp only [ge_iff_le]
  split
  · exact toNat_ofNat_valid (Or.inl (by omega))
  · rfl

theorem isSpace_iff (c : Char) : isSpace c = true ↔
    (9 ≤ c.toNat ∧ c.toNat ≤ 13) ∨ c.toNat = 32 ∨ c.toNat = 133 ∨ c.toNat = 160 ∨
    c.toNat = 5760 ∨ (8192 ≤ c.toNat ∧ c.toNat ≤ 8202) ∨
    c.toNat = 8232 ∨ c.toNat = 8233 ∨ c.toNat = 8239 ∨ c.toNat = 8287 ∨
    c.toNat = 12288 := by
  simp only [isSpace, Bool.or_eq_true, Bool.and_eq_true, decide_eq_true_eq, beq_iff_eq,
    or_assoc]

theorem isAlnum_iff (c : Char) : isAlnum c = true ↔
    (48 ≤ c.toNat ∧ c.toNat ≤ 57) ∨ (65 ≤ c.toNat ∧ c.toNat ≤ 90) ∨
    (97 ≤ c.toNat ∧ c.toNat ≤ 122) := by
  simp only [isAlnum, isLetter, isUpperLetter, isLowerLetter, isDigit, Bool.or_eq_true,
    Bool.and_eq_true, decide_eq_true_eq]
  tauto

theorem isDigit_iff (c : Char) : isDigit c = true ↔ 48 ≤ c.toNat ∧ c.toNat ≤ 57 := by
  simp only [isDigit, Bool.and_eq_true, decide_eq_true_eq]

theorem isAlnum_not_space {c : Char} (h : isAlnum c = true) : isSpace c = false := by
  rw [isAlnum_iff] at h
  rw [Bool.eq_false_iff]
  intro hs
  rw [isSpace_iff] at hs
  omega

theorem isSpace_space : isSpace ' ' = true := by decide

theorem isAlnum_ne {c : Char} (h : isAlnum c = true) :
    c ≠ ' ' ∧ c ≠ ',' ∧ c ≠ '\\' ∧ c ≠ '.' ∧ c ≠ '_' := by
  rw [isAlnum_iff] at h
  refine ⟨?_, ?_, ?_, ?_, ?_⟩ <;>
  · rintro rfl
    revert h
    decide

/-! ## Elementary string functions -/

theorem trimSpace_eq_self {s : Str} (hhead : ∀ c, s.head? = some c → isSpace c = false)
    (hlast : ∀ c, s.getLast? = some c → isSpace c = false) : trimSpace s = s := by
  unfold trimSpace
  have h1 : s.dropWhile isSpace = s := by
    cases s with
    | nil => rfl
    | cons c t =>
      have := hhead c rfl
      simp [List.dropWhile, this]
  rw [h1, List.rdropWhile_eq_self_iff]
  intro hne
  have := hlast (s.getLast hne) (List.getLast?_eq_getLast s hne)
  simp [this]

theorem trimSpace_space_cons (s : Str) : trimSpace (' ' :: s) = trimSpace s := by
  unfold trimSpace
  simp [List.dropWhile, isSpace_space]

theorem trimSpace_append_space {s : Str} (hhead : ∀ c, s.head? = some c → isSpace c = false)
    (hlast : ∀ c, s.getLast? = some c → isSpace c = false) :
    trimSpace (s ++ [' ']) = s := by
  cases s with
  | nil => decide
  | cons c t =>
    unfold trimSpace
    have hc := hhead c rfl
    have h1 : ((c :: t) ++ [' ']).dropWhile isSpace = (c :: t) ++ [' '] := by
      simp [List.dropWhile, hc]
    rw [h1, List.rdropWhile_concat_pos _ _ _ isSpace_space, List.rdropWhile_eq_self_iff]
    intro hne
    have := hlast ((c :: t).getLast hne) (List.getLast?_eq_getLast _ hne)
    simp [this]

/-- A word: not empty, and no character of it is a white space or a comma. -/
theorem isToken_iff {w : Str} :
    isToken w = true ↔ w ≠ [] ∧ ∀ c ∈ w, isSpace c = false ∧ c ≠ ',' := by
  unfold isToken
  cases w <;> simp

theorem isWord_iff {w : Str} : isWord w = true ↔ w ≠ [] ∧ ∀ c ∈ w, isAlnum c = true := by
  unfold isWord
  cases w <;> simp

theorem isNumber_iff {w : Str} : isNumber w = true ↔ w ≠ [] ∧ ∀ c ∈ w, isDigit c = true := by
  unfold isNumber
  cases w <;> simp

theorem isDigit_isAlnum {c : Char} (h : isDigit c = true) : isAlnum c = true := by
  simp [isAlnum, h]

theorem isWord_isToken {w : Str} (h : isWord w = true) : isToken w = true := by
  rw [isWord_iff] at h
  rw [isToken_iff]
  exact ⟨h.1, fun c hc => ⟨isAlnum_not_space (h.2 c hc), (isAlnum_ne (h.2 c hc)).2.1⟩⟩

theorem isNumber_isWord {w : Str} (h : isNumber w = true) : isWord w = true := by
  rw [isNumber_iff] at h
  rw [isWord_iff]
  exact ⟨h.1, fun c hc => isDigit_isAlnum (h.2 c hc)⟩

theorem joinSpace_cons_cons (p q : Str) (rest : List Str) :
    joinSpace (p :: q :: rest) = p ++ ' ' :: joinSpace (q :: rest) := rfl

theorem joinSpace_ne_nil {ws : List Str} (h : ∀ w ∈ ws, w ≠ []) (hne : ws ≠ []) :
    joinSpace ws ≠ [] := by
  cases ws with
  | nil => exact absurd rfl hne
  | cons p rest =>
    cases rest with
    | nil => simpa [joinSpace] using h p (by simp)
    | cons q rest => simp [joinSpace]

theorem mem_joinSpace {ws : List Str} {c : Char} (h : c ∈ joinSpace ws) :
    c = ' ' ∨ ∃ w ∈ ws, c ∈ w := by
  induction ws with
  | nil => simp [joinSpace] at h
  | cons p rest ih =>
    cases rest with
    | nil => exact Or.inr ⟨p, by simp, by simpa [joinSpace] using h⟩
    | cons q rest =>
      rw [joinSpace_cons_cons] at h
      simp only [List.mem_append, List.mem_cons] at h
      rcases h with h | h | h
      · exact Or.inr ⟨p, by simp, h⟩
      · exact Or.inl h
      · rcases ih h with h | ⟨w, hw, hc⟩
        · exact Or.inl h
        · exact Or.inr ⟨w, by simp [hw], hc⟩

theorem head?_joinSpace {ws : List Str} (h : ∀ w ∈ ws, w ≠ []) {c : Char}
    (hc : (joinSpace ws).head? = some c) : ∃ w ∈ ws, c ∈ w := by
  cases ws with
  | nil => simp [joinSpace] at hc
  | cons p rest =>
    have hp := h p (by simp)
    cases p with
    | nil => exact absurd rfl hp
    | cons a p =>
      refine ⟨a :: p, by simp, ?_⟩
      cases rest with
      | nil =>
        simp only [joinSpace, List.head?_cons, Option.some.injEq] at hc
        simp [hc]
      | cons q rest =>
        simp only [joinSpace_cons_cons, List.cons_append, List.head?_cons,
          Option.some.injEq] at hc
        simp [hc]

theorem getLast?_joinSpace {ws : List Str} (h : ∀ w ∈ ws, w ≠ []) {c : Char}
    (hc : (joinSpace ws).getLast? = some c) : ∃ w ∈ ws, c ∈ w := by
  induction ws with
  | nil => simp [joinSpace] at hc
  | cons p rest ih =>
    cases rest with
    | nil =>
      refine ⟨p, by simp, ?_⟩
      simp only [joinSpace] at hc
      exact List.mem_of_getLast?_eq_some hc
    | cons q rest =>
      rw [joinSpace_cons_cons] at hc
      have hne : joinSpace (q :: rest) ≠ [] :=
        joinSpace_ne_nil (fun w hw => h w (by simp [hw])) (by simp)
      have : (p ++ ' ' :: joinSpace (q :: rest)).getLast? = (joinSpace (q :: rest)).getLast? := by
        rw [List.getLast?_append_of_ne_nil _ (by simp)]
        cases hj : joinSpace (q :: rest) with
        | nil => exact absurd hj hne
        | cons a t => rw [List.getLast?_cons_cons]
      rw [this] at hc
      obtain ⟨w, hw, hcw⟩ := ih (fun w hw => h w (by simp [hw])) hc
      exact ⟨w, by simp [hw], hcw⟩

/-! ## The normaliser -/

theorem collapseAux_cons_ne {b : Bool} {c : Char} (h : c ≠ ' ') (rest : Str) :
    collapseAux b (c :: rest) = c :: collapseAux false rest := by
  simp [collapseAux, h]

theorem collapseAux_space (rest : Str) :
    collapseAux false (' ' :: rest) = ' ' :: collapseAux true rest := by
  simp [collapseAux]

theorem collapseAux_token {w : Str} (hne : w ≠ []) (hw : ' ' ∉ w) (b : Bool) (rest : Str) :
    collapseAux b (w ++ rest) = w ++ collapseAux false rest := by
  induction w generalizing b with
  | nil => exact absurd rfl hne
  | cons c w ih =>
    simp only [List.mem_cons, not_or] at hw
    rw [List.cons_append, collapseAux_cons_ne (Ne.symm hw.1)]
    cases w with
    | nil => rfl
    | cons d w => rw [ih (by simp) hw.2]; rfl

theorem isToken_no_space {w : Str} (h : isToken w = true) : w ≠ [] ∧ ' ' ∉ w := by
  rw [isToken_iff] at h
  refine ⟨h.1, fun hc => ?_⟩
  have := (h.2 _ hc).1
  rw [isSpace_space] at this
  cases this

theorem collapseAux_joinSpace {ws : List Str} (hne : ws ≠ [])
    (hws : ∀ w ∈ ws, isToken w = true) (b : Bool) (rest : Str) :
    collapseAux b (joinSpace ws ++ rest) = joinSpace ws ++ collapseAux false rest := by
  induction ws generalizing b with
  | nil => exact absurd rfl hne
  | cons p ws ih =>
    have hp := isToken_no_space (hws p (by simp))
    cases ws with
    | nil => exact collapseAux_token hp.1 hp.2 b rest
    | cons q ws =>
      rw [joinSpace_cons_cons, List.append_assoc, collapseAux_token hp.1 hp.2,
        List.cons_append, collapseAux_space, ih (by simp) (fun w hw => hws w (by simp [hw]))]
      simp

/-! ## The split into segments -/

theorem splitAddress_cons {c : Char} (h1 : c ≠ ',') (h2 : c ≠ '\\') (rest : Str) :
    splitAddress (c :: rest) =
      match splitAddress rest with
      | seg :: segs => (c :: seg) :: segs
      | [] => [[c]] := by
  exact splitAddress.eq_5 c rest (fun h => h1 h) (fun _ h _ => h2 h) (fun _ h _ => h2 h)

theorem splitAddress_append {s : Str} (h1 : ',' ∉ s) (h2 : '\\' ∉ s) (t : Str) :
    splitAddress (s ++ ',' :: t) = s :: splitAddress t := by
  induction s with
  | nil => simp [splitAddress]
  | cons c s ih =>
    simp only [List.mem_cons, not_or] at h1 h2
    rw [List.cons_append, splitAddress_cons (Ne.symm h1.1) (Ne.symm h2.1), ih h1.2 h2.2]

theorem splitAddress_single {s : Str} (h1 : ',' ∉ s) (h2 : '\\' ∉ s) :
    splitAddress s = [s] := by
  induction s with
  | nil => rfl
  | cons c s ih =>
    simp only [List.mem_cons, not_or] at h1 h2
    rw [splitAddress_cons (Ne.symm h1.1) (Ne.symm h2.1), ih h1.2 h2.2]

theorem splitSpace_append {w : Str} (hw : ' ' ∉ w) (rest : Str) :
    splitSpace (w ++ ' ' :: rest) = w :: splitSpace rest := by
  induction w with
  | nil => simp [splitSpace]
  | cons c w ih =>
    simp only [List.mem_cons, not_or] at hw
    rw [List.cons_append, splitSpace]
    simp [Ne.symm hw.1, ih hw.2]

theorem splitSpace_single {w : Str} (hw : ' ' ∉ w) : splitSpace w = [w] := by
  induction w with
  | nil => rfl
  | cons c w ih =>
    simp only [List.mem_cons, not_or] at hw
    rw [splitSpace]
    simp [Ne.symm hw.1, ih hw.2]

theorem splitSpace_joinSpace {ws : List Str} (hne : ws ≠ []) (hws : ∀ w ∈ ws, ' ' ∉ w) :
    splitSpace (joinSpace ws) = ws := by
  induction ws with
  | nil => exact absurd rfl hne
  | cons p ws ih =>
    cases ws with
    | nil => exact splitSpace_single (hws p (by simp))
    | cons q ws =>
      rw [joinSpace_cons_cons, splitSpace_append (hws p (by simp)),
        ih (by simp) (fun w hw => hws w (by simp [hw]))]

/-! ## Literals of the patterns -/

/-- A character of a pattern that is not a letter matches only itself. -/
theorem eq_of_toLower_eq {p c : Char} (hp : isLetter p = false) (h : p.toLower = c.toLower) :
    c = p := by
  rw [char_eq_iff] at h ⊢
  rw [toNat_toLower, toNat_toLower] at h
  simp only [isLetter, isUpperLetter, isLowerLetter, Bool.or_eq_false_iff, Bool.and_eq_false_iff,
    decide_eq_false_iff_not] at hp
  split at h <;> split at h <;> omega

theorem stripPrefixFold_mem {ps s r : Str} (h : stripPrefixFold ps s = some r) :
    ∀ p ∈ ps, isLetter p = false → p ∈ s := by
  induction ps generalizing s with
  | nil => simp
  | cons a ps ih =>
    cases s with
    | nil => simp [stripPrefixFold] at h
    | cons c cs =>
      simp only [stripPrefixFold] at h
      split at h
      · rename_i hac
        intro p hp hl
        simp only [List.mem_cons] at hp
        rcases hp with rfl | hp
        · have := eq_of_toLower_eq hl (by simpa using hac)
          simp [this]
        · exact List.mem_cons_of_mem _ (ih h p hp hl)
      · cases h

theorem stripPrefixFold_none {ps s : Str} {p : Char} (hp : p ∈ ps) (hl : isLetter p = false)
    (hs : p ∉ s) : stripPrefixFold ps s = none := by
  cases h : stripPrefixFold ps s with
  | none => rfl
  | some r => exact absurd (stripPrefixFold_mem h p hp hl) hs

theorem findMatch_none {matchAt : Str → Option Nat} {s : Str}
    (h : ∀ t, t <:+ s → matchAt t = none) : findMatch matchAt s = none := by
  induction s with
  | nil => simp [findMatch, h [] (List.suffix_refl _)]
  | cons c rest ih =>
    rw [findMatch, h _ (List.suffix_refl _)]
    exact ih fun t ht => h t (ht.trans (List.suffix_cons c rest))

theorem not_mem_of_suffix {c : Char} {s t : Str} (h : c ∉ s) (ht : t <:+ s) : c ∉ t :=
  fun hc => h (ht.subset hc)

theorem aveAt_none {t : Str} (h : '.' ∉ t) : aveAt t = none := by
  unfold aveAt
  rw [stripPrefixFold_none (p := '.') (by simp) (by decide) h]
  rfl

theorem findAve_none {s : Str} (h : '.' ∉ s) : findMatch aveAt s = none :=
  findMatch_none fun _ ht => aveAt_none (not_mem_of_suffix h ht)

theorem streetAt_false (keys : List Str) {t : Str} (h : '.' ∉ t) : streetAt keys t = false := by
  unfold streetAt
  rw [List.any_eq_false]
  intro key _
  rw [stripPrefixFold_none (p := '.') (by simp) (by decide) h]
  simp

theorem matchStreet_false (keys : List Str) {s : Str} (h : '.' ∉ s) :
    matchStreet keys s = false := by
  induction s with
  | nil => simp [matchStreet, streetAt_false keys h]
  | cons c rest ih =>
    rw [matchStreet, streetAt_false keys h, ih (fun hc => h (List.mem_cons_of_mem _ hc))]
    rfl

theorem poAt_none {t : Str} (h : '\\' ∉ t) : poAt t = none := by
  unfold poAt
  rw [stripPrefixFold_none (p := '\\') (by simp) (by decide) h,
    stripPrefixFold_none (p := '\\') (by simp) (by decide) h]
  rfl

theorem findPO_none {s : Str} (h : '\\' ∉ s) : findMatch poAt s = none :=
  findMatch_none fun _ ht => poAt_none (not_mem_of_suffix h ht)

theorem line2Front_none {s : Str} (h : '\\' ∉ s) : line2Front s = none := by
  unfold line2Front
  rw [List.findSome?_eq_none_iff]
  intro key _
  unfold line2FrontWith
  rw [stripPrefixFold_none (p := '\\') (by simp) (by decide) h]

theorem matchLine2First_false {s : Str} (h : '\\' ∉ s) : matchLine2First s = false := by
  unfold matchLine2First
  rw [List.any_eq_false]
  intro key _
  rw [stripPrefixFold_none (p := '\\') (by simp) (by decide) h]
  simp

theorem line2TailAt_false {t : Str} (h : '\\' ∉ t) : line2TailAt t = false := by
  unfold line2TailAt
  rw [List.any_eq_false]
  intro key _
  rw [stripPrefixFold_none (p := '\\') (by simp) (by decide) h]
  simp

theorem findLine2Tail_none {s : Str} (h : '\\' ∉ s) : findLine2Tail s = none := by
  induction s with
  | nil => simp [findLine2Tail, line2TailAt_false h]
  | cons c rest ih =>
    rw [findLine2Tail, line2TailAt_false h, ih (fun hc => h (List.mem_cons_of_mem _ hc))]
    rfl

/-! ## The street line of a plain address -/

theorem nameRun_full {s : Str} (hs : ∀ c ∈ s, isNameChar c = true) {l : Char}
    (hl : s.getLast? = some l) (hw : isWordChar l = true) : nameRun s = some s.length := by
  induction s with
  | nil => cases hl
  | cons c t ih =>
    rw [nameRun, if_pos (hs c (by simp))]
    cases t with
    | nil =>
      simp only [List.getLast?_singleton, Option.some.injEq] at hl
      subst hl
      simp [nameRun, startsWithWord, hw]
    | cons d t =>
      rw [List.getLast?_cons_cons] at hl
      rw [ih (fun c hc => hs c (List.mem_cons_of_mem _ hc)) hl]
      rfl

theorem noSuffixAt_full {number rest : Str} (hne : number ≠ [])
    (hnum : ∀ c ∈ number, isDigit c = true) (hs : ∀ c ∈ rest, isNameChar c = true) {l : Char}
    (hl : rest.getLast? = some l) (hw : isWordChar l = true) :
    noSuffixAt (number ++ ' ' :: rest) = some (number ++ ' ' :: rest).length := by
  have ht : (number ++ ' ' :: rest).takeWhile isDigit = number := by
    rw [List.takeWhile_append_of_pos hnum]
    simp [List.takeWhile, show isDigit ' ' = false by decide]
  have hd : (number ++ ' ' :: rest).dropWhile isDigit = ' ' :: rest := by
    rw [List.dropWhile_append_of_pos hnum]
    simp [List.dropWhile, show isDigit ' ' = false by decide]
  unfold noSuffixAt
  rw [ht, hd]
  simp only [List.isEmpty_eq_true, hne, if_false, show isReSpace ' ' = true by decide, if_true,
    nameRun_full hs hl hw, Option.map_some', List.length_append, List.length_cons]
  congr 1
  omega

theorem findNoSuffix_full {number rest : Str} (hne : number ≠ [])
    (hnum : ∀ c ∈ number, isDigit c = true) (hs : ∀ c ∈ rest, isNameChar c = true) {l : Char}
    (hl : rest.getLast? = some l) (hw : isWordChar l = true) :
    findNoSuffix false (number ++ ' ' :: rest) = some (number ++ ' ' :: rest) := by
  have h := noSuffixAt_full hne hnum hs hl hw
  cases number with
  | nil => exact absurd rfl hne
  | cons d ds =>
    rw [List.cons_append] at h ⊢
    rw [findNoSuffix]
    simp only [Bool.false_eq_true, if_false, h]
    simp

/-- The facts about a street line made of a number and of words of letters and digits. -/
theorem street_facts {number : Str} {words : List Str} (hnum : isNumber number = true)
    (hne : words ≠ []) (hwords : ∀ w ∈ words, isWord w = true) :
    '\\' ∉ joinSpace (number :: words) ∧ '.' ∉ joinSpace (number :: words) ∧
    ',' ∉ joinSpace (number :: words) ∧
    findNoSuffix false (joinSpace (number :: words)) = some (joinSpace (number :: words)) ∧
    splitSpace (joinSpace (number :: words)) = number :: words ∧
    trimSpace (joinSpace (number :: words)) = joinSpace (number :: words) := by
  have hall : ∀ w ∈ number :: words, isWord w = true := by
    intro w hw
    simp only [List.mem_cons] at hw
    rcases hw with rfl | hw
    · exact isNumber_isWord hnum
    · exact hwords w hw
  have hchars : ∀ c ∈ joinSpace (number :: words), c = ' ' ∨ isAlnum c = true := by
    intro c hc
    rcases mem_joinSpace hc with h | ⟨w, hw, hcw⟩
    · exact Or.inl h
    · exact Or.inr ((isWord_iff.1 (hall w hw)).2 c hcw)
  have hnot : ∀ d : Char, d ≠ ' ' → isAlnum d = false → d ∉ joinSpace (number :: words) := by
    intro d h1 h2 hd
    rcases hchars d hd with h | h
    · exact h1 h
    · rw [h2] at h; cases h
  have hnonempty : ∀ w ∈ number :: words, w ≠ [] := fun w hw => (isWord_iff.1 (hall w hw)).1
  refine ⟨hnot _ (by decide) (by decide), hnot _ (by decide) (by decide),
    hnot _ (by decide) (by decide), ?_, ?_, ?_⟩
  · obtain ⟨q, ws, rfl⟩ : ∃ q ws, words = q :: ws := by
      cases words with
      | nil => exact absurd rfl hne
      | cons q ws => exact ⟨q, ws, rfl⟩
    rw [joinSpace_cons_cons]
    have hrest : ∀ w ∈ q :: ws, isWord w = true := fun w hw => hwords w hw
    have hjne : joinSpace (q :: ws) ≠ [] :=
      joinSpace_ne_nil (fun w hw => (isWord_iff.1 (hrest w hw)).1) (by simp)
    obtain ⟨l, hl⟩ : ∃ l, (joinSpace (q :: ws)).getLast? = some l := by
      cases h : (joinSpace (q :: ws)).getLast? with
      | none => exact absurd (List.getLast?_eq_none_iff.1 h) hjne
      | some l => exact ⟨l, rfl⟩
    obtain ⟨w, hw, hlw⟩ := getLast?_joinSpace (fun w hw => (isWord_iff.1 (hrest w hw)).1) hl
    have hla : isAlnum l = true := (isWord_iff.1 (hrest w hw)).2 l hlw
    refine findNoSuffix_full (isNumber_iff.1 hnum).1 (isNumber_iff.1 hnum).2 ?_ hl
      (by simp [isWordChar, hla])
    intro c hc
    rcases mem_joinSpace hc with h | ⟨w, hw, hcw⟩
    · subst h; decide
    · simp [isNameChar, (isWord_iff.1 (hrest w hw)).2 c hcw]
  · apply splitSpace_joinSpace (by simp)
    intro w hw hc
    exact (isAlnum_ne ((isWord_iff.1 (hall w hw)).2 _ hc)).1 rfl
  · apply trimSpace_eq_self
    · intro c hc
      obtain ⟨w, hw, hcw⟩ := head?_joinSpace hnonempty hc
      exact isAlnum_not_space ((isWord_iff.1 (hall w hw)).2 c hcw)
    · intro c hc
      obtain ⟨w, hw, hcw⟩ := getLast?_joinSpace hnonempty hc
      exact isAlnum_not_space ((isWord_iff.1 (hall w hw)).2 c hcw)

/-- The four grammars on a street line made of a number and of words of letters and
digits: the fallback grammar takes the whole line. -/
theorem streetGrammars_plain (T : Tables) (address : Str) (r : Address) {number : Str}
    {words : List Str} (hnum : isNumber number = true) (hne : words ≠ [])
    (hwords : ∀ w ∈ words, isWord w = true) :
    streetGrammars T address r (joinSpace (number :: words)) =
      .ok { r with
        AddressLine1 := joinSpace (number :: words)
        StreetNumber := number
        StreetName := joinSpace words } := by
  obtain ⟨h1, h2, -, h4, h5, -⟩ := street_facts hnum hne hwords
  unfold streetGrammars
  rw [findAve_none h2]
  simp only [matchStreet_false _ h2, Bool.false_eq_true, if_false, findPO_none h1, h4,
    Option.isSome_some, if_true]
  unfold noSuffixStreet
  simp only [findLine2Tail_none h1, h4, h5]

theorem parseStreet_plain (T : Tables) (address stateString : Str) (r : Address) {part : Str}
    {number : Str} {words : List Str} (hpart : trimSpace part = joinSpace (number :: words))
    (hnum : isNumber number = true) (hne : words ≠ [])
    (hwords : ∀ w ∈ words, isWord w = true) :
    parseStreet T address stateString r [part] =
      .ok { r with
        AddressLine1 := joinSpace (number :: words)
        StreetNumber := number
        StreetName := joinSpace words } := by
  obtain ⟨h1, -⟩ := street_facts hnum hne hwords
  unfold parseStreet
  simp only [hpart, line2Front_none h1, ite_self]
  exact streetGrammars_plain T address r hnum hne hwords

/-! ## The stages in front of the line splitter -/

/-- The stages in front of the line splitter, when the trailing segment holds a ZIP code
and a state that the state resolver consumes, and the segment in front of it holds a
city: the two segments are removed. -/
theorem afterCity_resolved (T : Tables) {address : Str} {front : List Str}
    {s2 s3 zip plus4 st abbr name place : Str}
    (hsplit : splitAddress address = front ++ [s2, s3])
    (hcountry : isCountry (trimSpace s3) = false)
    (hzip : zipStage (trimSpace s3) = (zip, plus4, st)) (hst : st ≠ [])
    (hstate : resolveState T.allStates st = (abbr, name, [])) (hlen : abbr.length = 2)
    (hcity : resolveCity T abbr (trimSpace s2) = (place, [])) :
    afterCity T address =
      .ok ({ ZipCode := zip, ZipCodePlusFour := plus4, StateAbbreviation := abbr,
             StateName := name, PlaceName := place }, front, []) := by
  have hlast : (front ++ [s2, s3]).getLast? = some s3 := by simp
  have hts : trailingStage address = .ok (front ++ [s2, s3], trimSpace s3) := by
    unfold trailingStage countryStage lastPart
    rw [hsplit, hlast]
    simp only [Outcome.ofOption, Outcome.bind, hcountry, Bool.false_eq_true, if_false, hlast]
  have hz := zipped_of_trailing (by simp) hts (by rw [hzip]; exact hst)
  rw [hzip] at hz
  simp only at hz
  have hdl : (front ++ [s2, s3]).dropLast = front ++ [s2] := by
    rw [show front ++ [s2, s3] = (front ++ [s2]) ++ [s3] by simp, List.dropLast_concat]
  rw [hdl] at hz
  unfold afterCity
  rw [hz]
  simp only [Outcome.bind, placed, hstate, hlen]
  simp only [cityStage, List.length_nil, gt_iff_lt, lt_self_iff_false, if_false, sliceInit,
    List.isEmpty_eq_true, List.append_eq_nil, and_false, List.cons_ne_self, lastPart,
    Outcome.bind, Outcome.ofOption]
  have e1 : (front ++ [s2] ++ [st]).dropLast = front ++ [s2] := List.dropLast_concat
  have e2 : (front ++ [s2]).getLast? = some s2 := by simp
  have e3 : (front ++ [s2]).dropLast = front := List.dropLast_concat
  simp [e1, e2, e3, hcity, Outcome.bind, Outcome.ofOption]

theorem ParseAddress_eq_finish {T : Tables} {input : Str} {x : Address × List Str × Str}
    (h : afterCity T (collapseSpaces input) = .ok x) :
    ParseAddress T input = finish T (collapseSpaces input) x := by
  have hin : input ≠ [] := by
    rintro rfl
    unfold afterCity at h
    rw [zipped_nil] at h
    cases h
  rw [ParseAddress_of_ne_nil hin]
  unfold afterCity at h
  rw [h]
  rfl

theorem mem_dropWhile_or {p : Char → Bool} {c : Char} {s : Str} (h : c ∈ s) :
    c ∈ s.dropWhile p ∨ p c = true := by
  induction s with
  | nil => cases h
  | cons a s ih =>
    rw [List.dropWhile_cons]
    split
    · rename_i ha
      simp only [List.mem_cons] at h
      rcases h with rfl | h
      · exact Or.inr ha
      · exact ih h
    · exact Or.inl h

theorem mem_trimSpace_or {c : Char} {s : Str} (h : c ∈ s) : c ∈ trimSpace s ∨ isSpace c = true := by
  unfold trimSpace
  rcases mem_dropWhile_or (p := isSpace) h with h | h
  · unfold List.rdropWhile
    rw [List.mem_reverse]
    rcases mem_dropWhile_or (p := isSpace) (List.mem_reverse.2 h) with h | h
    · exact Or.inl h
    · exact Or.inr h
  · exact Or.inr h

/-- C10: for every ASCII input, with tables of ASCII entries without metacharacter,
whose normalised form splits into a street segment, a unit
segment, a city segment and a segment with state and ZIP code, where the street line is a
number followed by words of letters and digits, the ZIP extractor and the state resolver
consume the last segment and the city resolver finds a city in the segment in front of
it, `ParseAddress` succeeds with `AddressLine2` equal to the unit segment, trimmed, and
`AddressLine1` equal to the street line. -/
theorem unit_line (T : Tables) (input s0 s1 s2 s3 number : Str) (words : List Str)
    (zip plus4 st abbr name place : Str)
    (_hascii : isAscii input = true) (_hliteral : literalTables T = true)
    (hsplit : splitAddress (collapseSpaces input) = [s0, s1, s2, s3])
    (hstreet : trimSpace s0 = joinSpace (number :: words))
    (hnum : isNumber number = true) (hne : words ≠ [])
    (hwords : ∀ w ∈ words, isWord w = true)
    (hcountry : isCountry (trimSpace s3) = false)
    (hzip : zipStage (trimSpace s3) = (zip, plus4, st)) (hst : st ≠ [])
    (hstate : resolveState T.allStates st = (abbr, name, [])) (hlen : abbr.length = 2)
    (hcity : resolveCity T abbr (trimSpace s2) = (place, [])) :
    ∃ r, ParseAddress T input = .ok r ∧ r.AddressLine2 = trimSpace s1 ∧
      r.AddressLine1 = joinSpace (number :: words) := by
  have hsplit2 : splitAddress (collapseSpaces input) = [s0, s1] ++ [s2, s3] := hsplit
  have hac := afterCity_resolved T hsplit2 hcountry hzip hst hstate hlen hcity
  rw [ParseAddress_eq_finish hac]
  have hb : '\\' ∉ s0 := by
    intro hc
    rcases mem_trimSpace_or hc with h | h
    · rw [hstreet] at h
      exact (street_facts hnum hne hwords).1 h
    · revert h
      decide
  unfold finish splitLines
  simp only [List.length_cons, List.length_nil, matchLine2First_false hb]
  simp only [Outcome.bind, Nat.lt_irrefl, if_false, Bool.false_eq_true]
  rw [parseStreet_plain T _ _ _ hstreet hnum hne hwords]
  refine ⟨_, rfl, ?_, ?_⟩
  · rw [(compose_fields _).2.1]
  · rw [(compose_fields _).1]

/-- C10, on the scenario of the specification. -/
theorem unit_line_witness :
    ∃ r, ParseAddress sampleTables "100 Main St, Apt 4B, Springfield, IL 62701".toList = .ok r ∧
      r.AddressLine2 = "Apt 4B".toList ∧ r.AddressLine1 = "100 Main St".toList :=
  unit_line sampleTables "100 Main St, Apt 4B, Springfield, IL 62701".toList
    "100 Main St".toList " Apt 4B".toList " Springfield".toList " IL 62701".toList
    "100".toList ["Main".toList, "St".toList] "62701".toList [] "IL".toList "IL".toList
    "Illinois".toList "Springfield".toList (by decide) (by decide)
    (by decide!) (by decide!) (by decide!) (by decide) (by decide!) (by decide!) (by decide!)
    (by decide) (by decide!) (by decide) (by decide!)

/-! ## A well-formed address -/

theorem toUpper_of_upper {s : Str} (h : ∀ c ∈ s, isUpperLetter c = true) : toUpper s = s := by
  unfold toUpper
  conv_rhs => rw [← List.map_id s]
  apply List.map_congr_left
  intro c hc
  have := h c hc
  simp only [isUpperLetter, Bool.and_eq_true, decide_eq_true_eq] at this
  rw [char_eq_iff, toNat_toUpper, if_neg (by omega)]
  rfl

theorem hasSuffixFold_self (s : Str) : hasSuffixFold s s = true := by
  simp [hasSuffixFold, eqFold, lastN]

theorem scanCities_found {pre post : List Str} {city : Str}
    (hpre : ∀ e ∈ pre, hasSuffixFold e city = false) :
    scanCities (pre ++ city :: post) city = some (city, dropLastN city.length city) := by
  induction pre with
  | nil => simp [scanCities, hasSuffixFold_self]
  | cons e pre ih =>
    rw [List.cons_append, scanCities, hpre e (by simp)]
    exact ih fun e he => hpre e (by simp [he])

theorem isCountry_false_of_length {s : Str} (h : s.length = 8) : isCountry s = false := by
  unfold isCountry
  simp only [Bool.or_eq_false_iff, beq_eq_false_iff_ne]
  refine ⟨⟨⟨?_, ?_⟩, ?_⟩, ?_⟩ <;>
  · intro hs
    rw [hs] at h
    revert h
    decide

theorem zipStage_five {pre zip : Str} (hlen : zip.length = 5)
    (hzip : ∀ c ∈ zip, isDigit c = true) :
    zipStage (pre ++ zip) = (zip, [], trimSpace pre) := by
  unfold zipStage matchZip5
  rw [lastN_append hlen, dropLastN_append hlen]
  simp only [List.length_append, hlen, List.all_eq_true]
  rw [if_pos]
  simp only [Bool.and_eq_true, decide_eq_true_eq]
  exact ⟨by omega, List.all_eq_true.2 hzip⟩

theorem isPlain_no_backslash {s : Str} (h : isPlain s = true) : '\\' ∉ s := by
  intro hc
  unfold isPlain at h
  rw [List.all_eq_true] at h
  have := h _ hc
  revert this
  decide

/-- C1: for every well-formed input, made of a number (a non-empty run of digits), name
words and a type word (of ASCII letters and digits), a comma, a city, a comma, a state
and a ZIP code, with single spaces in between, `ParseAddress` succeeds.  The city is
an entry of the city list of the state, written as it is title-cased, made of ASCII words
without white space, comma or metacharacter, and no earlier entry of the list matches it
as a case-insensitive suffix; the earlier entries and the street types, which the source
compiles as regular expressions, are ASCII text without metacharacter; the state is an
upper-case abbreviation of two letters of the state table, whose state names are ASCII
and not empty; the ZIP code is five digits.  The
record has `FormattedAddress` equal to the input, `StreetNumber` equal to the number,
`StreetName` equal to the name and the type as they are written, `AddressLine1` equal to
the street line, `PlaceName` equal to the city, `StateAbbreviation` equal to the state,
`ZipCode` equal to the ZIP code, and `StreetSuffix`, `StreetDirection`, `AddressLine2`
and `ZipCodePlusFour` empty. -/
theorem well_formed_address (T : Tables) (number : Str) (name : List Str) (type : Str)
    (cityWords : List Str) (st zip : Str) (pre post : List Str)
    (hnum : isNumber number = true) (hname : ∀ w ∈ name, isWord w = true)
    (htype : isWord type = true)
    (hcw : cityWords ≠ []) (hcity : ∀ w ∈ cityWords, isToken w = true)
    (hplain : isPlain (joinSpace cityWords) = true)
    (_hcityAscii : isAscii (joinSpace cityWords) = true)
    (htitle : toTitleCase (joinSpace cityWords) = joinSpace cityWords)
    (hlist : lookup T.allCities st [] = pre ++ joinSpace cityWords :: post)
    (hpre : ∀ e ∈ pre, hasSuffixFold e (joinSpace cityWords) = false)
    (_hpreLit : ∀ e ∈ pre, isLiteral e = true)
    (_htypes : ∀ kv ∈ T.usStreetTypes, isLiteral kv.1 = true)
    (hst : st.length = 2) (hupper : ∀ c ∈ st, isUpperLetter c = true)
    (hmem : st ∈ T.allStates.map Prod.snd) (hnames : ∀ kv ∈ T.allStates, kv.1 ≠ [])
    (_hnamesAscii : ∀ kv ∈ T.allStates, isAscii kv.1 = true)
    (hzip : zip.length = 5) (hdigits : ∀ c ∈ zip, isDigit c = true) :
    ParseAddress T
        (joinSpace (number :: (name ++ [type])) ++ ", ".toList ++ joinSpace cityWords ++
          ", ".toList ++ st ++ " ".toList ++ zip) =
      .ok { ID := makeID (joinSpace (number :: (name ++ [type])) ++ ", ".toList ++
              joinSpace cityWords ++ ", ".toList ++ st ++ " ".toList ++ zip)
            ZipCode := zip
            ZipCodePlusFour := []
            StateAbbreviation := st
            StateName := toTitleCase (getKeyByValue T.allStates st)
            PlaceName := joinSpace cityWords
            AddressLine1 := joinSpace (number :: (name ++ [type]))
            AddressLine2 := []
            StreetNumber := number
            FormattedAddress := joinSpace (number :: (name ++ [type])) ++ ", ".toList ++
              joinSpace cityWords ++ ", ".toList ++ st ++ " ".toList ++ zip
            StreetDirection := []
            StreetName := joinSpace (name ++ [type])
            StreetSuffix := [] } := by
  -- the street line
  have hwne : name ++ [type] ≠ [] := by simp
  have hwords : ∀ w ∈ name ++ [type], isWord w = true := by
    intro w hw
    simp only [List.mem_append, List.mem_singleton] at hw
    rcases hw with hw | rfl
    · exact hname w hw
    · exact htype
  obtain ⟨sb, -, sc, -, -, strim⟩ := street_facts hnum hwne hwords
  have hsw : ∀ w ∈ number :: (name ++ [type]), isToken w = true := by
    intro w hw
    simp only [List.mem_cons] at hw
    rcases hw with rfl | hw
    · exact isWord_isToken (isNumber_isWord hnum)
    · exact isWord_isToken (hwords w hw)
  generalize hS : joinSpace (number :: (name ++ [type])) = street at *
  -- the city
  have hcne : ∀ w ∈ cityWords, w ≠ [] := fun w hw => (isToken_iff.1 (hcity w hw)).1
  have hcity_ne : joinSpace cityWords ≠ [] := joinSpace_ne_nil hcne hcw
  have hcb : '\\' ∉ joinSpace cityWords := isPlain_no_backslash hplain
  have hcc : ',' ∉ joinSpace cityWords := by
    intro hc
    rcases mem_joinSpace hc with h | ⟨w, hw, hcw⟩
    · revert h; decide
    · exact ((isToken_iff.1 (hcity w hw)).2 _ hcw).2 rfl
  have hctrim : trimSpace (joinSpace cityWords) = joinSpace cityWords := by
    apply trimSpace_eq_self
    · intro c hc
      obtain ⟨w, hw, hcw⟩ := head?_joinSpace hcne hc
      exact ((isToken_iff.1 (hcity w hw)).2 c hcw).1
    · intro c hc
      obtain ⟨w, hw, hcw⟩ := getLast?_joinSpace hcne hc
      exact ((isToken_iff.1 (hcity w hw)).2 c hcw).1
  have hcoll : ∀ b rest, collapseAux b (joinSpace cityWords ++ rest) =
      joinSpace cityWords ++ collapseAux false rest :=
    fun b rest => collapseAux_joinSpace hcw hcity b rest
  generalize joinSpace cityWords = city at *
  -- the state and the ZIP code
  obtain ⟨a, b, rfl⟩ : ∃ a b, st = [a, b] := by
    match st, hst with
    | [a, b], _ => exact ⟨a, b, rfl⟩
  have ha := hupper a (by simp)
  have hb := hupper b (by simp)
  have hab : isSpace a = false ∧ isSpace b = false ∧ a ≠ ' ' ∧ b ≠ ' ' ∧ a ≠ ',' ∧ b ≠ ',' ∧
      a ≠ '\\' ∧ b ≠ '\\' := by
    simp only [isUpperLetter, Bool.and_eq_true, decide_eq_true_eq] at ha hb
    refine ⟨?_, ?_, ?_, ?_, ?_, ?_, ?_, ?_⟩
    · rw [Bool.eq_false_iff, ne_eq, isSpace_iff]; omega
    · rw [Bool.eq_false_iff, ne_eq, isSpace_iff]; omega
    all_goals
      rw [ne_eq, char_eq_iff]
      first
        | (rw [show (' ' : Char).toNat = 32 from rfl]; omega)
        | (rw [show (',' : Char).toNat = 44 from rfl]; omega)
        | (rw [show ('\\' : Char).toNat = 92 from rfl]; omega)
  obtain ⟨hsa, hsb, ha1, hb1, ha2, hb2, ha3, hb3⟩ := hab
  have hzd : ∀ c ∈ zip, c ≠ ' ' ∧ c ≠ ',' ∧ c ≠ '\\' ∧ isSpace c = false := by
    intro c hc
    have := isDigit_isAlnum (hdigits c hc)
    exact ⟨(isAlnum_ne this).1, (isAlnum_ne this).2.1, (isAlnum_ne this).2.2.1,
      isAlnum_not_space this⟩
  have hzne : zip ≠ [] := by
    intro h
    rw [h] at hzip
    cases hzip
  -- the normaliser leaves the input alone
  have hnorm : collapseSpaces
      (street ++ ", ".toList ++ city ++ ", ".toList ++ [a, b] ++ " ".toList ++ zip) =
      street ++ ", ".toList ++ city ++ ", ".toList ++ [a, b] ++ " ".toList ++ zip := by
    unfold collapseSpaces
    have e : street ++ ", ".toList ++ city ++ ", ".toList ++ [a, b] ++ " ".toList ++ zip =
        street ++ (',' :: ' ' :: (city ++ (',' :: ' ' :: ([a, b] ++ (' ' :: (zip ++ [])))))) := by
      simp
    rw [e, ← hS, collapseAux_joinSpace (by simp) hsw,
      collapseAux_cons_ne (by decide), collapseAux_space, hcoll,
      collapseAux_cons_ne (by decide), collapseAux_space,
      collapseAux_token (by simp) (by simp [Ne.symm ha1, Ne.symm hb1]), collapseAux_space,
      collapseAux_token hzne (fun h => (hzd _ h).1 rfl)]
    rfl
  -- the segments
  have hsplit : splitAddress
      (street ++ ", ".toList ++ city ++ ", ".toList ++ [a, b] ++ " ".toList ++ zip) =
      [street] ++ [' ' :: city, ' ' :: a :: b :: ' ' :: zip] := by
    have e : street ++ ", ".toList ++ city ++ ", ".toList ++ [a, b] ++ " ".toList ++ zip =
        street ++ ',' :: ((' ' :: city) ++ ',' :: (' ' :: a :: b :: ' ' :: zip)) := by
      simp
    rw [e, splitAddress_append sc sb,
      splitAddress_append (by simp [hcc]) (by simp [hcb]), splitAddress_single]
    · rfl
    · simp only [List.mem_cons, not_or]
      exact ⟨by decide, Ne.symm ha2, Ne.symm hb2, by decide, fun h => (hzd _ h).2.1 rfl⟩
    · simp only [List.mem_cons, not_or]
      exact ⟨by decide, Ne.symm ha3, Ne.symm hb3, by decide, fun h => (hzd _ h).2.2.1 rfl⟩
  -- the trailing segment
  have htail : trimSpace (' ' :: a :: b :: ' ' :: zip) = a :: b :: ' ' :: zip := by
    rw [trimSpace_space_cons]
    apply trimSpace_eq_self
    · intro c hc
      simp only [List.head?_cons, Option.some.injEq] at hc
      exact hc ▸ hsa
    · intro c hc
      have : c ∈ zip := by
        have hm := List.mem_of_getLast?_eq_some hc
        rw [show a :: b :: ' ' :: zip = [a, b, ' '] ++ zip by rfl,
          List.getLast?_append_of_ne_nil _ hzne] at hc
        exact List.mem_of_getLast?_eq_some hc
      exact (hzd c this).2.2.2
  have hzipStage : zipStage (trimSpace (' ' :: a :: b :: ' ' :: zip)) = (zip, [], [a, b]) := by
    rw [htail, show a :: b :: ' ' :: zip = [a, b, ' '] ++ zip by rfl,
      zipStage_five hzip hdigits]
    congr 2
    exact trimSpace_append_space (s := [a, b]) (by simp [hsa]) (by simp [hsb])
  have hstate : resolveState T.allStates [a, b] =
      ([a, b], toTitleCase (getKeyByValue T.allStates [a, b]), []) := by
    have hu := toUpper_of_upper hupper
    have := @resolveState_exact T.allStates [a, b] rfl
      (by rw [hu]; exact hmem) hnames
    rw [hu] at this
    exact this
  have hcityStage : resolveCity T [a, b] (trimSpace (' ' :: city)) = (city, []) := by
    rw [trimSpace_space_cons, hctrim]
    unfold resolveCity
    rw [hlist, scanCities_found hpre]
    simp only [bne_iff_ne, ne_eq, List.length_eq_zero, hcity_ne, not_false_eq_true, if_true,
      htitle]
  -- the pipeline
  have hac := afterCity_resolved T hsplit
    (isCountry_false_of_length (by rw [htail]; simp [hzip])) hzipStage (by simp) hstate rfl
    hcityStage
  rw [← hnorm] at hac
  rw [ParseAddress_eq_finish hac, hnorm]
  unfold finish splitLines
  simp only [List.length_cons, List.length_nil, Outcome.bind]
  rw [if_neg (by omega)]
  simp only [Outcome.bind]
  subst hS
  rw [parseStreet_plain T _ _ _ strim hnum hwne hwords]
  simp only [Outcome.bind]
  congr 1
  unfold compose
  have hjs := @joinSpace_ne_nil (number :: (name ++ [type]))
    (fun w hw => (isToken_iff.1 (hsw w hw)).1) (by simp)
  rw [if_pos]
  · simp [idString, addressString]
  · simp only [addressString, List.length_nil, gt_iff_lt, Nat.lt_irrefl, if_false,
      Bool.and_eq_true, decide_eq_true_eq]
    exact ⟨⟨⟨List.length_pos.2 hjs, List.length_pos.2 hcity_ne⟩, by simp⟩,
      List.length_pos.2 hzne⟩

/-- C1, on the address of `TestParseAddress`: the record is the one the test expects. -/
theorem well_formed_address_witness :
    ParseAddress sampleTables testAddress = .ok testRecord :=
  well_formed_address sampleTables "705".toList ["Monterey".toList, "Pass".toList]
    "Rd".toList ["Monterey".toList, "Park".toList] "CA".toList "91754".toList
    ["Los Angeles".toList, "Monterey".toList] [] (by decide) (by decide) (by decide)
    (by decide) (by decide) (by decide) (by decide) (by decide!) (by decide!) (by decide!)
    (by decide) (by decide) (by decide) (by decide) (by decide) (by decide) (by decide)
    (by decide) (by decide)

/-! ## Run-time panics -/

/-- C3: `ParseAddress` is not total.  An input that is only a country token, or only a
ZIP code, empties the segment list before the next segment is read, and an input that is
only a state and a ZIP code empties it before the city is read: the call stops with an
index out of range in place of returning a record or an error. -/
theorem ParseAddress_panics :
    (∀ T : Tables, ParseAddress T "USA".toList = .panic) ∧
    (∀ T : Tables, ParseAddress T "12345".toList = .panic) ∧
    ParseAddress sampleTables "CA 91754".toList = .panic := by
  refine ⟨fun T => rfl, fun T => rfl, ?_⟩
  decide

/-! ## Parsing a formatted address again -/

/-- C2: parsing the `FormattedAddress` of a returned record does not always succeed.  On
this input the street parser removes a match from the middle of the street line and
joins what is left, a backslash and the letter t, into `AddressLine2`; the resulting
`FormattedAddress` then holds the two characters on which the split pattern
`,|\\t|\\n` cuts, and the second call fails with "More than two address lines". -/
theorem reparse_fails :
    ParseAddress sampleTables "\\.*\\bave .*\\bX\\bt, Monterey Park, CA 91754".toList =
      .ok { ID := "-%2A%5Cbave--%2A%5CBx%5Cb%2C-%5Ct%2C-Monterey-Park%2C-CA-91754".toList
            ZipCode := "91754".toList
            StateAbbreviation := "CA".toList
            StateName := "California".toList
            PlaceName := "Monterey Park".toList
            AddressLine1 := ".*\\bave .*\\Bx\\b".toList
            AddressLine2 := "\\t".toList
            StreetNumber := ".*\\bave".toList
            FormattedAddress := ".*\\bave .*\\Bx\\b, \\t, Monterey Park, CA 91754".toList
            StreetName := ".*\\Bx\\b".toList } ∧
    ParseAddress sampleTables ".*\\bave .*\\Bx\\b, \\t, Monterey Park, CA 91754".toList =
      .error .moreThanTwoLines := by
  constructor <;> decide!

/-! ## The PO Box grammar, the swap of the line splitter, the city resolver and the
Canadian postal code on the scenarios of the specification -/

/-- C11: on `PO Box 123, Austin, TX 78701` the ZIP code, the state and the city resolve and
the street line `PO Box 123` is the one segment left, but the pattern `rePO`, whose doubled
backslashes ask for literal backslashes, does not match it, no other grammar does, and
`ParseAddress` returns the error "Invalid street address data". -/
theorem po_box_rejected :
    remainingSegments sampleTables "PO Box 123, Austin, TX 78701".toList =
      some ["PO Box 123".toList] ∧
    findMatch poAt "PO Box 123".toList = none ∧
    ParseAddress sampleTables "PO Box 123, Austin, TX 78701".toList =
      .error (.invalidStreet "PO Box 123, Austin, TX 78701".toList) := by
  refine ⟨?_, ?_, ?_⟩ <;> decide!

/-- C16: on `Apt 4B, 100 Main St, Springfield, IL 62701` two segments are left in front of
the line splitter, the first begins with the keyword APT, but the pattern of line 305, whose
doubled backslash asks for a literal backslash and the letter b after the keyword, does not
match it: the segments are not swapped and `ParseAddress` returns the error "Invalid street
address data", whereas the input with the two segments in street-first order gives
`AddressLine1 = 100 Main St` and `AddressLine2 = Apt 4B`. -/
theorem unit_first_rejected :
    remainingSegments sampleTables "Apt 4B, 100 Main St, Springfield, IL 62701".toList =
      some ["Apt 4B".toList, " 100 Main St".toList] ∧
    (stripPrefixFold "APT".toList "Apt 4B".toList).isSome = true ∧
    matchLine2First "Apt 4B".toList = false ∧
    ParseAddress sampleTables "Apt 4B, 100 Main St, Springfield, IL 62701".toList =
      .error (.invalidStreet "Apt 4B, 100 Main St, Springfield, IL 62701".toList) ∧
    ParseAddress sampleTables "100 Main St, Apt 4B, Springfield, IL 62701".toList =
      .ok { ID := "100-Main-St%2C-Apt-4B%2C-Springfield%2C-IL-62701".toList
            ZipCode := "62701".toList
            StateAbbreviation := "IL".toList
            StateName := "Illinois".toList
            PlaceName := "Springfield".toList
            AddressLine1 := "100 Main St".toList
            AddressLine2 := "Apt 4B".toList
            StreetNumber := "100".toList
            FormattedAddress := "100 Main St, Apt 4B, Springfield, IL 62701".toList
            StreetName := "Main St".toList } := by
  refine ⟨?_, ?_, ?_, ?_, ?_⟩ <;> decide!

/-- C17: on `100 Main St Springfield, IL 62701` the city resolver finds `Springfield` at the
end of the segment `100 Main St Springfield` and line 287 then empties `placeString`, so
that the text in front of the city is dropped with the city: no segment is left and
`ParseAddress` returns the error "Invalid street address data". -/
theorem city_segment_dropped :
    resolveCity sampleTables "IL".toList "100 Main St Springfield".toList =
      ("Springfield".toList, []) ∧
    remainingSegments sampleTables "100 Main St Springfield, IL 62701".toList = some [] ∧
    ParseAddress sampleTables "100 Main St Springfield, IL 62701".toList =
      .error (.invalidStreet "100 Main St Springfield, IL 62701".toList) := by
  refine ⟨?_, ?_, ?_⟩ <;> decide!

/-- C18: on the trailing segment `K1A 0B1 IL` the unanchored Canadian pattern records the
ZIP code `K1A 0B1`, which is not a suffix of the segment, and line 227 removes the last
seven characters, so that the state resolver is handed `K1A` and `ParseAddress` returns the
error "State not found"; with the postal code at the end the same address is parsed. -/
theorem canadian_not_anchored :
    zipStage "K1A 0B1 IL".toList = ("K1A 0B1".toList, [], "K1A".toList) ∧
    ¬ ("K1A 0B1".toList <:+ "K1A 0B1 IL".toList) ∧
    stateText "100 Main St, Springfield, K1A 0B1 IL".toList = some "K1A".toList ∧
    ParseAddress sampleTables "100 Main St, Springfield, K1A 0B1 IL".toList =
      .error .stateNotFound ∧
    ParseAddress sampleTables "100 Main St, Springfield, IL K1A 0B1".toList =
      .ok { ID := "100-Main-St%2C-Springfield%2C-IL-K1A-0B1".toList
            ZipCode := "K1A 0B1".toList
            StateAbbreviation := "IL".toList
            StateName := "Illinois".toList
            PlaceName := "Springfield".toList
            AddressLine1 := "100 Main St".toList
            StreetNumber := "100".toList
            FormattedAddress := "100 Main St, Springfield, IL K1A 0B1".toList
            StreetName := "Main St".toList } := by
  refine ⟨?_, ?_, ?_, ?_, ?_⟩ <;> decide!

/-! ## The number of segments -/

theorem sliceInit_length {parts p : List Str} (h : sliceInit parts = .ok p) :
    parts.length = p.length + 1 := by
  unfold sliceInit at h
  split at h
  · cases h
  · rename_i hne
    injection h with h
    subst h
    cases parts with
    | nil => simp at hne
    | cons a t => simp

theorem setLast_length {parts p : List Str} {v : Str} (h : setLast parts v = .ok p) :
    parts.length = p.length := by
  unfold setLast at h
  split at h
  · cases h
  · rename_i hne
    injection h with h
    subst h
    cases parts with
    | nil => simp at hne
    | cons a t => simp

theorem countryStage_length {address : Str} {parts : List Str}
    (h : countryStage address = .ok parts) :
    (splitAddress address).length ≤ parts.length + 1 := by
  unfold countryStage at h
  obtain ⟨part, -, h2⟩ := Outcome.bind_eq_ok.1 h
  split at h2
  · rw [sliceInit_length h2]
  · injection h2 with h2
    subst h2
    omega

theorem stateSegment_length {parts : List Str} {s : Str} {ps : List Str × Str}
    (h : stateSegment parts s = .ok ps) : parts.length ≤ ps.1.length + 1 := by
  unfold stateSegment at h
  split at h
  · obtain ⟨p, h1, h2⟩ := Outcome.bind_eq_ok.1 h
    injection h2 with h2
    subst h2
    rw [setLast_length h1]
    simp
  · obtain ⟨p, h1, h2⟩ := Outcome.bind_eq_ok.1 h
    obtain ⟨q, -, h3⟩ := Outcome.bind_eq_ok.1 h2
    injection h3 with h3
    subst h3
    rw [sliceInit_length h1]

theorem zipped_length {address : Str} {z : Address × List Str × Str}
    (h : zipped address = .ok z) : (splitAddress address).length ≤ z.2.1.length + 2 := by
  obtain ⟨ts, h1, h2, -⟩ := zipped_ok h
  unfold trailingStage at h1
  obtain ⟨parts, h3, h4⟩ := Outcome.bind_eq_ok.1 h1
  obtain ⟨part, -, h5⟩ := Outcome.bind_eq_ok.1 h4
  injection h5 with h5
  subst h5
  have := countryStage_length h3
  have := stateSegment_length h2
  simp only at this
  omega

theorem cityStage_length {T : Tables} {r : Address} {parts : List Str} {s : Str}
    {rp : Address × List Str} (h : cityStage T r parts s = .ok rp) :
    parts.length ≤ rp.2.length + 2 := by
  unfold cityStage at h
  obtain ⟨ps, h1, h2⟩ := Outcome.bind_eq_ok.1 h
  obtain ⟨q, h3, h4⟩ := Outcome.bind_eq_ok.1 h2
  injection h4 with h4
  subst h4
  have h5 : parts.length ≤ ps.1.length + 1 := stateSegment_length h1
  have h6 : ps.1.length ≤ q.length + 1 := by
    split at h3
    · rw [setLast_length h3]
      omega
    · rw [sliceInit_length h3]
  simp only
  omega

theorem placed_length {T : Tables} {x y : Address × List Str × Str} (h : placed T x = .ok y) :
    x.2.1.length ≤ y.2.1.length + 2 := by
  unfold placed at h
  split at h
  · cases h
  · obtain ⟨rp, h1, h2⟩ := Outcome.bind_eq_ok.1 h
    injection h2 with h2
    subst h2
    exact cityStage_length h1

/-- The country, ZIP, state and city stages remove at most four segments. -/
theorem afterCity_length {T : Tables} {address : Str} {x : Address × List Str × Str}
    (h : afterCity T address = .ok x) : (splitAddress address).length ≤ x.2.1.length + 4 := by
  unfold afterCity at h
  obtain ⟨z, h1, h2⟩ := Outcome.bind_eq_ok.1 h
  have := zipped_length h1
  have := placed_length h2
  omega

/-- C20: the country, ZIP, state and city stages remove at most four segments together, so
that for every input whose normalised form splits into seven or more segments `ParseAddress`
never returns a record; the input `100 Main St, Apt 4, Springfield, IL, 62701, USA` splits
into six segments and is parsed. -/
theorem segment_bound (T : Tables) (input : Str)
    (h : 7 ≤ (splitAddress (collapseSpaces input)).length) :
    (∀ x, afterCity T (collapseSpaces input) = .ok x →
      (splitAddress (collapseSpaces input)).length ≤ x.2.1.length + 4) ∧
    (∀ r, ParseAddress T input ≠ .ok r) ∧
    (splitAddress (collapseSpaces "100 Main St, Apt 4, Springfield, IL, 62701, USA".toList)).length
      = 6 ∧
    ParseAddress sampleTables "100 Main St, Apt 4, Springfield, IL, 62701, USA".toList =
      .ok { ID := "100-Main-St%2C-Apt-4%2C-Springfield%2C-IL-62701".toList
            ZipCode := "62701".toList
            StateAbbreviation := "IL".toList
            StateName := "Illinois".toList
            PlaceName := "Springfield".toList
            AddressLine1 := "100 Main St".toList
            AddressLine2 := "Apt 4".toList
            StreetNumber := "100".toList
            FormattedAddress := "100 Main St, Apt 4, Springfield, IL 62701".toList
            StreetName := "Main St".toList } := by
  refine ⟨fun x hx => afterCity_length hx, ?_, by decide!, by decide!⟩
  intro r hr
  obtain ⟨x, r', hx, -, -, -, hlen, -⟩ := ParseAddress_ok hr
  have := afterCity_length hx
  omega

/-- C20, on an input of eight segments. -/
theorem segment_bound_witness :
    (∀ x, afterCity sampleTables
        (collapseSpaces "1, 2, 100 Main St, Apt 4, Springfield, IL, 62701, USA".toList) = .ok x →
      (splitAddress
        (collapseSpaces "1, 2, 100 Main St, Apt 4, Springfield, IL, 62701, USA".toList)).length
        ≤ x.2.1.length + 4) ∧
    (∀ r, ParseAddress sampleTables
      "1, 2, 100 Main St, Apt 4, Springfield, IL, 62701, USA".toList ≠ .ok r) ∧
    (splitAddress (collapseSpaces "100 Main St, Apt 4, Springfield, IL, 62701, USA".toList)).length
      = 6 ∧
    ParseAddress sampleTables "100 Main St, Apt 4, Springfield, IL, 62701, USA".toList =
      .ok { ID := "100-Main-St%2C-Apt-4%2C-Springfield%2C-IL-62701".toList
            ZipCode := "62701".toList
            StateAbbreviation := "IL".toList
            StateName := "Illinois".toList
            PlaceName := "Springfield".toList
            AddressLine1 := "100 Main St".toList
            AddressLine2 := "Apt 4".toList
            StreetNumber := "100".toList
            FormattedAddress := "100 Main St, Apt 4, Springfield, IL 62701".toList
            StreetName := "Main St".toList } :=
  segment_bound sampleTables "1, 2, 100 Main St, Apt 4, Springfield, IL, 62701, USA".toList
    (by decide!)

/-! ## The country segment -/

theorem collapseAux_comma (b : Bool) (s t : Str) :
    collapseAux b (s ++ ',' :: t) = collapseAux b s ++ ',' :: collapseAux false t := by
  induction s generalizing b with
  | nil => simp [collapseAux]
  | cons c s ih =>
    rw [List.cons_append]
    by_cases hc : c = ' '
    · subst hc
      cases b with
      | true => simpa [collapseAux] using ih true
      | false => simp [collapseAux, ih true]
    · rw [collapseAux_cons_ne hc, collapseAux_cons_ne hc, ih false]
      rfl

theorem splitAddress_ne_nil (s : Str) : splitAddress s ≠ [] := by
  induction s using splitAddress.induct with
  | case1 => simp [splitAddress]
  | case2 rest _ => simp [splitAddress]
  | case3 rest _ => simp [splitAddress]
  | case4 rest _ => simp [splitAddress]
  | case5 c rest h1 h2 h3 seg segs hsp _ =>
    rw [splitAddress.eq_5 c rest h1 h2 h3, hsp]
    simp
  | case6 c rest h1 h2 h3 hsp _ =>
    rw [splitAddress.eq_5 c rest h1 h2 h3, hsp]
    simp

/-- A comma cuts the text whatever stands in front of it. -/
theorem splitAddress_comma (s t : Str) :
    splitAddress (s ++ ',' :: t) = splitAddress s ++ splitAddress t := by
  induction s using splitAddress.induct with
  | case1 => simp [splitAddress]
  | case2 rest ih => simp [splitAddress, ih]
  | case3 rest ih => simp [splitAddress, ih]
  | case4 rest ih => simp [splitAddress, ih]
  | case6 c rest h1 h2 h3 hsp _ => exact absurd hsp (splitAddress_ne_nil rest)
  | case5 c rest h1 h2 h3 seg segs hsp ih =>
    have h5 : splitAddress (c :: (rest ++ ',' :: t)) =
        match splitAddress (rest ++ ',' :: t) with
        | seg :: segs => (c :: seg) :: segs
        | [] => [[c]] := by
      apply splitAddress.eq_5 c (rest ++ ',' :: t) h1
      · intro r hc hr
        cases rest with
        | nil => simp at hr
        | cons d rest =>
          simp only [List.cons_append, List.cons.injEq] at hr
          exact h2 rest hc (by rw [hr.1])
      · intro r hc hr
        cases rest with
        | nil => simp at hr
        | cons d rest =>
          simp only [List.cons_append, List.cons.injEq] at hr
          exact h3 rest hc (by rw [hr.1])
    rw [List.cons_append, h5, ih, splitAddress.eq_5 c rest h1 h2 h3, hsp]
    rfl

theorem isCountry_iff {c : Str} :
    isCountry c = true ↔
      c = "US".toList ∨ c = "USA".toList ∨ c = "United States".toList ∨ c = "Canada".toList := by
  simp [isCountry, or_assoc]

/-! ## The input text is used in the error values only -/

theorem aveLetterStreet_input {a a' : Str} {r r' : Address} {s l : Str}
    (h : aveLetterStreet a r s l = .ok r') : aveLetterStreet a' r s l = .ok r' := by
  unfold aveLetterStreet at h ⊢
  simp only at h ⊢
  split at h
  · cases h
  · rename_i hc
    rw [if_neg hc]
    exact h

theorem standardStreet_input {T : Tables} {a a' : Str} {r r' : Address} {s : Str}
    (h : standardStreet T a r s = .ok r') : standardStreet T a' r s = .ok r' := by
  unfold standardStreet at h ⊢
  split at h
  · rename_i hz
    rw [if_pos hz]
    split at h
    · cases h
    · rename_i hc
      rw [if_neg hc]
      exact h
  · cases h

theorem streetGrammars_input {T : Tables} {a a' : Str} {r r' : Address} {s : Str}
    (h : streetGrammars T a r s = .ok r') : streetGrammars T a' r s = .ok r' := by
  unfold streetGrammars at h ⊢
  split at h
  · exact aveLetterStreet_input h
  · split at h
    · rename_i hm
      rw [if_pos hm]
      exact standardStreet_input h
    · rename_i hm
      rw [if_neg hm]
      split at h
      · exact h
      · split at h
        · rename_i hn
          rw [if_pos hn]
          exact h
        · cases h

theorem parseStreet_input {T : Tables} {a a' st : Str} {r r' : Address} {parts : List Str}
    (h : parseStreet T a st r parts = .ok r') : parseStreet T a' st r parts = .ok r' := by
  unfold parseStreet at h ⊢
  split at h
  · simp only at h ⊢
    split at h
    · split at h
      · cases h
      · exact streetGrammars_input h
    · exact streetGrammars_input h
  · cases h

theorem finish_input {T : Tables} {a a' : Str} {x : Address × List Str × Str} {r : Address}
    (h : finish T a x = .ok r) : finish T a' x = .ok r := by
  unfold finish at h ⊢
  obtain ⟨rl, h1, h2⟩ := Outcome.bind_eq_ok.1 h
  obtain ⟨r', h3, h4⟩ := Outcome.bind_eq_ok.1 h2
  rw [h1]
  simp only [Outcome.bind]
  rw [parseStreet_input h3]
  exact h4

theorem country_suffix {c : Str} (hc : isCountry c = true) :
    collapseAux false (' ' :: c) = ' ' :: c ∧ splitAddress (' ' :: c) = [' ' :: c] ∧
      trimSpace (' ' :: c) = c := by
  rcases isCountry_iff.1 hc with rfl | rfl | rfl | rfl <;> decide!

theorem getLast?_splitAddress (s : Str) : ∃ seg, (splitAddress s).getLast? = some seg := by
  cases h : (splitAddress s).getLast? with
  | none => exact absurd (List.getLast?_eq_none_iff.1 h) (splitAddress_ne_nil s)
  | some seg => exact ⟨seg, rfl⟩

/-- The segments in front of the ZIP extractor when the last segment is not a country. -/
theorem countryStage_keep {a : Str}
    (hlast : ∀ seg, (splitAddress a).getLast? = some seg → isCountry (trimSpace seg) = false) :
    countryStage a = .ok (splitAddress a) := by
  obtain ⟨seg, hseg⟩ := getLast?_splitAddress a
  unfold countryStage lastPart
  rw [hseg]
  simp only [Outcome.ofOption, Outcome.bind, hlast seg hseg, Bool.false_eq_true, if_false]

/-- The segments in front of the ZIP extractor when a country has been appended. -/
theorem countryStage_drop (a : Str) {c : Str} (hc : isCountry c = true) :
    countryStage (a ++ ',' :: ' ' :: c) = .ok (splitAddress a) := by
  obtain ⟨-, h2, h3⟩ := country_suffix hc
  have hne : (splitAddress a ++ [' ' :: c]).isEmpty = false := by simp
  unfold countryStage lastPart sliceInit
  rw [splitAddress_comma, h2, List.getLast?_concat, hne]
  simp only [Outcome.ofOption, Outcome.bind, h3, hc, if_true, Bool.false_eq_true, if_false,
    List.dropLast_concat]

theorem parseNormalised_country (T : Tables) {a c : Str} (hc : isCountry c = true)
    (hlast : ∀ seg, (splitAddress a).getLast? = some seg → isCountry (trimSpace seg) = false)
    (r : Address) :
    parseNormalised T (a ++ ',' :: ' ' :: c) = .ok r ↔ parseNormalised T a = .ok r := by
  have hz : zipped (a ++ ',' :: ' ' :: c) = zipped a := by
    unfold zipped trailingStage
    rw [countryStage_drop a hc, countryStage_keep hlast]
  unfold parseNormalised afterCity
  rw [hz]
  constructor
  · intro h
    obtain ⟨x, h1, h2⟩ := Outcome.bind_eq_ok.1 h
    rw [h1]
    exact finish_input h2
  · intro h
    obtain ⟨x, h1, h2⟩ := Outcome.bind_eq_ok.1 h
    rw [h1]
    exact finish_input h2

/-- With one order of the state table, appending a country changes nothing: the two calls
run on the same segments. -/
theorem ParseAddress_country (T : Tables) {s c : Str} (hc : isCountry c = true)
    (hlast : ∀ seg, (splitAddress (collapseSpaces s)).getLast? = some seg →
      isCountry (trimSpace seg) = false) (r : Address) :
    ParseAddress T (s ++ ", ".toList ++ c) = .ok r ↔ ParseAddress T s = .ok r := by
  have hcol : collapseSpaces (s ++ ", ".toList ++ c) = collapseSpaces s ++ ',' :: ' ' :: c := by
    unfold collapseSpaces
    rw [show s ++ ", ".toList ++ c = s ++ ',' :: (' ' :: c) by simp, collapseAux_comma,
      (country_suffix hc).1]
  have hne : (s ++ ", ".toList ++ c).length ≠ 0 := by simp
  unfold ParseAddress
  simp only [beq_iff_eq, hne, if_false, hcol]
  rw [parseNormalised_country T hc hlast]
  split
  · rename_i h0
    have hs : s = [] := List.length_eq_zero.1 h0
    subst hs
    constructor
    · intro h
      unfold parseNormalised afterCity at h
      rw [zipped_nil] at h
      cases h
    · intro h
      cases h
  · rfl

theorem countryStage_country {s c : Str} (hc : isCountry c = true) :
    countryStage (collapseSpaces (s ++ ", ".toList ++ c)) =
      .ok (splitAddress (collapseSpaces s)) := by
  have hcol : collapseSpaces (s ++ ", ".toList ++ c) = collapseSpaces s ++ ',' :: ' ' :: c := by
    unfold collapseSpaces
    rw [show s ++ ", ".toList ++ c = s ++ ',' :: (' ' :: c) by simp, collapseAux_comma,
      (country_suffix hc).1]
  rw [hcol]
  exact countryStage_drop _ hc

/-! ## The second address line -/

theorem aveAt_none_of_backslash {t : Str} (h : '\\' ∉ t) : aveAt t = none := by
  unfold aveAt
  rw [stripPrefixFold_none (p := '\\') (by simp) (by decide) h]
  rfl

theorem findAve_none_of_backslash {s : Str} (h : '\\' ∉ s) : findMatch aveAt s = none :=
  findMatch_none fun _ ht => aveAt_none_of_backslash (not_mem_of_suffix h ht)

theorem streetAt_false_of_backslash (keys : List Str) {t : Str} (h : '\\' ∉ t) :
    streetAt keys t = false := by
  unfold streetAt
  rw [List.any_eq_false]
  intro key _
  rw [stripPrefixFold_none (p := '\\') (by simp) (by decide) h]
  simp

theorem matchStreet_false_of_backslash (keys : List Str) {s : Str} (h : '\\' ∉ s) :
    matchStreet keys s = false := by
  induction s with
  | nil => simp [matchStreet, streetAt_false_of_backslash keys h]
  | cons c rest ih =>
    rw [matchStreet, streetAt_false_of_backslash keys h,
      ih (fun hc => h (List.mem_cons_of_mem _ hc))]
    rfl

/-- On a street line without a backslash only the fallback grammar can answer. -/
theorem streetGrammars_of_no_backslash (T : Tables) (address : Str) (r : Address) {s : Str}
    (h : '\\' ∉ s) :
    streetGrammars T address r s =
      if (findNoSuffix false s).isSome then noSuffixStreet r s
      else .error (.invalidStreet address) := by
  unfold streetGrammars
  rw [findAve_none_of_backslash h]
  simp only [matchStreet_false_of_backslash _ h, Bool.false_eq_true, if_false, findPO_none h]

/-- The fallback grammar on a street line without a backslash. -/
theorem noSuffixStreet_of_no_backslash (r : Address) {s line1 number : Str} {rest : List Str}
    (h : '\\' ∉ s) (hl : findNoSuffix false s = some line1)
    (hsp : splitSpace line1 = number :: rest) :
    noSuffixStreet r s =
      .ok { r with AddressLine1 := line1, StreetNumber := number, StreetName := joinSpace rest }
    := by
  unfold noSuffixStreet
  simp only [findLine2Tail_none h, hl, hsp]

theorem noSuffixStreet_line2 {r r' : Address} {s : Str} (h : '\\' ∉ s)
    (hok : noSuffixStreet r s = .ok r') : r'.AddressLine2 = r.AddressLine2 := by
  unfold noSuffixStreet at hok
  simp only [findLine2Tail_none h] at hok
  split at hok
  · cases hok
  · split at hok
    · cases hok
    · injection hok with hok
      subst hok
      rfl

theorem mem_of_mem_trimSpace {c : Char} {s : Str} (h : c ∈ trimSpace s) : c ∈ s := by
  unfold trimSpace at h
  exact (List.dropWhile_sublist _).subset ((List.rdropWhile_prefix _ _).subset h)

theorem parseStreet_of_no_backslash (T : Tables) (address stateString : Str) (r : Address)
    {part : Str} (h : '\\' ∉ part) :
    parseStreet T address stateString r [part] =
      if (findNoSuffix false (trimSpace part)).isSome then noSuffixStreet r (trimSpace part)
      else .error (.invalidStreet address) := by
  have h' : '\\' ∉ trimSpace part := fun hc => h (mem_of_mem_trimSpace hc)
  unfold parseStreet
  simp only [line2Front_none h', ite_self]
  exact streetGrammars_of_no_backslash T address r h'

theorem parseStreet_line2 {T : Tables} {address stateString : Str} {r r' : Address}
    {part : Str} (h : '\\' ∉ part)
    (hok : parseStreet T address stateString r [part] = .ok r') :
    r'.AddressLine2 = r.AddressLine2 := by
  have h' : '\\' ∉ trimSpace part := fun hc => h (mem_of_mem_trimSpace hc)
  rw [parseStreet_of_no_backslash T address stateString r h] at hok
  split at hok
  · exact noSuffixStreet_line2 h' hok
  · cases hok

theorem afterCity_line2 {T : Tables} {address : Str} {x : Address × List Str × Str}
    (h : afterCity T address = .ok x) : x.1.AddressLine2 = [] := by
  unfold afterCity at h
  obtain ⟨z, hz, hp⟩ := Outcome.bind_eq_ok.1 h
  obtain ⟨ts, -, -, hz1⟩ := zipped_ok hz
  obtain ⟨-, -, -, -, -, -, g, -⟩ := placed_ok hp
  rw [g, hz1]

theorem remainingSegments_eq {T : Tables} {input : Str} {parts : List Str}
    (h : remainingSegments T input = some parts) :
    ∃ x, afterCity T (collapseSpaces input) = .ok x ∧ x.2.1 = parts := by
  unfold remainingSegments at h
  split at h
  · rename_i x hx
    injection h with h
    exact ⟨x, hx, h⟩
  · cases h

/-- C13: for every record that `ParseAddress` returns on an ASCII input, with tables of
ASCII entries without metacharacter, one or two segments were left in front of the line
splitter; when the street segment holds no backslash, `AddressLine2` is
empty if one segment was left and is the second segment, trimmed, if two were left,
whatever that segment is: it is not compared with the secondary-unit table. -/
theorem second_line (T : Tables) (input : Str) (parts : List Str) (r : Address)
    (_hascii : isAscii input = true) (_hliteral : literalTables T = true)
    (hseg : remainingSegments T input = some parts) (hr : ParseAddress T input = .ok r) :
    (parts.length = 1 ∨ parts.length = 2) ∧
    (∀ s0, parts = [s0] → '\\' ∉ s0 → r.AddressLine2 = []) ∧
    (∀ s0 s1, parts = [s0, s1] → '\\' ∉ s0 → r.AddressLine2 = trimSpace s1) := by
  obtain ⟨x, hx, hparts⟩ := remainingSegments_eq hseg
  have hl2 := afterCity_line2 hx
  rw [ParseAddress_eq_finish hx] at hr
  unfold finish at hr
  obtain ⟨rl, h1, h2⟩ := Outcome.bind_eq_ok.1 hr
  obtain ⟨r', h3, h4⟩ := Outcome.bind_eq_ok.1 h2
  injection h4 with h4
  subst h4
  rw [hparts] at h1
  rw [(compose_fields r').2.1]
  refine ⟨?_, ?_, ?_⟩
  · have hlen := (@splitLines_ok x.1 rl.1 parts rl.2 h1).2
    match parts, h1, hlen with
    | [], h1, _ =>
      simp only [splitLines, List.length_nil, gt_iff_lt, Nat.not_lt_zero, if_false] at h1
      injection h1 with h1
      rw [← h1] at h3
      cases h3
    | [_], _, _ => exact Or.inl rfl
    | [_, _], _, _ => exact Or.inr rfl
    | _ :: _ :: _ :: _, _, hlen => simp at hlen
  · rintro s0 rfl hb
    simp only [splitLines, List.length_singleton, gt_iff_lt, Nat.not_lt_of_lt, if_false] at h1
    injection h1 with h1
    rw [← h1] at h3
    rw [parseStreet_line2 hb h3, hl2]
  · rintro s0 s1 rfl hb
    simp only [splitLines, List.length_cons, List.length_nil, matchLine2First_false hb] at h1
    simp only [gt_iff_lt, Nat.lt_irrefl, if_false, Bool.false_eq_true] at h1
    injection h1 with h1
    rw [← h1] at h3
    rw [parseStreet_line2 hb h3]

/-- C13, on the scenario of the claim: two segments are left and the unrecognised city is
the second address line. -/
theorem second_line_witness :
    (["100 Main St".toList, "Nowhereville".toList].length = 1 ∨
      ["100 Main St".toList, "Nowhereville".toList].length = 2) ∧
    (∀ s0, ["100 Main St".toList, "Nowhereville".toList] = [s0] → '\\' ∉ s0 →
      "Nowhereville".toList = []) ∧
    (∀ s0 s1, ["100 Main St".toList, "Nowhereville".toList] = [s0, s1] → '\\' ∉ s0 →
      "Nowhereville".toList = trimSpace s1) :=
  second_line sampleTables "100 Main St, Nowhereville, CA 91754".toList
    ["100 Main St".toList, "Nowhereville".toList]
    { ZipCode := "91754".toList
      StateAbbreviation := "CA".toList
      StateName := "California".toList
      AddressLine1 := "100 Main St".toList
      AddressLine2 := "Nowhereville".toList
      StreetNumber := "100".toList
      StreetName := "Main St".toList }
    (by decide) (by decide) (by decide!) (by decide!)

/-- C13 fails on `100 Main St, Nowhereville, CA 91754`: the record has `AddressLine2`
equal to `Nowhereville`, which begins with no keyword of the secondary-unit table. -/
theorem second_line_counterexample :
    ParseAddress sampleTables "100 Main St, Nowhereville, CA 91754".toList =
      .ok { ZipCode := "91754".toList
            StateAbbreviation := "CA".toList
            StateName := "California".toList
            AddressLine1 := "100 Main St".toList
            AddressLine2 := "Nowhereville".toList
            StreetNumber := "100".toList
            StreetName := "Main St".toList } ∧
    (usLine2Prefixes.map Prod.fst).all
      (fun key => (stripPrefixFold key "Nowhereville".toList).isNone) = true := by
  constructor <;> decide!

/-- The street fields are empty in front of the line splitter. -/
theorem afterCity_street_fields {T : Tables} {address : Str} {x : Address × List Str × Str}
    (h : afterCity T address = .ok x) :
    x.1.StreetNumber = [] ∧ x.1.StreetName = [] ∧ x.1.StreetSuffix = [] ∧
      x.1.StreetDirection = [] ∧ x.1.AddressLine1 = [] := by
  unfold afterCity at h
  obtain ⟨z, hz, hp⟩ := Outcome.bind_eq_ok.1 h
  obtain ⟨ts, -, -, hz1⟩ := zipped_ok hz
  unfold placed at hp
  split at hp
  · cases hp
  · obtain ⟨rp, h1, h2⟩ := Outcome.bind_eq_ok.1 hp
    injection h2 with h2
    subst h2
    unfold cityStage at h1
    obtain ⟨ps, -, h3⟩ := Outcome.bind_eq_ok.1 h1
    obtain ⟨q, -, h4⟩ := Outcome.bind_eq_ok.1 h3
    injection h4 with h4
    subst h4
    simp [hz1]

/-- C15: on `100 Main Rd N, Monterey Park, CA 91754` the street line ends with the type
`Rd`, a key of the street-type table with the suffix `Road`, and the direction `N`, but the
pattern `reStreet`, whose doubled backslashes ask for the literal text `.*\b` in front of
the type, does not match it; the fallback grammar takes the line, and the record has
`StreetName` equal to `Main Rd N`, `AddressLine1` equal to the line as it is written, and
no suffix and no direction. -/
theorem street_suffix_missed :
    matchStreet (sampleTables.usStreetTypes.map Prod.fst) "100 Main Rd N".toList = false ∧
    lookup sampleTables.usStreetTypes (toLower "Rd".toList) [] = "Road".toList ∧
    "N".toList ∈ usStreetDirectional.map Prod.snd ∧
    ParseAddress sampleTables "100 Main Rd N, Monterey Park, CA 91754".toList =
      .ok { ID := "100-Main-Rd-N%2C-Monterey-Park%2C-CA-91754".toList
            ZipCode := "91754".toList
            StateAbbreviation := "CA".toList
            StateName := "California".toList
            PlaceName := "Monterey Park".toList
            AddressLine1 := "100 Main Rd N".toList
            StreetNumber := "100".toList
            FormattedAddress := "100 Main Rd N, Monterey Park, CA 91754".toList
            StreetDirection := []
            StreetName := "Main Rd N".toList
            StreetSuffix := [] } := by
  refine ⟨?_, ?_, ?_, ?_⟩ <;> decide!

/-! ## The street number and the street name of a record -/

/-- The branch of `reStreet` never returns a record: the first address line is five
digits, without a space, and the index `streetParts[1]` is out of range. -/
theorem standardStreet_ne_ok {T : Tables} {address : Str} {r r' : Address} {s : Str} :
    standardStreet T address r s ≠ .ok r' := by
  intro h
  unfold standardStreet at h
  split at h
  · rename_i hz
    have hd : ∀ c ∈ lastN 5 s, isDigit c = true := by
      simp only [matchZip5, Bool.and_eq_true, List.all_eq_true] at hz
      exact hz.2
    have hsp : splitSpace (lastN 5 s) = [lastN 5 s] :=
      splitSpace_single fun hc => by
        have := hd _ hc
        revert this
        decide
    split at h
    · cases h
    · simp only [hsp] at h
      split at h
      · cases h
      · rename_i number hn
        split at h
        · cases h
        · rename_i name1 hg
          by_cases hdir : matchDirectionEnd (lastN 5 s) = true
          · simp [hdir] at hn
          · simp [hdir] at hg
  · cases h

theorem splitSpace_ne_nil (s : Str) : splitSpace s ≠ [] := by
  cases s with
  | nil => simp [splitSpace]
  | cons c rest =>
    rw [splitSpace]
    split
    · simp
    · split <;> simp

theorem joinSpace_splitSpace (s : Str) : joinSpace (splitSpace s) = s := by
  induction s with
  | nil => rfl
  | cons c rest ih =>
    rw [splitSpace]
    split
    · rename_i hc
      have hc' : c = ' ' := by simpa using hc
      subst hc'
      cases hsp : splitSpace rest with
      | nil => exact absurd hsp (splitSpace_ne_nil rest)
      | cons seg segs =>
        rw [hsp] at ih
        rw [joinSpace_cons_cons, ih]
        rfl
    · cases hsp : splitSpace rest with
      | nil => exact absurd hsp (splitSpace_ne_nil rest)
      | cons seg segs =>
        rw [hsp] at ih
        simp only
        cases segs with
        | nil =>
          simp only [joinSpace] at ih ⊢
          rw [ih]
        | cons q segs =>
          rw [joinSpace_cons_cons] at ih ⊢
          rw [List.cons_append, ih]

/-- The first part of a split holds the characters in front of the first space. -/
theorem splitSpace_prefix {w : Str} (hw : ' ' ∉ w) (t : Str) :
    ∃ seg segs, splitSpace t = seg :: segs ∧ splitSpace (w ++ t) = (w ++ seg) :: segs := by
  induction w with
  | nil =>
    cases hsp : splitSpace t with
    | nil => exact absurd hsp (splitSpace_ne_nil t)
    | cons seg segs => exact ⟨seg, segs, rfl, by simpa using hsp⟩
  | cons c w ih =>
    simp only [List.mem_cons, not_or] at hw
    obtain ⟨seg, segs, h1, h2⟩ := ih hw.2
    refine ⟨seg, segs, h1, ?_⟩
    rw [List.cons_append, splitSpace]
    simp [Ne.symm hw.1, h2]

theorem nameRun_pos {s : Str} {n : Nat} (h : nameRun s = some n) : 0 < n ∧ n ≤ s.length := by
  induction s generalizing n with
  | nil => cases h
  | cons c rest ih =>
    rw [nameRun] at h
    split at h
    · cases hr : nameRun rest with
      | some k =>
        rw [hr] at h
        injection h with h
        have := ih hr
        simp only [List.length_cons]
        omega
      | none =>
        rw [hr] at h
        simp only at h
        split at h
        · injection h with h
          simp only [List.length_cons]
          omega
        · cases h
    · cases h

/-- The shape of a match of `reNoSuffix`: digits, one white-space character and a text. -/
theorem findNoSuffix_shape {prevWord : Bool} {s l : Str} (h : findNoSuffix prevWord s = some l) :
    ∃ D w R, l = D ++ w :: R ∧ D ≠ [] ∧ (∀ c ∈ D, isDigit c = true) ∧ isReSpace w = true ∧
      R ≠ [] := by
  induction s generalizing prevWord with
  | nil => simp [findNoSuffix] at h
  | cons c rest ih =>
    unfold findNoSuffix at h
    split at h
    · rename_i n hn
      injection h with h
      subst h
      split at hn
      · cases hn
      · unfold noSuffixAt at hn
        split at hn
        · cases hn
        · rename_i hD
          split at hn
          · rename_i w rest1 hdrop
            split at hn
            · rename_i hw
              simp only [Option.map_eq_some'] at hn
              obtain ⟨k, hk, hn⟩ := hn
              subst hn
              have hpos := nameRun_pos hk
              have hsplit : c :: rest = (c :: rest).takeWhile isDigit ++ w :: rest1 := by
                conv_lhs => rw [← List.takeWhile_append_dropWhile isDigit (c :: rest), hdrop]
              have hdig : ∀ d ∈ (c :: rest).takeWhile isDigit, isDigit d = true :=
                fun d hd => List.mem_takeWhile_imp hd
              generalize (c :: rest).takeWhile isDigit = D at hsplit hD hdig ⊢
              refine ⟨D, w, rest1.take k, ?_, ?_, hdig, hw, ?_⟩
              · rw [hsplit, Nat.add_assoc, List.take_append, Nat.add_comm 1 k,
                  List.take_succ_cons]
              · simpa using hD
              · cases rest1 with
                | nil => simp at hpos; omega
                | cons e rest1 =>
                  obtain ⟨j, rfl⟩ : ∃ j, k = j + 1 := ⟨k - 1, by omega⟩
                  simp
            · cases hn
          · cases hn
    · exact ih h

/-- The fallback grammar: the street number is not empty, and when it is a run of digits
the street name is not empty. -/
theorem noSuffixStreet_fields {r r' : Address} {s : Str} (h : noSuffixStreet r s = .ok r') :
    r'.StreetNumber ≠ [] ∧ (isNumber r'.StreetNumber = true → r'.StreetName ≠ []) := by
  unfold noSuffixStreet at h
  simp only at h
  split at h
  · cases h
  · rename_i line1 hl
    obtain ⟨D, w, R, rfl, hD, hdig, hw, hR⟩ := findNoSuffix_shape hl
    have hsD : ' ' ∉ D := fun hc => by
      have := hdig _ hc
      revert this
      decide
    split at h
    · cases h
    · rename_i number rest hsp
      injection h with h
      subst h
      simp only
      by_cases hws : w = ' '
      · subst hws
        rw [splitSpace_append hsD] at hsp
        injection hsp with h1 h2
        subst h1 h2
        refine ⟨hD, fun _ => ?_⟩
        rw [joinSpace_splitSpace]
        exact hR
      · obtain ⟨seg, segs, -, h2⟩ := splitSpace_prefix (w := D ++ [w])
          (by
            simp only [List.mem_append, List.mem_singleton, not_or]
            exact ⟨hsD, fun hc => hws hc.symm⟩) R
        rw [List.append_assoc, List.singleton_append, hsp] at h2
        injection h2 with h1 h2
        subst h1
        refine ⟨by simp, fun hnum => ?_⟩
        have hdw := (isNumber_iff.1 hnum).2 w (by simp)
        exfalso
        revert hw hdw
        simp only [isDigit, isReSpace, Bool.and_eq_true, decide_eq_true_eq, Bool.or_eq_true,
          beq_iff_eq]
        omega

theorem findMatch_aveAt_head {s l : Str} (h : findMatch aveAt s = some l) :
    l = [] ∨ ∃ t, l = '.' :: t := by
  induction s with
  | nil =>
    simp only [findMatch, Option.map_eq_some'] at h
    obtain ⟨n, -, hn⟩ := h
    exact Or.inl (by simpa using hn.symm)
  | cons c rest ih =>
    unfold findMatch at h
    split at h
    · rename_i n hn
      injection h with h
      subst h
      cases n with
      | zero => exact Or.inl rfl
      | succ n =>
        refine Or.inr ⟨rest.take n, ?_⟩
        unfold aveAt at hn
        simp only [Option.map_eq_some', Option.bind_eq_some] at hn
        obtain ⟨-, ⟨r1, hr1, -⟩, -⟩ := hn
        simp only [stripPrefixFold] at hr1
        split at hr1
        · rename_i hc
          have := eq_of_toLower_eq (p := '.') (by decide) (by simpa using hc)
          rw [this]
          rfl
        · cases hr1
    · exact ih h

/-- The branch of `reAveLetter`: the street number begins with the dot of the pattern. -/
theorem aveLetterStreet_fields {address : Str} {r r' : Address} {s l : Str}
    (hl : findMatch aveAt s = some l) (h : aveLetterStreet address r s l = .ok r') :
    r'.StreetNumber ≠ [] ∧ isNumber r'.StreetNumber = false := by
  unfold aveLetterStreet at h
  simp only at h
  split at h
  · cases h
  · split at h
    · cases h
    · rename_i number hn
      split at h
      · cases h
      · rename_i hlen
        injection h with h
        subst h
        simp only
        rcases findMatch_aveAt_head hl with rfl | ⟨t, rfl⟩
        · simp [splitSpace] at hlen
        · obtain ⟨seg, segs, -, h2⟩ := splitSpace_prefix (w := ['.']) (by decide) t
          rw [List.singleton_append] at h2
          rw [h2] at hn
          simp only [List.head?_cons, Option.some.injEq] at hn
          subst hn
          refine ⟨by simp, ?_⟩
          simp [isNumber, show isDigit '.' = false by decide]

/-- The four grammars: the street number is empty only in the branch of `rePO`, which
leaves the street name empty as well, and a street number that is a run of digits comes
with a street name. -/
theorem streetGrammars_fields {T : Tables} {address : Str} {r r' : Address} {s : Str}
    (h : streetGrammars T address r s = .ok r') (h1 : r.StreetNumber = [])
    (h2 : r.StreetName = []) :
    (r'.StreetNumber = [] →
      r'.StreetName = [] ∧ ∃ t, findMatch poAt t = some r'.AddressLine1) ∧
    (isNumber r'.StreetNumber = true → r'.StreetName ≠ []) := by
  unfold streetGrammars at h
  split at h
  · rename_i line1 hl
    obtain ⟨g1, g2⟩ := aveLetterStreet_fields hl h
    exact ⟨fun h0 => absurd h0 g1, fun hn => by rw [g2] at hn; cases hn⟩
  · split at h
    · exact absurd h standardStreet_ne_ok
    · split at h
      · rename_i line1 hl
        injection h with h
        subst h
        refine ⟨fun _ => ⟨h2, s, hl⟩, fun hn => ?_⟩
        simp only [h1] at hn
        cases hn
      · split at h
        · obtain ⟨g1, g2⟩ := noSuffixStreet_fields h
          exact ⟨fun h0 => absurd h0 g1, g2⟩
        · cases h

theorem parseStreet_fields {T : Tables} {address stateString : Str} {r r' : Address}
    {parts : List Str} (h : parseStreet T address stateString r parts = .ok r')
    (h1 : r.StreetNumber = []) (h2 : r.StreetName = []) :
    (r'.StreetNumber = [] →
      r'.StreetName = [] ∧ ∃ t, findMatch poAt t = some r'.AddressLine1) ∧
    (isNumber r'.StreetNumber = true → r'.StreetName ≠ []) := by
  unfold parseStreet at h
  split at h
  · simp only at h
    split at h
    · split at h
      · cases h
      · exact streetGrammars_fields h h1 h2
    · exact streetGrammars_fields h h1 h2
  · cases h

theorem splitLines_fields {r r' : Address} {parts parts' : List Str}
    (h : splitLines r parts = .ok (r', parts')) :
    r'.StreetNumber = r.StreetNumber ∧ r'.StreetName = r.StreetName := by
  unfold splitLines at h
  split at h
  · cases h
  · split at h
    · split at h <;>
      · injection h with h
        injection h with h1 h2
        subst h1
        exact ⟨rfl, rfl⟩
    · injection h with h
      injection h with h1 h2
      subst h1
      exact ⟨rfl, rfl⟩

/-- C12: for every record that `ParseAddress` returns on an ASCII input, with tables of
ASCII entries without metacharacter, `StateAbbreviation` has length exactly 2;
`StreetNumber` is empty only when `AddressLine1` is a match of the PO Box
pattern, and then `StreetName` is empty as well, since that grammar does not decompose the
line; and `StreetName` is not empty whenever `StreetNumber` is a run of digits. -/
theorem record_invariant (T : Tables) (input : Str) (r : Address)
    (_hascii : isAscii input = true) (_hliteral : literalTables T = true)
    (hr : ParseAddress T input = .ok r) :
    r.StateAbbreviation.length = 2 ∧
    (r.StreetNumber = [] →
      r.StreetName = [] ∧ ∃ t, findMatch poAt t = some r.AddressLine1) ∧
    (isNumber r.StreetNumber = true → r.StreetName ≠ []) := by
  obtain ⟨x, -, hx, -⟩ := ParseAddress_ok hr
  obtain ⟨z, hz, -, -, hst, -⟩ := ParseAddress_header hr
  obtain ⟨f1, f2, -⟩ := afterCity_street_fields hx
  have hlen : r.StateAbbreviation.length = 2 := by
    have hx' := hx
    unfold afterCity at hx'
    rw [hz] at hx'
    rw [hst]
    exact (@placed_ok T z x hx').2.2.2.2.2.2.2
  rw [ParseAddress_eq_finish hx] at hr
  unfold finish at hr
  obtain ⟨rl, h1, h2⟩ := Outcome.bind_eq_ok.1 hr
  obtain ⟨r', h3, h4⟩ := Outcome.bind_eq_ok.1 h2
  injection h4 with h4
  subst h4
  obtain ⟨g1, g2⟩ := @splitLines_fields x.1 rl.1 x.2.1 rl.2 h1
  have := parseStreet_fields h3 (g1.trans f1) (g2.trans f2)
  rw [(compose_fields r').2.2.2.2.2.2.2.1, (compose_fields r').2.2.2.2.2.2.2.2.1,
    (compose_fields r').1]
  exact ⟨hlen, this⟩

/-- C12, on the address of the test. -/
theorem record_invariant_witness :
    testRecord.StateAbbreviation.length = 2 ∧
    (testRecord.StreetNumber = [] →
      testRecord.StreetName = [] ∧ ∃ t, findMatch poAt t = some testRecord.AddressLine1) ∧
    (isNumber testRecord.StreetNumber = true → testRecord.StreetName ≠ []) :=
  record_invariant sampleTables testAddress testRecord (by decide) (by decide) (by decide!)

/-- C12 fails on a street line that the PO Box pattern matches, which takes literal
backslashes: the record has `AddressLine1` equal to the street line and `StreetNumber` and
`StreetName` empty. -/
theorem record_invariant_counterexample :
    ∃ r, ParseAddress sampleTables "P\\O\\\\sBOX\\s\\w, Springfield, IL 62701".toList = .ok r ∧
      r.AddressLine1 = "P\\O\\\\sBOX\\s\\w".toList ∧ r.StreetNumber = [] ∧ r.StreetName = [] :=
  ⟨compose
    { ZipCode := "62701".toList
      StateAbbreviation := "IL".toList
      StateName := "Illinois".toList
      PlaceName := "Springfield".toList
      AddressLine1 := "P\\O\\\\sBOX\\s\\w".toList },
    by decide!, by decide!, by decide!, by decide!⟩

/-! ## The order of the state table -/

theorem find?_perm_unique {α : Type} {l1 l2 : List α} (p : α → Bool) (hperm : l1.Perm l2)
    (hu : ∀ a ∈ l2, ∀ b ∈ l2, p a = true → p b = true → a = b) :
    l1.find? p = l2.find? p := by
  cases h1 : l1.find? p with
  | none =>
    cases h2 : l2.find? p with
    | none => rfl
    | some b =>
      have hb := List.find?_some h2
      have hm := hperm.symm.subset (List.mem_of_find?_eq_some h2)
      rw [List.find?_eq_none] at h1
      exact absurd hb (h1 b hm)
  | some a =>
    have ha := List.find?_some h1
    have hm := hperm.subset (List.mem_of_find?_eq_some h1)
    cases h2 : l2.find? p with
    | none =>
      rw [List.find?_eq_none] at h2
      exact absurd ha (h2 a hm)
    | some b =>
      rw [hu a hm b (List.mem_of_find?_eq_some h2) ha (List.find?_some h2)]

/-- The fallback scan takes the first entry whose pattern matches. -/
theorem scanStates_eq_find (l : List (Str × Str)) (s : Str) :
    scanStates l s =
      match l.find? (fun kv => (stateMatchLen kv.1 kv.2 s).isSome) with
      | some kv => (kv.2, toTitleCase kv.1, dropLastN ((stateMatchLen kv.1 kv.2 s).getD 0) s)
      | none => ([], [], s) := by
  induction l with
  | nil => rfl
  | cons kv rest ih =>
    obtain ⟨key, abbr⟩ := kv
    rw [scanStates, List.find?_cons]
    cases h : stateMatchLen key abbr s with
    | some n => simp [h]
    | none => simpa [h] using ih

/-- The state resolver does not depend on the order of the table when at most one entry
can be chosen for the text. -/
theorem resolveState_perm {l1 l2 : List (Str × Str)} {s : Str} (hperm : l1.Perm l2)
    (hu : ∀ a ∈ l2, ∀ b ∈ l2, stateCandidate s a = true → stateCandidate s b = true → a = b) :
    resolveState l1 s = resolveState l2 s := by
  have h1 : getKeyByValue l1 (toUpper s) = getKeyByValue l2 (toUpper s) := by
    unfold getKeyByValue
    rw [find?_perm_unique _ hperm]
    intro a ha b hb pa pb
    exact hu a ha b hb (by simp [stateCandidate, pa]) (by simp [stateCandidate, pb])
  have h2 : scanStates l1 s = scanStates l2 s := by
    rw [scanStates_eq_find, scanStates_eq_find, find?_perm_unique _ hperm]
    intro a ha b hb pa pb
    exact hu a ha b hb (by simp [stateCandidate, pa]) (by simp [stateCandidate, pb])
  unfold resolveState
  rw [h1, h2]

theorem placed_states (T : Tables) (states : List (Str × Str)) (z : Address × List Str × Str)
    (h : resolveState states z.2.2 = resolveState T.allStates z.2.2) :
    placed { T with allStates := states } z = placed T z := by
  unfold placed
  simp only [h]
  rfl

theorem finish_states (T : Tables) (states : List (Str × Str)) (address : Str)
    (x : Address × List Str × Str) :
    finish { T with allStates := states } address x = finish T address x := rfl

/-- The outcome does not depend on the order of the state table when at most one entry
can be chosen for the text that the state resolver examines. -/
theorem ParseAddress_perm (T : Tables) {states : List (Str × Str)} {input : Str}
    (hperm : states.Perm T.allStates)
    (hu : ∀ s, stateText input = some s → ∀ a ∈ T.allStates, ∀ b ∈ T.allStates,
      stateCandidate s a = true → stateCandidate s b = true → a = b) :
    ParseAddress { T with allStates := states } input = ParseAddress T input := by
  unfold ParseAddress
  split
  · rfl
  · unfold parseNormalised afterCity
    cases hz : zipped (collapseSpaces input) with
    | error e => rfl
    | panic => rfl
    | ok z =>
      have hs : stateText input = some z.2.2 := by
        unfold stateText
        rw [hz]
      simp only [Outcome.bind]
      rw [placed_states T states z (resolveState_perm hperm (hu _ hs))]
      cases placed T z with
      | error e => rfl
      | panic => rfl
      | ok x => exact finish_states T states _ x

/-- C19: for every ASCII input, every table of ASCII entries without metacharacter and
every enumeration of the entries of the state table in another order, `ParseAddress`
returns the same outcome, provided that at most one entry of the table can be chosen for
the text that the state resolver examines: at most one entry has the text in upper case as
its abbreviation or a pattern that matches the text. -/
theorem state_order (T : Tables) (states : List (Str × Str)) (input : Str)
    (_hascii : isAscii input = true) (_hliteral : literalTables T = true)
    (hperm : states.Perm T.allStates)
    (hu : ∀ s, stateText input = some s → ∀ a ∈ T.allStates, ∀ b ∈ T.allStates,
      stateCandidate s a = true → stateCandidate s b = true → a = b) :
    ParseAddress { T with allStates := states } input = ParseAddress T input :=
  ParseAddress_perm T hperm hu

/-- C19, on the address of the test and the state table with `West Virginia` first. -/
theorem state_order_witness :
    ParseAddress { sampleTables with allStates := reorderedTables.allStates } testAddress =
      ParseAddress sampleTables testAddress :=
  state_order sampleTables reorderedTables.allStates testAddress (by decide) (by decide)
    (by decide) (by decide!)

/-- C19 fails on `100 Main St, Charleston, West Virginia 25301`: with `Virginia` in front of
`West Virginia` the state is `VA`, the text `West` is left over and the call ends with the
error "More than two address lines"; with the same entries in another order the state is
`WV` and a record is returned. -/
theorem state_order_counterexample :
    reorderedTables.allStates.Perm sampleTables.allStates ∧
    reorderedTables.allCities = sampleTables.allCities ∧
    reorderedTables.usStreetTypes = sampleTables.usStreetTypes ∧
    ParseAddress sampleTables "100 Main St, Charleston, West Virginia 25301".toList =
      .error .moreThanTwoLines ∧
    ParseAddress reorderedTables "100 Main St, Charleston, West Virginia 25301".toList =
      .ok { ZipCode := "25301".toList
            StateAbbreviation := "WV".toList
            StateName := "West Virginia".toList
            AddressLine1 := "100 Main St".toList
            AddressLine2 := "Charleston".toList
            StreetNumber := "100".toList
            StreetName := "Main St".toList } := by
  refine ⟨by decide, rfl, rfl, by decide!, by decide!⟩

/-! ## The country segment and the order of the state table -/

theorem stateText_country {s c : Str} (hc : isCountry c = true)
    (hlast : ∀ seg, (splitAddress (collapseSpaces s)).getLast? = some seg →
      isCountry (trimSpace seg) = false) :
    stateText (s ++ ", ".toList ++ c) = stateText s := by
  unfold stateText zipped trailingStage
  rw [countryStage_country hc, countryStage_keep hlast]

/-- C14: for every ASCII input `s` whose last segment, trimmed, is not a country token,
every table of ASCII entries without metacharacter and every country token `c` (`US`,
`USA`, `United States`, `Canada`), when at most one entry of the state table can be chosen
for the text that the state resolver examines, `ParseAddress` returns a record on `s, c`
exactly when it returns a record on `s`, and the record is the same, whatever the orders
in which the two calls enumerate the state table; no segment of `s` is dropped by the
country stage, and a last segment `usa` is kept as well. -/
theorem country_transparent (T : Tables) (states1 states2 : List (Str × Str)) (s c : Str)
    (_hascii : isAscii s = true) (_hliteral : literalTables T = true)
    (h1 : states1.Perm T.allStates) (h2 : states2.Perm T.allStates)
    (hc : isCountry c = true)
    (hlast : ∀ seg, (splitAddress (collapseSpaces s)).getLast? = some seg →
      isCountry (trimSpace seg) = false)
    (hu : ∀ t, stateText s = some t → ∀ a ∈ T.allStates, ∀ b ∈ T.allStates,
      stateCandidate t a = true → stateCandidate t b = true → a = b) :
    (∀ r, ParseAddress { T with allStates := states1 } (s ++ ", ".toList ++ c) = .ok r ↔
      ParseAddress { T with allStates := states2 } s = .ok r) ∧
    countryStage (collapseSpaces s) = .ok (splitAddress (collapseSpaces s)) ∧
    countryStage (collapseSpaces (s ++ ", ".toList ++ c)) =
      .ok (splitAddress (collapseSpaces s)) ∧
    countryStage (collapseSpaces "100 Main St, Springfield, IL 62701, usa".toList) =
      .ok ["100 Main St".toList, " Springfield".toList, " IL 62701".toList, " usa".toList] := by
  refine ⟨fun r => ?_, countryStage_keep hlast, countryStage_country hc, by decide!⟩
  rw [ParseAddress_perm T h1 (by rw [stateText_country hc hlast]; exact hu),
    ParseAddress_perm T h2 hu]
  exact ParseAddress_country T hc hlast r

/-- C14, on the address of the test with the country `USA`, the first call with `West
Virginia` first in the state table and the second with the order of the examples. -/
theorem country_transparent_witness :
    (∀ r, ParseAddress { sampleTables with allStates := reorderedTables.allStates }
        (testAddress ++ ", ".toList ++ "USA".toList) = .ok r ↔
      ParseAddress { sampleTables with allStates := sampleTables.allStates } testAddress =
        .ok r) ∧
    countryStage (collapseSpaces testAddress) = .ok (splitAddress (collapseSpaces testAddress)) ∧
    countryStage (collapseSpaces (testAddress ++ ", ".toList ++ "USA".toList)) =
      .ok (splitAddress (collapseSpaces testAddress)) ∧
    countryStage (collapseSpaces "100 Main St, Springfield, IL 62701, usa".toList) =
      .ok ["100 Main St".toList, " Springfield".toList, " IL 62701".toList, " usa".toList] :=
  country_transparent sampleTables reorderedTables.allStates sampleTables.allStates
    testAddress "USA".toList (by decide) (by decide) (by decide) (List.Perm.refl _)
    (by decide) (by decide!) (by decide!)

/-- C14 as stated fails: the last segment of `100 Main St, Charleston, West Virginia 25301`
is no country token; a call that enumerates `Virginia` in front of `West Virginia` ends
with the error "More than two address lines" on it, and a call that enumerates the same
entries with `West Virginia` first returns a record on the input followed by `, USA`. -/
theorem country_transparent_counterexample :
    reorderedTables.allStates.Perm sampleTables.allStates ∧
    reorderedTables.allCities = sampleTables.allCities ∧
    reorderedTables.usStreetTypes = sampleTables.usStreetTypes ∧
    countryStage (collapseSpaces "100 Main St, Charleston, West Virginia 25301".toList) =
      .ok ["100 Main St".toList, " Charleston".toList, " West Virginia 25301".toList] ∧
    ParseAddress sampleTables "100 Main St, Charleston, West Virginia 25301".toList =
      .error .moreThanTwoLines ∧
    ParseAddress reorderedTables "100 Main St, Charleston, West Virginia 25301, USA".toList =
      .ok { ZipCode := "25301".toList
            StateAbbreviation := "WV".toList
            StateName := "West Virginia".toList
            AddressLine1 := "100 Main St".toList
            AddressLine2 := "Charleston".toList
            StreetNumber := "100".toList
            StreetName := "Main St".toList } := by
  refine ⟨by decide, rfl, rfl, by decide!, by decide!, by decide!⟩

end Addresser
